import Mathlib

/-!
# ClusterCat: the model-building passes of `clustercat.c`

A shallow embedding of the corpus passes of `src/clustercat.c`, of the checks that `main`
and `parse_cmd_args` make on the command line and of the scoring kernel, and the properties
of the structures they build.

Conventions of the embedding.

* A C array is a `List`; `a[i]` is `a.getD i 0` and a store `a[i] = v` is `a.set i v`.
* An integer sentence `sent_store_int[n]` is the list of its word ids; its field
  `length` is the length of that list (`sent_buffer2sent_store_int` allocates
  exactly `length` ids for `sent`).
* The counter types (`word_class_count_t`, `wclass_count_t`, `word_count_t`, ...) are
  declared in `clustercat.h`; counters are natural numbers here.
* A C string is the list of its characters before the terminating NUL.
* The hash maps of `clustercat-map.c` keep insertion order; a map is the list of its
  entries in that order. The functions of that file, `array_offset` and the macros of
  `clustercat.h` are not part of the source: the functions are modelled from what the
  specification says of them, the macros are the fields of `Limits`.
* A fixed-size scratch buffer that the code fills before it reads (`class_sent`) is a
  function from index to value.
-/

namespace ClusterCat

/-! ## Definitions -/

/-! ### Arrays of counters -/

/-- The statement `a[i]++` on an array of counters. -/
def incr (a : List Nat) (i : Nat) : List Nat := a.set i (a.getD i 0 + 1)

/-! ### Word-class matrix -/

/-- Embedding of `build_word_class_counts` (clustercat.c:747-766): one pass over the
sentences, and for each position `i` from 1 to `sent_length - 1` the increment of
`word_class_counts[word_id_i_minus_1 * num_classes + class_i]`. -/
def build_word_class_counts (num_classes : Nat) (word_class_counts : List Nat)
    (word2class : List Nat) (sent_store_int : List (List Nat)) (reverse : Bool) : List Nat :=
  sent_store_int.foldl (fun counts sent =>
    (List.range' 1 (sent.length - 1)).foldl (fun counts i =>
      let class_i :=
        if reverse then word2class.getD (sent.getD (i - 1) 0) 0
        else word2class.getD (sent.getD i 0) 0
      let word_id_i_minus_1 :=
        if reverse then sent.getD i 0 else sent.getD (i - 1) 0
      incr counts (word_id_i_minus_1 * num_classes + class_i)) counts) word_class_counts

/-- Number of (sentence, position `i ≥ 1`) pairs of the corpus at which the adjacent words
`(sent[i-1], sent[i])` pass the test `p`. -/
def count_positions (corpus : List (List Nat)) (p : Nat → Nat → Bool) : Nat :=
  (corpus.map fun sent =>
    ((List.range sent.length).filter fun i =>
      decide (1 ≤ i) && p (sent.getD (i - 1) 0) (sent.getD i 0)).length).sum

/-- Index written by `build_word_class_counts` at position `i` of `sent`. -/
def wc_index (K : Nat) (cls : List Nat) (reverse : Bool) (sent : List Nat) (i : Nat) : Nat :=
  (if reverse then sent.getD i 0 else sent.getD (i - 1) 0) * K +
    (if reverse then cls.getD (sent.getD (i - 1) 0) 0 else cls.getD (sent.getD i 0) 0)

/-- The pair test counted by the matrix entry `(u, c)`. -/
def wc_test (cls : List Nat) (reverse : Bool) (u c : Nat) (x y : Nat) : Bool :=
  if reverse then (y == u && cls.getD x 0 == c) else (x == u && cls.getD y 0 == c)

/-! ### Dense class n-gram count arrays -/

/-- Modelled from the spec: `array_offset` of `clustercat-array.h`, which is not part of the
source. For the slice `(c_0, ..., c_{n-1})` of class ids starting at `pointer` and the class
count `K` it returns the flat offset `((c_0·K + c_1)·K + …)·K + c_{n-1}`. -/
def array_offset (pointer : List Nat) (n : Nat) (num_classes : Nat) : Nat :=
  (pointer.take n).foldl (fun o c => o * num_classes + c) 0

/-- Embedding of `init_count_arrays` (clustercat.c:895-904): for each order `i` from 1 to
`max_array` a zeroed array of `powi(num_classes, i)` counters in `count_arrays[i-1]`. -/
def init_count_arrays (max_array num_classes : Nat) : List (List Nat) :=
  (List.range max_array).map fun i => List.replicate (num_classes ^ (i + 1)) 0

/-- The statement `count_arrays[n][offset]++`. -/
def incr_count (count_arrays : List (List Nat)) (n offset : Nat) : List (List Nat) :=
  count_arrays.set n (incr (count_arrays.getD n []) offset)

/-- The `n` entries read through the pointer `&class_sent[start]`. The sentence buffer
`class_sent` is a function from index to class id. -/
def slice (class_sent : Nat → Nat) (start n : Nat) : List Nat :=
  (List.range n).map fun j => class_sent (start + j)

/-- Body of the word loop of `tally_class_counts_in_store` (clustercat.c:539-550) at
position `i` of `sent`, on the state made of the buffer `class_sent` and `count_arrays`. -/
def tally_class_counts_step (max_array num_classes : Nat) (word2class sent : List Nat)
    (st : (Nat → Nat) × List (List Nat)) (i : Nat) : (Nat → Nat) × List (List Nat) :=
  let class_sent : Nat → Nat :=
    fun j => if j = i then word2class.getD (sent.getD i 0) 0 else st.1 j
  let count_arrays := incr_count st.2 0 (class_sent i)
  if 1 < max_array ∧ 0 < i then
    let offset := array_offset (slice class_sent (i - 1) 2) 2 num_classes
    let count_arrays := incr_count count_arrays 1 offset
    if 2 < max_array ∧ 1 < i then
      let offset := array_offset (slice class_sent (i - 2) 3) 3 num_classes
      (class_sent, incr_count count_arrays 2 offset)
    else (class_sent, count_arrays)
  else (class_sent, count_arrays)

/-- Embedding of `tally_class_counts_in_store` (clustercat.c:532-553). The buffer
`class_sent` is declared before the sentence loop and is not initialised; every entry is
written before it is read, and the model starts it at zero. -/
def tally_class_counts_in_store (max_array num_classes : Nat)
    (sent_store_int : List (List Nat)) (word2class : List Nat)
    (count_arrays : List (List Nat)) : List (List Nat) :=
  (sent_store_int.foldl (fun st sent =>
    (List.range sent.length).foldl
      (tally_class_counts_step max_array num_classes word2class sent) st)
    ((fun _ => 0), count_arrays)).2

/-- Number of (sentence, position) pairs at which the class n-gram `c` occurs contiguously,
ending at that position, once every word is replaced by its class. -/
def class_ngram_occurrences (corpus : List (List Nat)) (word2class : List Nat)
    (c : List Nat) : Nat :=
  (corpus.map fun sent =>
    ((List.range sent.length).filter fun i =>
      decide (c.length ≤ i + 1) &&
        decide ((((sent.map fun w => word2class.getD w 0).drop (i + 1 - c.length)).take
          c.length) = c)).length).sum

/-- Increments made by `tally_class_counts_in_store` at position `i` of a sentence whose
classes are `cs`, as (array index, offset) pairs in execution order. -/
def tally_events (max_array num_classes : Nat) (cs : Nat → Nat) (i : Nat) : List (Nat × Nat) :=
  (0, cs i) ::
    (if 1 < max_array ∧ 0 < i then
      (1, array_offset (slice cs (i - 1) 2) 2 num_classes) ::
        (if 2 < max_array ∧ 1 < i then
          [(2, array_offset (slice cs (i - 2) 3) 3 num_classes)] else [])
    else [])

/-! ### Bigram predecessor lists -/

/-- An entry of the bigram hash map: the key `(word_1, word_2)` and its count. -/
structure struct_map_bigram where
  word_1 : Nat
  word_2 : Nat
  count : Nat
deriving DecidableEq

/-- An entry of `word_bigrams`: `length` and the parallel arrays `words` and `counts`.
The entry that `calloc` leaves (zero length, null pointers) is `⟨0, [], []⟩`. -/
structure struct_word_bigram_entry where
  length : Nat
  words : List Nat
  counts : List Nat
deriving DecidableEq

/-- Modelled from the spec: `map_increment_bigram` of `clustercat-map.c`, which is not part
of the source. It accumulates the hash map from `(u, v)` to count: the count of a bigram
already present goes up by one, a new bigram is added at the end with count 1. -/
def map_increment_bigram :
    List struct_map_bigram → Nat × Nat → List struct_map_bigram
  | [], bigram => [⟨bigram.1, bigram.2, 1⟩]
  | e :: es, bigram =>
    if e.word_1 = bigram.1 ∧ e.word_2 = bigram.2 then
      { e with count := e.count + 1 } :: es
    else e :: map_increment_bigram es bigram

/-- Modelled from the spec: `sort_bigrams` of `clustercat-map.c`, which is not part of the
source. It is the key sort that groups the bigrams by their second word `v`, keeping the
insertion order inside a group. -/
def sort_bigrams (map_bigram : List struct_map_bigram) : List struct_map_bigram :=
  map_bigram.insertionSort fun a b => a.word_2 ≤ b.word_2

/-- State of the second loop of `set_bigram_counts`. -/
structure bigram_loop_state where
  word_bigrams : List struct_word_bigram_entry
  word_2_last : Nat
  length : Nat
  word_buffer : List Nat
  count_buffer : List Nat

/-- Body of the `HASH_ITER` loop of `set_bigram_counts` (clustercat.c:712-738). -/
def set_bigram_counts_step (st : bigram_loop_state) (entry : struct_map_bigram) :
    bigram_loop_state :=
  let word_2 := entry.word_2
  if word_2 = st.word_2_last then
    { st with
      word_buffer := st.word_buffer.set st.length entry.word_1
      count_buffer := st.count_buffer.set st.length entry.count
      length := st.length + 1 }
  else
    { word_bigrams := st.word_bigrams.set st.word_2_last
        ⟨st.length, st.word_buffer.take st.length, st.count_buffer.take st.length⟩
      word_2_last := word_2
      word_buffer := st.word_buffer.set 0 entry.word_1
      count_buffer := st.count_buffer.set 0 entry.count
      length := 1 }

/-- Embedding of `set_bigram_counts` (clustercat.c:679-745): the contents of `word_bigrams`
when the function returns (the returned byte count is left out). `MAX_WORD_PREDECESSORS`,
the size of the two buffers, is a macro of `clustercat.h` and is a parameter here. -/
def set_bigram_counts (MAX_WORD_PREDECESSORS : Nat)
    (word_bigrams : List struct_word_bigram_entry) (sent_store_int : List (List Nat))
    (reverse : Bool) : List struct_word_bigram_entry :=
  let map_bigram : List struct_map_bigram :=
    sent_store_int.foldl (fun m sent =>
      (List.range' 1 (sent.length - 1)).foldl (fun m i =>
        let bigram : Nat × Nat :=
          if reverse then (sent.getD i 0, sent.getD (i - 1) 0)
          else (sent.getD (i - 1) 0, sent.getD i 0)
        map_increment_bigram m bigram) m) []
  let map_bigram := sort_bigrams map_bigram
  (map_bigram.foldl set_bigram_counts_step
    { word_bigrams := word_bigrams
      word_2_last := 0
      length := 0
      word_buffer := List.replicate MAX_WORD_PREDECESSORS 0
      count_buffer := List.replicate MAX_WORD_PREDECESSORS 0 }).word_bigrams

/-! ### Vocabulary map -/

/-- Macros of `clustercat.h` that the source uses and does not define:
the token separators of `strtok`, the word-length bound, the two sentence-length bounds
and the line-length bound. -/
structure Limits where
  TOK_CHARS : List Char
  MAX_WORD_LEN : Nat
  STDIN_SENT_MAX_WORDS : Nat
  SENT_LEN_MAX : Nat
  STDIN_SENT_MAX_CHARS : Nat

/-- Modelled from the spec: the macro `UNKNOWN_WORD` of `clustercat.h`, the reserved
symbol `<unk>`. -/
def UNKNOWN_WORD : List Char := "<unk>".toList

/-- An entry of the word hash map `ngram_map`: the key, its count and its word id. -/
structure struct_map_word where
  key : List Char
  count : Nat
  word_id : Nat
deriving DecidableEq

/-- Modelled from the spec: `map_update_count` of `clustercat-map.c`, which is not part of
the source. It adds `count` to the count of `entry_key`; a key that is absent is added at
the end of the map (the hash map keeps insertion order) with that count. -/
def map_update_count (map : List struct_map_word) (entry_key : List Char) (count : Nat) :
    List struct_map_word :=
  if entry_key ∈ map.map (·.key) then
    map.map fun e => if e.key = entry_key then { e with count := e.count + count } else e
  else map ++ [⟨entry_key, count, 0⟩]

/-- Modelled from the spec: `map_increment_count` of `clustercat-map.c`, which is not part
of the source. It accumulates a unigram count: the count of `entry_key` goes up by one. -/
def map_increment_count (map : List struct_map_word) (entry_key : List Char) :
    List struct_map_word :=
  map_update_count map entry_key 1

/-- Modelled from the spec: `map_find_count` of `clustercat-map.c`, which is not part of
the source. It is the count stored for `entry_key`, and 0 for a key that is absent. -/
def map_find_count (map : List struct_map_word) (entry_key : List Char) : Nat :=
  match map.find? fun e => e.key = entry_key with
  | some e => e.count
  | none => 0

/-- Modelled from the spec: `map_find_int` of `clustercat-map.c`, which is not part of the
source. It is the word id stored for `entry_key`; a token absent from the vocabulary falls
back to the id reserved for `<unk>`, which is 0. -/
def map_find_int (map : List struct_map_word) (entry_key : List Char) : Nat :=
  match map.find? fun e => e.key = entry_key with
  | some e => e.word_id
  | none => 0

/-- Modelled from the spec: `map_set_word_id` of `clustercat-map.c`, which is not part of
the source. It stores `word_id` as the id of `entry_key`. -/
def map_set_word_id (map : List struct_map_word) (entry_key : List Char) (word_id : Nat) :
    List struct_map_word :=
  map.map fun e => if e.key = entry_key then { e with word_id := word_id } else e

/-- Modelled from the spec: `get_keys` of `clustercat-map.c`, which is not part of the
source. It lists the keys of the map in the order of the map; the value it returns is the
length of that list. -/
def get_keys (map : List struct_map_word) : List (List Char) :=
  map.map (·.key)

/-- Modelled from the spec: `map_count` of `clustercat-map.c`, which is not part of the
source: the number of entries of the map. -/
def map_count (map : List struct_map_word) : Nat :=
  map.length

/-- Modelled from the spec: `HASH_FIND_STR` followed by `delete_entry` of
`clustercat-map.c`, which is not part of the source: the entry of `entry_key` is removed
from the map. -/
def delete_entry (map : List struct_map_word) (entry_key : List Char) :
    List struct_map_word :=
  map.eraseP fun e => e.key = entry_key

/-- Modelled from the spec: `sort_by_count` of `clustercat-map.c`, which is not part of the
source. It sorts the words by decreasing count, words of equal count keeping their order. -/
def sort_by_count (map : List struct_map_word) : List struct_map_word :=
  map.insertionSort fun a b => b.count ≤ a.count

/-! ### First pass over the sentence buffer: unigram counts -/

/-- Tokens that successive calls of `strtok(_, TOK_CHARS)` return on `str`: the maximal runs
of characters that are not separators. `cur` is the token being read. -/
def strtok_tokens (TOK_CHARS : List Char) : List Char → List Char → List (List Char)
  | [], cur => if cur = [] then [] else [cur]
  | ch :: rest, cur =>
    if ch ∈ TOK_CHARS then
      if cur = [] then strtok_tokens TOK_CHARS rest []
      else cur :: strtok_tokens TOK_CHARS rest []
    else strtok_tokens TOK_CHARS rest (cur ++ [ch])

/-- Conversion of a `size_t` length to the 16-bit `short` of `word_lengths`. -/
def to_short (n : Nat) : Int :=
  if n % 65536 < 32768 then (n % 65536 : Nat) else ((n % 65536 : Nat) : Int) - 65536

/-- A tokenized sentence `struct_sent_info`: the words, their lengths and `length`. -/
structure struct_sent_info where
  sent : List (List Char)
  word_lengths : List Int
  length : Nat

/-- The `for` loop of `tokenize_sent` (clustercat.c:628-645). `tokens` are the tokens that
`strtok` has still to return, its head being `pch`; `w_i` is the index written next. -/
def tokenize_sent_loop (L : Limits) :
    List (List Char) → Nat → struct_sent_info → Nat × struct_sent_info
  | [], w_i, sent_info => (w_i, sent_info)
  | pch :: rest, w_i, sent_info =>
    if w_i < L.SENT_LEN_MAX then
      if w_i = L.STDIN_SENT_MAX_WORDS - 1 then (w_i, sent_info)
      else
        let word_length := to_short pch.length
        if word_length > (L.MAX_WORD_LEN : Int) then
          tokenize_sent_loop L rest (w_i + 1)
            { sent_info with
              sent := sent_info.sent ++ [pch.take L.MAX_WORD_LEN]
              word_lengths := sent_info.word_lengths ++ [(L.MAX_WORD_LEN : Int)] }
        else
          tokenize_sent_loop L rest (w_i + 1)
            { sent_info with
              sent := sent_info.sent ++ [pch]
              word_lengths := sent_info.word_lengths ++ [word_length] }
    else (w_i, sent_info)

/-- Embedding of `tokenize_sent` (clustercat.c:617-651). -/
def tokenize_sent (L : Limits) (sent_str : List Char) : struct_sent_info :=
  let r := tokenize_sent_loop L (strtok_tokens L.TOK_CHARS sent_str []) 1
    { sent := ["<s>".toList], word_lengths := [3], length := 0 }
  { sent := r.2.sent ++ ["</s>".toList]
    word_lengths := r.2.word_lengths ++ [4]
    length := r.1 + 1 }

/-- Embedding of `increment_ngram_variable_width` (clustercat.c:474-519) at its only call,
where `start_position = i`. The first loop runs once: when
`ngram_len + sizeof_char + word_lengths[i] < UCHAR_MAX` (in `size_t`, so a negative length
fails the test except -1, which leaves `ngram_len` at 0) the n-gram is the word `sent[i]`
and its count goes up by one; otherwise `ngram_len` stays 0 and the function returns. -/
def increment_ngram_variable_width (ngram_map : List struct_map_word)
    (sent : List (List Char)) (word_lengths : List Int) (i : Nat) : List struct_map_word :=
  if 0 ≤ word_lengths.getD i 0 ∧ 1 + word_lengths.getD i 0 < 255 then
    map_increment_count ngram_map (sent.getD i [])
  else ngram_map

/-- Embedding of `process_str_sent` (clustercat.c:589-614) on the global `ngram_map`: the
token count it returns and the map it leaves. -/
def process_str_sent (L : Limits) (ngram_map : List struct_map_word) (sent_str : List Char) :
    Nat × List struct_map_word :=
  if sent_str.head? = some '\n' then (0, ngram_map)
  else
    let sent_info := tokenize_sent L sent_str
    let token_count := sent_info.length
    (token_count,
      (List.range sent_info.length).foldl (fun m i =>
        increment_ngram_variable_width m sent_info.sent sent_info.word_lengths i) ngram_map)

/-- Embedding of `process_str_sents_in_buffer` (clustercat.c:576-587). `strncpy` copies the
first `STDIN_SENT_MAX_CHARS - 2` characters of the line; for a line that long the byte
after them is indeterminate in C and is taken to be NUL here. -/
def process_str_sents_in_buffer (L : Limits) (ngram_map : List struct_map_word)
    (sent_buffer : List (List Char)) : Nat × List struct_map_word :=
  sent_buffer.foldl (fun acc line =>
    let r := process_str_sent L acc.2 (line.take (L.STDIN_SENT_MAX_CHARS - 2))
    (acc.1 + r.1, r.2)) (0, ngram_map)

/-! ### Vocabulary filter -/

/-- The test `strncmp(a, b, n) == 0` on C strings. -/
def strncmp_eq (a b : List Char) (n : Nat) : Bool :=
  a.take n == b.take n

/-- What `filter_infrequent_words` returns and leaves behind. -/
structure filter_state where
  number_of_deleted_words : Nat
  type_count : Nat
  ngram_map : List struct_map_word
deriving DecidableEq

/-- Body of the loop of `filter_infrequent_words` (clustercat.c:455-465) for the key
`word` of `local_word_list`. -/
def filter_infrequent_words_step (L : Limits) (min_count : Nat) (st : filter_state)
    (word : List Char) : filter_state :=
  let word_i_count := map_find_count st.ngram_map word
  if word_i_count < min_count ∧ strncmp_eq word UNKNOWN_WORD L.MAX_WORD_LEN = false then
    { number_of_deleted_words := st.number_of_deleted_words + 1
      type_count := st.type_count - 1
      ngram_map := delete_entry (map_update_count st.ngram_map UNKNOWN_WORD word_i_count) word }
  else st

/-- Embedding of `filter_infrequent_words` (clustercat.c:435-472). The result is
`Except.error 4` for `exit(4)`; otherwise the returned number of deleted words, the new
`model_metadata->type_count` and the new map. -/
def filter_infrequent_words (L : Limits) (min_count : Nat) (type_count : Nat)
    (ngram_map : List struct_map_word) : Except Nat filter_state :=
  let vocab_size := type_count
  let local_word_list := get_keys ngram_map
  if vocab_size ≠ local_word_list.length then Except.error 4
  else
    Except.ok (local_word_list.foldl (filter_infrequent_words_step L min_count)
      { number_of_deleted_words := 0, type_count := type_count, ngram_map := ngram_map })

/-! ### Word ids and the integer corpus -/

/-- Embedding of `build_word_count_array` (clustercat.c:422-426). -/
def build_word_count_array (ngram_map : List struct_map_word) (word_list : List (List Char))
    (type_count : Nat) : List Nat :=
  (List.range type_count).map fun i => map_find_count ngram_map (word_list.getD i [])

/-- Embedding of `populate_word_ids` (clustercat.c:428-433). -/
def populate_word_ids (ngram_map : List struct_map_word) (word_list : List (List Char))
    (type_count : Nat) : List struct_map_word :=
  (List.range type_count).foldl (fun m i => map_set_word_id m (word_list.getD i []) i)
    ngram_map

/-- The `for` loop of `sent_buffer2sent_store_int` (clustercat.c:391-401). `tokens` are the
tokens that `strtok` has still to return, its head being `pch`; `w_i` is the index of
`sent_int_temp` written next, and `sent` holds the entries below `w_i`. -/
def sent_buffer2sent_store_int_loop (L : Limits) (ngram_map : List struct_map_word) :
    List (List Char) → Nat → List Nat → Nat × List Nat
  | [], w_i, sent => (w_i, sent)
  | pch :: rest, w_i, sent =>
    if w_i < L.SENT_LEN_MAX then
      if w_i = L.STDIN_SENT_MAX_WORDS - 1 then (w_i, sent)
      else
        sent_buffer2sent_store_int_loop L ngram_map rest (w_i + 1)
          (sent ++ [map_find_int ngram_map pch])
    else (w_i, sent)

/-- Embedding of `sent_buffer2sent_store_int` (clustercat.c:370-420): the integer sentence
stored for each line of the buffer (the returned byte count is left out). -/
def sent_buffer2sent_store_int (L : Limits) (ngram_map : List struct_map_word)
    (sent_buffer : List (List Char)) : List (List Nat) :=
  sent_buffer.map fun sent_i =>
    let r := sent_buffer2sent_store_int_loop L ngram_map
      (strtok_tokens L.TOK_CHARS sent_i []) 1 [map_find_int ngram_map "<s>".toList]
    r.2 ++ [map_find_int ngram_map "</s>".toList]

/-- What `main` has built when the integer corpus is in place. -/
structure model_state where
  token_count : Nat
  type_count : Nat
  word_list : List (List Char)
  word_counts : List Nat
  ngram_map : List struct_map_word
  sent_store_int : List (List Nat)
deriving DecidableEq

/-- Embedding of the part of `main` that builds the vocabulary and the integer corpus
from the sentence buffer (clustercat.c:79-82, 103-107 and 117-137; the check of the number
of classes at lines 109-115 is not part of it). `Except.error 4` is `exit(4)`. -/
def main_build (L : Limits) (min_count : Nat) (sent_buffer : List (List Char)) :
    Except Nat model_state :=
  let ngram_map := map_update_count [] UNKNOWN_WORD 0
  let ngram_map := map_update_count ngram_map "<s>".toList 0
  let ngram_map := map_update_count ngram_map "</s>".toList 0
  let r := process_str_sents_in_buffer L ngram_map sent_buffer
  let token_count := r.1
  let type_count := map_count r.2
  match filter_infrequent_words L min_count type_count r.2 with
  | Except.error e => Except.error e
  | Except.ok f =>
    let ngram_map := sort_by_count f.ngram_map
    let word_list := get_keys ngram_map
    let word_counts := build_word_count_array ngram_map word_list f.type_count
    let ngram_map := populate_word_ids ngram_map word_list f.type_count
    Except.ok
      { token_count := token_count
        type_count := f.type_count
        word_list := word_list
        word_counts := word_counts
        ngram_map := ngram_map
        sent_store_int := sent_buffer2sent_store_int L ngram_map sent_buffer }

/-- Values of the macros of `Limits` used to run the examples: the separators are the
whitespace characters, and no bound truncates a word or a line of the examples. -/
def example_limits : Limits :=
  { TOK_CHARS := [' ', '\t', '\n']
    MAX_WORD_LEN := 128
    STDIN_SENT_MAX_WORDS := 1024
    SENT_LEN_MAX := 1024
    STDIN_SENT_MAX_CHARS := 8192 }

/-- The test of `filter_infrequent_words` that deletes `word`: its count in the map is
below `min_count` and it is not `<unk>`. -/
def doomed (min_count : Nat) (map : List struct_map_word) (word : List Char) : Prop :=
  map_find_count map word < min_count ∧ word ≠ UNKNOWN_WORD

instance (min_count : Nat) (map : List struct_map_word) (word : List Char) :
    Decidable (doomed min_count map word) := by
  unfold doomed; exact inferInstance

/-- Sum of the counts stored in the map. -/
def total_count (map : List struct_map_word) : Nat :=
  (map.map (·.count)).sum

/-- The map that `main` starts from (clustercat.c:80-82): the three reserved words, each
with count 0, `<unk>` first. -/
def reserved_words_map : List struct_map_word :=
  map_update_count (map_update_count (map_update_count [] UNKNOWN_WORD 0) "<s>".toList 0)
    "</s>".toList 0

/-- The sentence buffer of the corpus `x y z / x y z / x y q`. -/
def example_buffer : List (List Char) :=
  ["x y z\n".toList, "x y z\n".toList, "x y q\n".toList]

/-! ### Initial class assignment -/

/-- The values of `cmd_args.class_algo` that the source names (the enumeration itself is
declared in `clustercat.h`). -/
inductive class_algo_t where
  | EXCHANGE
  | BROWN
  | EXCHANGE_BROWN
deriving DecidableEq

/-- Embedding of `init_clusters` (clustercat.c:661-677): the contents of `word2class` when
the function returns. For the exchange algorithms the state of the loop is the running
`class` and the array; for Brown word `i` gets class `i`. The class type `wclass_t` is
declared in `clustercat.h`; classes are natural numbers here. -/
def init_clusters (class_algo : class_algo_t) (num_classes vocab_size : Nat)
    (word2class : List Nat) : List Nat :=
  match class_algo with
  | class_algo_t.BROWN =>
    (List.range vocab_size).foldl (fun w2c word_i => w2c.set word_i word_i) word2class
  | _ =>
    ((List.range vocab_size).foldl (fun (st : Nat × List Nat) word_i =>
      let cls := if st.1 = num_classes then 0 else st.1
      (cls + 1, st.2.set word_i cls)) (0, word2class)).2

/-- The map starts with the entries of the three reserved words, in the order in which
`main` inserts them. -/
def reserved_first (map : List struct_map_word) : Prop :=
  ∃ a b c rest, map = a :: b :: c :: rest ∧ a.key = UNKNOWN_WORD ∧ b.key = "<s>".toList ∧
    c.key = "</s>".toList

/-! ### Scoring kernel -/

/-- A value of the `float` computations of `query_int_sents_in_store`, taken over exact
rationals: a rational number, the infinity that a non-zero count divided by zero gives, or
the NaN of `0 / 0`. Rounding is not modelled; all operands are non-negative. -/
inductive fval where
  | rat (q : ℚ)
  | infty
  | nan
deriving DecidableEq

/-- The quotient `a / (float) b` of two counts. -/
def fval.of_counts (a b : Nat) : fval :=
  if b = 0 then (if a = 0 then fval.nan else fval.infty) else fval.rat ((a : ℚ) / (b : ℚ))

/-- The product `w * x` of a weight and an order probability. -/
def fval.scale (w : ℚ) : fval → fval
  | fval.rat q => fval.rat (w * q)
  | fval.infty => if w = 0 then fval.nan else fval.infty
  | fval.nan => fval.nan

/-- The sum `x + y`. -/
def fval.add : fval → fval → fval
  | fval.rat a, fval.rat b => fval.rat (a + b)
  | fval.nan, _ => fval.nan
  | _, fval.nan => fval.nan
  | _, _ => fval.infty

/-- The quotient `x / w` of a weighted sum by a sum of weights. -/
def fval.div_weight : fval → ℚ → fval
  | fval.rat q, w => if w = 0 then (if q = 0 then fval.nan else fval.infty) else fval.rat (q / w)
  | fval.infty, _ => fval.infty
  | fval.nan, _ => fval.nan

/-- The product `x * y` of the emission and transition probabilities. -/
def fval.mul : fval → fval → fval
  | fval.rat a, fval.rat b => fval.rat (a * b)
  | fval.rat a, fval.infty => if a = 0 then fval.nan else fval.infty
  | fval.infty, fval.rat b => if b = 0 then fval.nan else fval.infty
  | fval.infty, fval.infty => fval.infty
  | _, _ => fval.nan

/-- The substitution `isnan(x) ? 0.0f : x`. -/
def fval.unnan (x : fval) : fval :=
  if x = fval.nan then fval.rat 0 else x

/-- The read `count_arrays[n][offset]`. -/
def count_at (count_arrays : List (List Nat)) (n offset : Nat) : Nat :=
  (count_arrays.getD n []).getD offset 0

/-- The variables of the transition-probability computation of `query_int_sents_in_store`
(clustercat.c:819-858). -/
structure score_state where
  weights_class : List ℚ
  order_probs : List fval
  sum_weights : ℚ
  sum_probs : fval
deriving DecidableEq

/-- What `query_int_sents_in_store` computes at one position. -/
structure position_score where
  emission_prob : fval
  weights_class : List ℚ
  order_probs : List fval
  sum_weights : ℚ
  sum_probs : fval
  transition_prob : fval
  class_prob : fval
deriving DecidableEq

/-- Embedding of the body of the position loop of `query_int_sents_in_store`
(clustercat.c:796-861) at position `i` of `sent`, whose classes are in `class_sent`: the
emission probability, the order probabilities and weights, the two running sums, the
transition probability and the class probability. The printing and the checks made under
`verbose` are in `query_position_checked`. -/
def query_position (max_array num_classes token_count : Nat) (word_counts : List Nat)
    (count_arrays : List (List Nat)) (sent : List Nat) (class_sent : Nat → Nat) (i : Nat) :
    position_score :=
  let sent_length := sent.length
  let word_i := sent.getD i 0
  let class_i := class_sent i
  let word_i_count := word_counts.getD word_i 0
  let class_i_count := count_at count_arrays 0 class_i
  let emission_prob :=
    if word_i_count ≠ 0 then fval.of_counts word_i_count class_i_count
    else fval.of_counts 1 class_i_count
  let weights_class : List ℚ := [4 / 10, 16 / 100, 1 / 100, 1 / 10, 33 / 100]
  let order_probs : List fval :=
    (List.replicate 5 (fval.rat 0)).set 2 (fval.of_counts class_i_count token_count)
  let s0 : score_state :=
    { weights_class := weights_class
      order_probs := order_probs
      sum_weights := weights_class.getD 2 0
      sum_probs := fval.scale (weights_class.getD 2 0) (order_probs.getD 2 (fval.rat 0)) }
  let s1 : score_state :=
    if 2 < max_array ∧ 1 < i then
      let p := fval.unnan (fval.of_counts
        (count_at count_arrays 2 (array_offset (slice class_sent (i - 2) 3) 3 num_classes))
        (count_at count_arrays 1 (array_offset (slice class_sent (i - 1) 2) 2 num_classes)))
      { s0 with
        order_probs := s0.order_probs.set 0 p
        sum_weights := s0.sum_weights + s0.weights_class.getD 0 0
        sum_probs := fval.add s0.sum_probs (fval.scale (s0.weights_class.getD 0 0) p) }
    else { s0 with weights_class := s0.weights_class.set 0 0 }
  let p1 := fval.of_counts
    (count_at count_arrays 1 (array_offset (slice class_sent (i - 1) 2) 2 num_classes))
    (count_at count_arrays 0 (array_offset (slice class_sent i 1) 1 num_classes))
  let s2 : score_state :=
    { s1 with
      order_probs := s1.order_probs.set 1 p1
      sum_weights := s1.sum_weights + s1.weights_class.getD 1 0
      sum_probs := fval.add s1.sum_probs (fval.scale (s1.weights_class.getD 1 0) p1) }
  let s3 : score_state :=
    if i < sent_length - 1 then
      let p := fval.of_counts
        (count_at count_arrays 1 (array_offset (slice class_sent i 2) 2 num_classes))
        (count_at count_arrays 0 (array_offset (slice class_sent (i + 1) 1) 1 num_classes))
      { s2 with
        order_probs := s2.order_probs.set 3 p
        sum_weights := s2.sum_weights + s2.weights_class.getD 3 0
        sum_probs := fval.add s2.sum_probs (fval.scale (s2.weights_class.getD 3 0) p) }
    else s2
  let s4 : score_state :=
    if 2 < max_array ∧ i < sent_length - 2 then
      let p := fval.unnan (fval.of_counts
        (count_at count_arrays 2 (array_offset (slice class_sent i 3) 3 num_classes))
        (count_at count_arrays 1 (array_offset (slice class_sent (i + 1) 2) 2 num_classes)))
      { s3 with
        order_probs := s3.order_probs.set 4 p
        sum_weights := s3.sum_weights + s3.weights_class.getD 4 0
        sum_probs := fval.add s3.sum_probs (fval.scale (s3.weights_class.getD 4 0) p) }
    else { s3 with weights_class := s3.weights_class.set 4 0 }
  let transition_prob := fval.div_weight s4.sum_probs s4.sum_weights
  { emission_prob := emission_prob
    weights_class := s4.weights_class
    order_probs := s4.order_probs
    sum_weights := s4.sum_weights
    sum_probs := s4.sum_probs
    transition_prob := transition_prob
    class_prob := fval.mul emission_prob transition_prob }

/-- The class sentence that `query_int_sents_in_store` builds (clustercat.c:781-788): the
class of each word of `sent`, with `temp_class` for the word `temp_word`. -/
def query_class_sent (word2class sent : List Nat) (temp_word temp_class : Nat) : Nat → Nat :=
  fun j => if sent.getD j 0 = temp_word then temp_class else word2class.getD (sent.getD j 0) 0

/-- The test `(class_prob >= 0) && (class_prob <= 1)`; it fails for NaN and infinity. -/
def fval.in_unit_interval : fval → Bool
  | fval.rat q => decide (0 ≤ q) && decide (q ≤ 1)
  | _ => false

/-- Embedding of one iteration of the position loop of `query_int_sents_in_store` with its
checks (clustercat.c:796-876): `Except.error 5`, `6` and `11` are `exit(5)`, `exit(6)` and
`exit(11)`, which are only reached at `verbose > 3`, `verbose > 2` and `verbose > 2`. -/
def query_position_checked (verbose : Int) (max_array num_classes token_count : Nat)
    (word_counts : List Nat) (count_arrays : List (List Nat)) (sent : List Nat)
    (class_sent : Nat → Nat) (i : Nat) : Except Nat position_score :=
  let word_i_count := word_counts.getD (sent.getD i 0) 0
  let class_i_count := count_at count_arrays 0 (class_sent i)
  if 3 < verbose ∧ class_i_count < word_i_count then Except.error 5
  else
    let r := query_position max_array num_classes token_count word_counts count_arrays sent
      class_sent i
    if 2 < verbose ∧ token_count < class_i_count then Except.error 6
    else if 2 < verbose ∧ r.class_prob.in_unit_interval = false then Except.error 11
    else Except.ok r

/-- Embedding of `query_int_sents_in_store` (clustercat.c:769-885): for each sentence the
scores of its positions `1 .. sent_length - 1`. The value that the function returns, the sum
of `log2(class_prob)` over these positions, is not a rational number and is left out. -/
def query_int_sents_in_store (verbose : Int) (max_array num_classes token_count : Nat)
    (sent_store_int : List (List Nat)) (word_counts word2class : List Nat)
    (count_arrays : List (List Nat)) (temp_word temp_class : Nat) :
    Except Nat (List (List position_score)) :=
  sent_store_int.mapM fun sent =>
    (List.range' 1 (sent.length - 1)).mapM fun i =>
      query_position_checked verbose max_array num_classes token_count word_counts
        count_arrays sent (query_class_sent word2class sent temp_word temp_class) i

/-- The interpolation weights `w_{-2..+2} = (0.40, 0.16, 0.01, 0.10, 0.33)`; the order at
offset `o` has index `o + 2`. -/
def interpolation_weight : Nat → ℚ
  | 0 => 4 / 10
  | 1 => 16 / 100
  | 2 => 1 / 100
  | 3 => 1 / 10
  | 4 => 33 / 100
  | _ => 0

/-- The active set of orders at position `i` of a sentence of length `sent_length`: the
unigram (index 2) and the bigram (1) always, the trigram (0) when `max_array > 2` and
`i > 1`, the future bigram (3) when `i < sent_length - 1`, the future trigram (4) when
`max_array > 2` and `i < sent_length - 2`. -/
def order_active (max_array sent_length i : Nat) : Nat → Bool
  | 0 => decide (2 < max_array ∧ 1 < i)
  | 1 => true
  | 2 => true
  | 3 => decide (i < sent_length - 1)
  | 4 => decide (2 < max_array ∧ i < sent_length - 2)
  | _ => false

/-- The probability `P_k` of the order of index `k` at position `i`, in the words of the
specification: `P_n(c_i | c_{i-n+1..i-1}) = count[n](c_{i-n+1..i}) / count[n-1](c_{i-n+1..i-1})`,
the count of the n-gram that ends at `i` over the count of its history, and
`count[1](c_i) / total_tokens` for the unigram. For the two future orders, for which the
specification has no formula of its own, the conditioning context is the classes to the
right of `i`. This definition follows the specification and not the code; the ratios that
the code computes are the entries of `order_probs` in `query_position`. -/
def order_prob_spec (num_classes token_count : Nat) (count_arrays : List (List Nat))
    (class_sent : Nat → Nat) (i : Nat) : Nat → ℚ
  | 0 =>
    (count_at count_arrays 2 (array_offset
        [class_sent (i - 2), class_sent (i - 1), class_sent i] 3 num_classes) : ℚ) /
      (count_at count_arrays 1 (array_offset
        [class_sent (i - 2), class_sent (i - 1)] 2 num_classes) : ℚ)
  | 1 =>
    (count_at count_arrays 1 (array_offset
        [class_sent (i - 1), class_sent i] 2 num_classes) : ℚ) /
      (count_at count_arrays 0 (array_offset [class_sent (i - 1)] 1 num_classes) : ℚ)
  | 2 => (count_at count_arrays 0 (class_sent i) : ℚ) / (token_count : ℚ)
  | 3 =>
    (count_at count_arrays 1 (array_offset
        [class_sent i, class_sent (i + 1)] 2 num_classes) : ℚ) /
      (count_at count_arrays 0 (array_offset [class_sent (i + 1)] 1 num_classes) : ℚ)
  | 4 =>
    (count_at count_arrays 2 (array_offset
        [class_sent i, class_sent (i + 1), class_sent (i + 2)] 3 num_classes) : ℚ) /
      (count_at count_arrays 1 (array_offset
        [class_sent (i + 1), class_sent (i + 2)] 2 num_classes) : ℚ)
  | _ => 0

/-! ### Command-line arguments and the checks of `main` -/

/-- The values of `cmd_args.print_word_vectors` that the source names (the enumeration
itself is declared in `clustercat.h`). -/
inductive print_word_vectors_t where
  | NO_VEC
  | TEXT_VEC
  | BINARY_VEC
deriving DecidableEq

/-- The structure `struct cmd_args`, which is declared in `clustercat.h`: its fields are
those of the initialiser at clustercat.c:40-54, and the numeric fields are integers without
a width. -/
structure struct_cmd_args where
  class_algo : class_algo_t
  class_offset : Int
  max_tune_sents : Nat
  min_count : Nat
  max_array : Nat
  num_threads : Nat
  num_classes : Nat
  print_freqs : Bool
  print_word_vectors : print_word_vectors_t
  rev_alternate : Nat
  tune_cycles : Nat
  unidirectional : Bool
  verbose : Int
deriving DecidableEq

/-- The defaults of the global `cmd_args` (clustercat.c:40-54). -/
def cmd_args : struct_cmd_args :=
  { class_algo := class_algo_t.EXCHANGE
    class_offset := 0
    max_tune_sents := 10000000
    min_count := 3
    max_array := 3
    num_threads := 4
    num_classes := 0
    print_freqs := false
    print_word_vectors := print_word_vectors_t.NO_VEC
    rev_alternate := 3
    tune_cycles := 15
    unidirectional := false
    verbose := 0 }

/-- Embedding of the `--max-array` branch of `parse_cmd_args` (clustercat.c:320-327) for
the value `v = atol(argv[arg_i+1])`: the value is stored through the cast
`(unsigned char)`, that is modulo 256, and the test is made on what is stored.
`Except.error 10` is `exit(10)`. -/
def parse_cmd_args_max_array (args : struct_cmd_args) (v : Int) : Except Nat struct_cmd_args :=
  let args := { args with max_array := (v % 256).toNat }
  if args.max_array < 1 ∨ args.max_array > 3 then Except.error 10 else Except.ok args

/-- Embedding of the `--unidirectional` branch of `parse_cmd_args`
(clustercat.c:347-348). -/
def parse_cmd_args_unidirectional (args : struct_cmd_args) : struct_cmd_args :=
  { args with unidirectional := true }

/-- Embedding of the check of the number of classes in `main` (clustercat.c:109-115) on
`cmd_args.num_classes` and `global_metadata.type_count`: the value is the number of classes
that `main` goes on with, `Except.error 3` is `exit(3)`. The default
`(wclass_t) (sqrt(type_count) * 1.2)` is taken exactly: `⌊1.2·√V⌋ = ⌊√(36·V/25)⌋`. -/
def main_num_classes (num_classes type_count : Nat) : Except Nat Nat :=
  if num_classes ≥ type_count then Except.error 3
  else if num_classes = 0 then Except.ok (Nat.sqrt (36 * type_count / 25))
  else Except.ok num_classes

/-- Embedding of `main` from the insertion of the reserved words to the check of the number
of classes (clustercat.c:79-82 and 103-115): the value is `cmd_args` after the check,
together with the vocabulary size `global_metadata.type_count` after the filter.
`Except.error 4` and `Except.error 3` are `exit(4)` and `exit(3)`. -/
def main_check (L : Limits) (args : struct_cmd_args) (sent_buffer : List (List Char)) :
    Except Nat (struct_cmd_args × Nat) :=
  let ngram_map := map_update_count [] UNKNOWN_WORD 0
  let ngram_map := map_update_count ngram_map "<s>".toList 0
  let ngram_map := map_update_count ngram_map "</s>".toList 0
  let r := process_str_sents_in_buffer L ngram_map sent_buffer
  let type_count := map_count r.2
  match filter_infrequent_words L args.min_count type_count r.2 with
  | Except.error e => Except.error e
  | Except.ok f =>
    match main_num_classes args.num_classes f.type_count with
    | Except.error e => Except.error e
    | Except.ok num_classes => Except.ok ({ args with num_classes := num_classes }, f.type_count)

/-- What the part of `main` that builds the bigram lists and the word-class matrices leaves
behind. A null pointer is `none`. -/
structure main_structures where
  word_bigrams : List struct_word_bigram_entry
  word_bigrams_rev : Option (List struct_word_bigram_entry)
  word_class_counts : List Nat
  word_class_rev_counts : Option (List Nat)
  rev_alternate : Nat
deriving DecidableEq

/-- Embedding of the part of `main` that builds the bigram lists and the word-class
matrices (clustercat.c:160-207). The two `calloc` calls whose result is tested are the
parameters `calloc_ok` (for `word_class_counts`; `Except.error 13` is `exit(13)`) and
`calloc_rev_ok` (for `word_class_rev_counts`; failure falls back to `rev_alternate = 0`). -/
def main_build_structures (MAX_WORD_PREDECESSORS : Nat) (args : struct_cmd_args)
    (type_count : Nat) (sent_store_int : List (List Nat)) (word2class : List Nat)
    (calloc_ok calloc_rev_ok : Bool) : Except Nat main_structures :=
  let word_bigrams := set_bigram_counts MAX_WORD_PREDECESSORS
    (List.replicate type_count ⟨0, [], []⟩) sent_store_int false
  let word_bigrams_rev :=
    if args.rev_alternate ≠ 0 then
      some (set_bigram_counts MAX_WORD_PREDECESSORS
        (List.replicate type_count ⟨0, [], []⟩) sent_store_int true)
    else none
  if calloc_ok = false then Except.error 13
  else
    let word_class_counts := build_word_class_counts args.num_classes
      (List.replicate (1 + args.num_classes * type_count) 0) word2class sent_store_int false
    if args.rev_alternate ≠ 0 then
      if calloc_rev_ok = false then
        Except.ok
          { word_bigrams := word_bigrams
            word_bigrams_rev := word_bigrams_rev
            word_class_counts := word_class_counts
            word_class_rev_counts := none
            rev_alternate := 0 }
      else
        Except.ok
          { word_bigrams := word_bigrams
            word_bigrams_rev := word_bigrams_rev
            word_class_counts := word_class_counts
            word_class_rev_counts := some (build_word_class_counts args.num_classes
              (List.replicate (1 + args.num_classes * type_count) 0) word2class
              sent_store_int true)
            rev_alternate := args.rev_alternate }
    else
      Except.ok
        { word_bigrams := word_bigrams
          word_bigrams_rev := word_bigrams_rev
          word_class_counts := word_class_counts
          word_class_rev_counts := none
          rev_alternate := args.rev_alternate }

/-- The call of `query_int_sents_in_store` with the structure `cmd_args` as its first
argument (clustercat.c:769): of that structure the function reads `verbose`, `max_array`
and `num_classes` (and `num_threads` in the OpenMP pragma), and no other field. -/
def query_int_sents_in_store_cmd_args (args : struct_cmd_args) (token_count : Nat)
    (sent_store_int : List (List Nat)) (word_counts word2class : List Nat)
    (count_arrays : List (List Nat)) (temp_word temp_class : Nat) :
    Except Nat (List (List position_score)) :=
  query_int_sents_in_store args.verbose args.max_array args.num_classes token_count
    sent_store_int word_counts word2class count_arrays temp_word temp_class

/-! ### Tally with a tentative class -/

/-- Embedding of `increment_ngram_fixed_width` (clustercat.c:521-530): for `ngram_len` from
`i - start_position + 1` (an `unsigned char`) down to 1, the increment of
`count_arrays[ngram_len-1]` at the offset of the `ngram_len` classes that end at `i`. -/
def increment_ngram_fixed_width (num_classes : Nat) (count_arrays : List (List Nat))
    (sent : Nat → Nat) (start_position i : Nat) : List (List Nat) :=
  (((List.range ((i - start_position + 1) % 256)).map fun n => n + 1).reverse).foldl
    (fun count_arrays ngram_len =>
      incr_count count_arrays (ngram_len - 1)
        (array_offset (slice sent (i + 1 - ngram_len) ngram_len) ngram_len num_classes))
    count_arrays

/-- Body of the word loop of `tally_int_sents_in_store` (clustercat.c:562-571) at position
`i` of `sent`, on the state made of the buffer `class_sent` and `count_arrays`. `CLASSLEN`
is a macro of `clustercat.h`, at least 1. -/
def tally_int_sents_in_store_step (CLASSLEN num_classes : Nat) (word2class sent : List Nat)
    (temp_word temp_class : Nat) (st : (Nat → Nat) × List (List Nat)) (i : Nat) :
    (Nat → Nat) × List (List Nat) :=
  let word_id := sent.getD i 0
  let class_sent : Nat → Nat :=
    fun j =>
      if j = i then (if word_id = temp_word then temp_class else word2class.getD word_id 0)
      else st.1 j
  let start_position_class := if i ≥ CLASSLEN - 1 then i - (CLASSLEN - 1) else 0
  (class_sent, increment_ngram_fixed_width num_classes st.2 class_sent start_position_class i)

/-- Embedding of `tally_int_sents_in_store` (clustercat.c:555-574). The buffer `class_sent`
is declared inside the sentence loop and is not initialised; every entry is written before
it is read, and the model starts it at zero for each sentence. -/
def tally_int_sents_in_store (CLASSLEN num_classes : Nat) (sent_store_int : List (List Nat))
    (word2class : List Nat) (count_arrays : List (List Nat)) (temp_word temp_class : Nat) :
    List (List Nat) :=
  sent_store_int.foldl (fun count_arrays sent =>
    ((List.range sent.length).foldl
      (tally_int_sents_in_store_step CLASSLEN num_classes word2class sent temp_word temp_class)
      ((fun _ => 0), count_arrays)).2) count_arrays

/-- Increments made by `tally_int_sents_in_store` at position `i` of a sentence whose
classes are `cs`, as (array index, offset) pairs in execution order. -/
def tally_int_events (CLASSLEN num_classes : Nat) (cs : Nat → Nat) (i : Nat) :
    List (Nat × Nat) :=
  (((List.range ((i - (if i ≥ CLASSLEN - 1 then i - (CLASSLEN - 1) else 0) + 1) % 256)).map
    fun n => n + 1).reverse).map fun ngram_len =>
      (ngram_len - 1, array_offset (slice cs (i + 1 - ngram_len) ngram_len) ngram_len num_classes)

/-! ### Corpus counts -/

/-- Number of occurrences of the word `w` in the integer corpus. -/
def word_occurrences (corpus : List (List Nat)) (w : Nat) : Nat :=
  (corpus.map fun sent => sent.count w).sum

/-- Number of positions of the integer corpus. -/
def corpus_positions (corpus : List (List Nat)) : Nat :=
  (corpus.map fun sent => sent.length).sum

/-- The events of `tally_class_counts_in_store` over the whole corpus, in execution order:
what `tally_events` lists at each position of each sentence. -/
def corpus_tally_events (max_array num_classes : Nat) (corpus : List (List Nat))
    (word2class : List Nat) : List (Nat × Nat) :=
  corpus.flatMap fun sent => (List.range sent.length).flatMap
    (tally_events max_array num_classes (fun j => word2class.getD (sent.getD j 0) 0))

/-! ### Bigram events and array accesses -/

/-- The bigrams `(word_1, word_2)` that the first loop of `set_bigram_counts`
(clustercat.c:686-699) passes to `map_increment_bigram`, in execution order. -/
def bigram_events (sent_store_int : List (List Nat)) (reverse : Bool) : List (Nat × Nat) :=
  sent_store_int.flatMap fun sent =>
    (List.range' 1 (sent.length - 1)).map fun i =>
      if reverse then (sent.getD i 0, sent.getD (i - 1) 0)
      else (sent.getD (i - 1) 0, sent.getD i 0)

/-- The distinct words `word_1` that occur in a bigram `(word_1, w)` of the corpus: the
predecessors of `w` in the forward direction, its successors in the reverse direction. -/
def predecessors (sent_store_int : List (List Nat)) (reverse : Bool) (w : Nat) : List Nat :=
  (((bigram_events sent_store_int reverse).filter fun b => b.2 = w).map fun b => b.1).dedup

/-- The key `(word_1, word_2)` of an entry of the bigram map. -/
def bigram_key (e : struct_map_bigram) : Nat × Nat := (e.word_1, e.word_2)

/-- The count stored in the bigram map for the key `k`, 0 when the key is absent. -/
def bigram_find_count (map_bigram : List struct_map_bigram) (k : Nat × Nat) : Nat :=
  match map_bigram.find? fun e => bigram_key e = k with
  | some e => e.count
  | none => 0

/-- The reads `count_arrays[n][offset]` that the body of the position loop of
`query_int_sents_in_store` (clustercat.c:796-856) makes at position `i`, as
(array index, offset) pairs in execution order: the class count, then the numerator and the
denominator of each ratio that is computed. -/
def query_position_reads (max_array num_classes : Nat) (sent : List Nat)
    (class_sent : Nat → Nat) (i : Nat) : List (Nat × Nat) :=
  [(0, class_sent i)] ++
  (if 2 < max_array ∧ 1 < i then
    [(2, array_offset (slice class_sent (i - 2) 3) 3 num_classes),
      (1, array_offset (slice class_sent (i - 1) 2) 2 num_classes)]
  else []) ++
  [(1, array_offset (slice class_sent (i - 1) 2) 2 num_classes),
    (0, array_offset (slice class_sent i 1) 1 num_classes)] ++
  (if i < sent.length - 1 then
    [(1, array_offset (slice class_sent i 2) 2 num_classes),
      (0, array_offset (slice class_sent (i + 1) 1) 1 num_classes)]
  else []) ++
  (if 2 < max_array ∧ i < sent.length - 2 then
    [(2, array_offset (slice class_sent i 3) 3 num_classes),
      (1, array_offset (slice class_sent (i + 1) 2) 2 num_classes)]
  else [])

/-! ## Theorems -/

/-! ### Arrays of counters -/

theorem length_incr (a : List Nat) (i : Nat) : (incr a i).length = a.length := by
  simp [incr]

theorem getD_incr (a : List Nat) (i k : Nat) (hk : k < a.length) :
    (incr a i).getD k 0 = a.getD k 0 + (if i = k then 1 else 0) := by
  unfold incr
  simp only [List.getD_eq_getElem?_getD, List.getElem?_set]
  by_cases h : i = k
  · subst h; simp [hk]
  · simp [h]

theorem length_foldl_incr (evs : List Nat) (a : List Nat) :
    (evs.foldl incr a).length = a.length := by
  induction evs generalizing a with
  | nil => rfl
  | cons e es ih => simp [List.foldl_cons, ih, length_incr]

theorem getD_foldl_incr (evs : List Nat) (a : List Nat) (k : Nat) (hk : k < a.length) :
    (evs.foldl incr a).getD k 0 = a.getD k 0 + evs.count k := by
  induction evs generalizing a with
  | nil => simp
  | cons e es ih =>
    rw [List.foldl_cons, ih (incr a e) (by simpa [length_incr] using hk), getD_incr a e k hk,
      List.count_cons]
    by_cases h : e = k
    · simp [h]; omega
    · simp [h]

theorem build_word_class_counts_eq_foldl (K : Nat) (A cls : List Nat) (corpus : List (List Nat))
    (reverse : Bool) :
    build_word_class_counts K A cls corpus reverse =
      (corpus.flatMap fun sent =>
        (List.range' 1 (sent.length - 1)).map (wc_index K cls reverse sent)).foldl incr A := by
  unfold build_word_class_counts
  rw [List.flatMap_def, List.foldl_flatten, List.foldl_map]
  congr 1
  funext counts sent
  rw [List.foldl_map]
  rfl

theorem length_filter_range_pos (n : Nat) (q : Nat → Bool) :
    ((List.range n).filter fun i => decide (1 ≤ i) && q i).length =
      ((List.range' 1 (n - 1)).filter q).length := by
  cases n with
  | zero => simp
  | succ m =>
    rw [List.range_eq_range', List.range'_succ]
    simp only [Nat.add_sub_cancel, Nat.zero_add]
    rw [List.filter_cons]
    simp only [Nat.le_zero_eq, Nat.succ_ne_zero, decide_False, Bool.false_and, if_false]
    congr 1
    apply List.filter_congr
    intro i hi
    have : 1 ≤ i := (List.mem_range'_1.mp hi).1
    simp [this]

theorem count_map_eq_length_filter (l : List Nat) (f : Nat → Nat) (k : Nat) :
    (l.map f).count k = (l.filter fun i => f i == k).length := by
  rw [List.count_eq_countP, List.countP_map, List.countP_eq_length_filter]
  rfl

theorem mul_add_eq_iff (K u c v d : Nat) (hc : c < K) (hd : d < K) :
    v * K + d = u * K + c ↔ v = u ∧ d = c := by
  constructor
  · intro h
    have h1 : (v * K + d) / K = (u * K + c) / K := by rw [h]
    have h2 : (v * K + d) % K = (u * K + c) % K := by rw [h]
    have hK : 0 < K := by omega
    rw [Nat.mul_comm v K, Nat.mul_comm u K, Nat.mul_add_div hK, Nat.mul_add_div hK,
      Nat.div_eq_of_lt hc, Nat.div_eq_of_lt hd] at h1
    rw [Nat.mul_comm v K, Nat.mul_comm u K, Nat.mul_add_mod, Nat.mul_add_mod,
      Nat.mod_eq_of_lt hc, Nat.mod_eq_of_lt hd] at h2
    omega
  · rintro ⟨rfl, rfl⟩; rfl

theorem getD_mem_of_lt (s : List Nat) (i : Nat) (h : i < s.length) : s.getD i 0 ∈ s := by
  rw [List.getD_eq_getElem?_getD, List.getElem?_eq_getElem h]
  exact List.getElem_mem h

theorem build_word_class_counts_getD (K V n : Nat) (cls : List Nat) (corpus : List (List Nat))
    (reverse : Bool) (hn : V * K ≤ n)
    (hcls : ∀ s ∈ corpus, ∀ w ∈ s, cls.getD w 0 < K) (u c : Nat) (hu : u < V) (hc : c < K) :
    (build_word_class_counts K (List.replicate n 0) cls corpus reverse).getD (u * K + c) 0 =
      count_positions corpus (wc_test cls reverse u c) := by
  have hk : u * K + c < (List.replicate n 0).length := by
    rw [List.length_replicate]
    have : (u + 1) * K ≤ V * K := Nat.mul_le_mul_right K hu
    rw [Nat.add_mul] at this
    omega
  rw [build_word_class_counts_eq_foldl, getD_foldl_incr _ _ _ hk]
  have h0 : (List.replicate n 0).getD (u * K + c) 0 = 0 := by
    simp only [List.getD_eq_getElem?_getD, List.getElem?_replicate]
    split <;> rfl
  rw [h0, Nat.zero_add, List.flatMap_def, List.count_flatten, List.map_map]
  unfold count_positions
  congr 1
  apply List.map_congr_left
  intro s hs
  simp only [Function.comp]
  rw [count_map_eq_length_filter, length_filter_range_pos]
  congr 1
  apply List.filter_congr
  intro i hi
  have hi' := List.mem_range'_1.mp hi
  have hi1 : i < s.length := by omega
  have hi0 : i - 1 < s.length := by omega
  have hci := hcls s hs _ (getD_mem_of_lt s i hi1)
  have hci0 := hcls s hs _ (getD_mem_of_lt s (i - 1) hi0)
  cases reverse with
  | true =>
    simp only [wc_index, wc_test, if_true]
    rw [Bool.eq_iff_iff]
    simp only [beq_iff_eq, Bool.and_eq_true]
    exact mul_add_eq_iff K u c _ _ hc hci0
  | false =>
    simp only [wc_index, wc_test, Bool.false_eq_true, if_false]
    rw [Bool.eq_iff_iff]
    simp only [beq_iff_eq, Bool.and_eq_true]
    exact mul_add_eq_iff K u c _ _ hc hci

theorem length_filter_split (l : List Nat) (p q r : Nat → Bool)
    (h : ∀ i ∈ l, (r i = (p i || q i)) ∧ (p i && q i) = false) :
    (l.filter p).length + (l.filter q).length = (l.filter r).length := by
  induction l with
  | nil => rfl
  | cons x xs ih =>
    have hx := h x (List.mem_cons_self x xs)
    have ih' := ih (fun i hi => h i (List.mem_cons_of_mem x hi))
    simp only [List.filter_cons]
    rcases hp : p x <;> rcases hq : q x <;> rcases hr : r x <;>
      simp_all <;> omega

theorem count_positions_split (corpus : List (List Nat)) (p q r : Nat → Nat → Bool)
    (h : ∀ x y, (r x y = (p x y || q x y)) ∧ (p x y && q x y) = false) :
    count_positions corpus p + count_positions corpus q = count_positions corpus r := by
  unfold count_positions
  induction corpus with
  | nil => rfl
  | cons s ss ih =>
    simp only [List.map_cons, List.sum_cons]
    have := length_filter_split (List.range s.length)
      (fun i => decide (1 ≤ i) && p (s.getD (i - 1) 0) (s.getD i 0))
      (fun i => decide (1 ≤ i) && q (s.getD (i - 1) 0) (s.getD i 0))
      (fun i => decide (1 ≤ i) && r (s.getD (i - 1) 0) (s.getD i 0))
      (by
        intro i _
        obtain ⟨h1, h2⟩ := h (s.getD (i - 1) 0) (s.getD i 0)
        beta_reduce
        generalize s.getD (i - 1) 0 = a at h1 h2 ⊢
        generalize s.getD i 0 = b at h1 h2 ⊢
        rw [h1]
        cases decide (1 ≤ i) <;> cases hp : p a b <;> cases hq : q a b <;> simp_all)
    omega

theorem count_positions_congr (corpus : List (List Nat)) (p q : Nat → Nat → Bool)
    (h : ∀ s ∈ corpus, ∀ x ∈ s, ∀ y ∈ s, p x y = q x y) :
    count_positions corpus p = count_positions corpus q := by
  unfold count_positions
  congr 1
  apply List.map_congr_left
  intro s hs
  congr 1
  apply List.filter_congr
  intro i hi
  have hi1 : i < s.length := List.mem_range.mp hi
  by_cases h1 : 1 ≤ i
  · have hi0 : i - 1 < s.length := by omega
    rw [h s hs _ (getD_mem_of_lt s (i - 1) hi0) _ (getD_mem_of_lt s i hi1)]
  · simp [h1]

theorem sum_range_indicator (K g : Nat) :
    ((List.range K).map fun c => if g = c then 1 else 0).sum = if g < K then 1 else 0 := by
  induction K with
  | zero => simp
  | succ k ih =>
    rw [List.range_succ, List.map_append, List.sum_append, ih]
    simp only [List.map_cons, List.map_nil, List.sum_cons, List.sum_nil, Nat.add_zero]
    by_cases h1 : g < k
    · have h2 : g ≠ k := by omega
      have h3 : g < k + 1 := by omega
      simp [h1, h2, h3]
    · by_cases h2 : g = k
      · simp [h2]
      · have h3 : ¬ g < k + 1 := by omega
        simp [h1, h2, h3]

theorem sum_length_filter_classes (l : List Nat) (K : Nat) (p : Nat → Bool) (g : Nat → Nat)
    (h : ∀ i ∈ l, p i = true → g i < K) :
    ((List.range K).map fun c => (l.filter fun i => p i && (g i == c)).length).sum =
      (l.filter p).length := by
  induction l with
  | nil => simp
  | cons x xs ih =>
    have ih' := ih (fun i hi => h i (List.mem_cons_of_mem x hi))
    have hx := h x (List.mem_cons_self x xs)
    have e : (fun c => ((x :: xs).filter fun i => p i && (g i == c)).length) =
        fun c => (if g x = c then (if p x then 1 else 0) else 0) +
          (xs.filter fun i => p i && (g i == c)).length := by
      funext c
      rw [List.filter_cons]
      by_cases hp : p x = true <;> by_cases hg : g x = c
      all_goals (simp [hp, hg]; try omega)
    rw [e, List.sum_map_add, ih', List.filter_cons]
    by_cases hp : p x = true
    · have := sum_range_indicator K (g x)
      simp only [hp, if_true] at this ⊢
      rw [this, if_pos (hx hp)]
      simp; omega
    · simp [hp]

theorem count_positions_cons (s : List Nat) (ss : List (List Nat)) (p : Nat → Nat → Bool) :
    count_positions (s :: ss) p =
      ((List.range s.length).filter fun i =>
        decide (1 ≤ i) && p (s.getD (i - 1) 0) (s.getD i 0)).length + count_positions ss p := by
  simp [count_positions]

theorem sum_count_positions_classes (corpus : List (List Nat)) (K : Nat) (p : Nat → Nat → Bool)
    (g : Nat → Nat → Nat) (h : ∀ s ∈ corpus, ∀ x ∈ s, ∀ y ∈ s, g x y < K) :
    ((List.range K).map fun c => count_positions corpus fun x y => p x y && (g x y == c)).sum =
      count_positions corpus p := by
  induction corpus with
  | nil => simp [count_positions]
  | cons s ss ih =>
    have ih' := ih (fun t ht => h t (List.mem_cons_of_mem s ht))
    simp only [count_positions_cons]
    rw [List.sum_map_add, ih']
    congr 1
    have := sum_length_filter_classes (List.range s.length) K
      (fun i => decide (1 ≤ i) && p (s.getD (i - 1) 0) (s.getD i 0))
      (fun i => g (s.getD (i - 1) 0) (s.getD i 0))
      (by
        intro i hi hp
        have hi1 : i < s.length := List.mem_range.mp hi
        have h1 : 1 ≤ i := by
          by_contra hc
          simp [hc] at hp
        exact h s (List.mem_cons_self s ss) _ (getD_mem_of_lt s (i - 1) (by omega)) _
          (getD_mem_of_lt s i hi1))
    rw [← this]
    congr 1
    apply List.map_congr_left
    intro c _
    congr 1
    apply List.filter_congr
    intro i _
    simp [Bool.and_assoc]

/-! ### Word-class matrix: claims C2, C3, C4 -/

theorem getD_set_class (cls : List Nat) (w b y : Nat) (hw : w < cls.length) :
    (cls.set w b).getD y 0 = if y = w then b else cls.getD y 0 := by
  simp only [List.getD_eq_getElem?_getD, List.getElem?_set]
  by_cases h : w = y
  · subst h; simp [hw]
  · have h' : ¬ y = w := fun e => h e.symm
    simp [h, h']

theorem build_word_class_counts_forward (K V n : Nat) (word2class : List Nat)
    (corpus : List (List Nat)) (hn : V * K ≤ n)
    (hcls : ∀ s ∈ corpus, ∀ w ∈ s, word2class.getD w 0 < K)
    (u c : Nat) (hu : u < V) (hc : c < K) :
    (build_word_class_counts K (List.replicate n 0) word2class corpus false).getD (u * K + c) 0
      = count_positions corpus (fun x y => x == u && word2class.getD y 0 == c) := by
  rw [build_word_class_counts_getD K V n word2class corpus false hn hcls u c hu hc]
  rfl

/-- C2: on a zeroed array of at least `V * K` counters, with the class of every corpus word
below `K`, `build_word_class_counts` leaves in entry `u * K + c` the number of positions
`i ≥ 1` with `sent[i-1] = u` and `word2class[sent[i]] = c` (forward direction), and the
number of positions with `sent[i] = u` and `word2class[sent[i-1]] = c` (reverse). -/
theorem build_word_class_counts_spec (K V n : Nat) (word2class : List Nat)
    (corpus : List (List Nat)) (hn : V * K ≤ n)
    (hcls : ∀ s ∈ corpus, ∀ w ∈ s, word2class.getD w 0 < K)
    (u c : Nat) (hu : u < V) (hc : c < K) :
    (build_word_class_counts K (List.replicate n 0) word2class corpus false).getD (u * K + c) 0
        = count_positions corpus (fun x y => x == u && word2class.getD y 0 == c) ∧
    (build_word_class_counts K (List.replicate n 0) word2class corpus true).getD (u * K + c) 0
        = count_positions corpus (fun x y => y == u && word2class.getD x 0 == c) := by
  constructor
  · exact build_word_class_counts_forward K V n word2class corpus hn hcls u c hu hc
  · rw [build_word_class_counts_getD K V n word2class corpus true hn hcls u c hu hc]
    rfl

theorem build_word_class_counts_spec_witness :
    (4 * 2 ≤ 9 ∧ (∀ s ∈ [[1, 3, 2], [1, 3, 3, 0, 2]], ∀ w ∈ s, [0, 1, 0, 1].getD w 0 < 2) ∧
      3 < 4 ∧ 1 < 2) ∧
    ((build_word_class_counts 2 (List.replicate 9 0) [0, 1, 0, 1]
        [[1, 3, 2], [1, 3, 3, 0, 2]] false).getD (3 * 2 + 1) 0
        = count_positions [[1, 3, 2], [1, 3, 3, 0, 2]]
            (fun x y => x == 3 && [0, 1, 0, 1].getD y 0 == 1) ∧
    (build_word_class_counts 2 (List.replicate 9 0) [0, 1, 0, 1]
        [[1, 3, 2], [1, 3, 3, 0, 2]] true).getD (3 * 2 + 1) 0
        = count_positions [[1, 3, 2], [1, 3, 3, 0, 2]]
            (fun x y => y == 3 && [0, 1, 0, 1].getD x 0 == 1)) :=
  ⟨by decide, build_word_class_counts_spec 2 4 9 [0, 1, 0, 1] [[1, 3, 2], [1, 3, 3, 0, 2]]
    (by decide) (by decide) 3 1 (by decide) (by decide)⟩

/-- C3: the sum over the classes `c < K` of row `u` of the forward matrix is the number of
positions `i ≥ 1` with `sent[i-1] = u`, whatever the class assignment into `[0, K)`; two
such assignments therefore give the same row sums. -/
theorem build_word_class_counts_row_sum (K V n : Nat) (word2class word2class' : List Nat)
    (corpus : List (List Nat)) (hn : V * K ≤ n)
    (hcls : ∀ s ∈ corpus, ∀ w ∈ s, word2class.getD w 0 < K)
    (hcls' : ∀ s ∈ corpus, ∀ w ∈ s, word2class'.getD w 0 < K)
    (u : Nat) (hu : u < V) :
    ((List.range K).map fun c =>
        (build_word_class_counts K (List.replicate n 0) word2class corpus false).getD
          (u * K + c) 0).sum
      = count_positions corpus (fun x _ => x == u) ∧
    ((List.range K).map fun c =>
        (build_word_class_counts K (List.replicate n 0) word2class corpus false).getD
          (u * K + c) 0).sum
      = ((List.range K).map fun c =>
        (build_word_class_counts K (List.replicate n 0) word2class' corpus false).getD
          (u * K + c) 0).sum := by
  have key : ∀ cls : List Nat, (∀ s ∈ corpus, ∀ w ∈ s, cls.getD w 0 < K) →
      ((List.range K).map fun c =>
        (build_word_class_counts K (List.replicate n 0) cls corpus false).getD
          (u * K + c) 0).sum = count_positions corpus (fun x _ => x == u) := by
    intro cls h
    rw [← sum_count_positions_classes corpus K (fun x _ => x == u)
      (fun _ y => cls.getD y 0) (fun s hs _ _ y hy => h s hs y hy)]
    congr 1
    apply List.map_congr_left
    intro c hc
    exact build_word_class_counts_forward K V n cls corpus hn h u c hu (List.mem_range.mp hc)
  exact ⟨key word2class hcls, (key word2class hcls).trans (key word2class' hcls').symm⟩

theorem build_word_class_counts_row_sum_witness :
    (4 * 2 ≤ 9 ∧ (∀ s ∈ [[1, 3, 2], [1, 3, 3, 0, 2]], ∀ w ∈ s, [0, 1, 0, 1].getD w 0 < 2) ∧
      (∀ s ∈ [[1, 3, 2], [1, 3, 3, 0, 2]], ∀ w ∈ s, [1, 1, 0, 0].getD w 0 < 2) ∧ 3 < 4) ∧
    (((List.range 2).map fun c =>
        (build_word_class_counts 2 (List.replicate 9 0) [0, 1, 0, 1]
          [[1, 3, 2], [1, 3, 3, 0, 2]] false).getD (3 * 2 + c) 0).sum
      = count_positions [[1, 3, 2], [1, 3, 3, 0, 2]] (fun x _ => x == 3) ∧
    ((List.range 2).map fun c =>
        (build_word_class_counts 2 (List.replicate 9 0) [0, 1, 0, 1]
          [[1, 3, 2], [1, 3, 3, 0, 2]] false).getD (3 * 2 + c) 0).sum
      = ((List.range 2).map fun c =>
        (build_word_class_counts 2 (List.replicate 9 0) [1, 1, 0, 0]
          [[1, 3, 2], [1, 3, 3, 0, 2]] false).getD (3 * 2 + c) 0).sum) :=
  ⟨by decide, build_word_class_counts_row_sum 2 4 9 [0, 1, 0, 1] [1, 1, 0, 0]
    [[1, 3, 2], [1, 3, 3, 0, 2]] (by decide) (by decide) (by decide) 3 (by decide)⟩

/-- C4: moving word `w` from its class `a` to a class `b ≠ a` and rebuilding the forward
matrix changes row `u` by exactly the number `n(u, w)` of occurrences of the bigram `u w`:
column `a` loses it, column `b` gains it, every other column is unchanged, and a row whose
word never precedes `w` is unchanged altogether. -/
theorem build_word_class_counts_move (K V n : Nat) (word2class : List Nat)
    (corpus : List (List Nat)) (hn : V * K ≤ n)
    (hcls : ∀ s ∈ corpus, ∀ w ∈ s, word2class.getD w 0 < K)
    (w a b : Nat) (hw : w < word2class.length) (hwa : word2class.getD w 0 = a)
    (ha : a < K) (hb : b < K) (hab : b ≠ a) (u : Nat) (hu : u < V) :
    (build_word_class_counts K (List.replicate n 0) (word2class.set w b) corpus false).getD
        (u * K + a) 0
      = (build_word_class_counts K (List.replicate n 0) word2class corpus false).getD
          (u * K + a) 0 - count_positions corpus (fun x y => x == u && y == w) ∧
    count_positions corpus (fun x y => x == u && y == w)
      ≤ (build_word_class_counts K (List.replicate n 0) word2class corpus false).getD
          (u * K + a) 0 ∧
    (build_word_class_counts K (List.replicate n 0) (word2class.set w b) corpus false).getD
        (u * K + b) 0
      = (build_word_class_counts K (List.replicate n 0) word2class corpus false).getD
          (u * K + b) 0 + count_positions corpus (fun x y => x == u && y == w) ∧
    (∀ c, c < K → c ≠ a → c ≠ b →
      (build_word_class_counts K (List.replicate n 0) (word2class.set w b) corpus false).getD
          (u * K + c) 0
        = (build_word_class_counts K (List.replicate n 0) word2class corpus false).getD
            (u * K + c) 0) ∧
    (count_positions corpus (fun x y => x == u && y == w) = 0 → ∀ c, c < K →
      (build_word_class_counts K (List.replicate n 0) (word2class.set w b) corpus false).getD
          (u * K + c) 0
        = (build_word_class_counts K (List.replicate n 0) word2class corpus false).getD
            (u * K + c) 0) := by
  have hcls' : ∀ s ∈ corpus, ∀ x ∈ s, (word2class.set w b).getD x 0 < K := by
    intro s hs x hx
    rw [getD_set_class word2class w b x hw]
    by_cases h : x = w
    · rw [if_pos h]; exact hb
    · rw [if_neg h]; exact hcls s hs x hx
  have old := fun c hc =>
    build_word_class_counts_forward K V n word2class corpus hn hcls u c hu hc
  have new := fun c hc =>
    build_word_class_counts_forward K V n (word2class.set w b) corpus hn hcls' u c hu hc
  have hA : count_positions corpus (fun x y => x == u && (word2class.set w b).getD y 0 == a) +
      count_positions corpus (fun x y => x == u && y == w) =
      count_positions corpus (fun x y => x == u && word2class.getD y 0 == a) := by
    apply count_positions_split
    intro x y
    rw [getD_set_class word2class w b y hw]
    by_cases h : y = w
    · rw [if_pos h, h, hwa]
      simp [hab]
    · rw [if_neg h]
      generalize word2class.getD y 0 = g
      simp [h]
  have hB : count_positions corpus (fun x y => x == u && word2class.getD y 0 == b) +
      count_positions corpus (fun x y => x == u && y == w) =
      count_positions corpus (fun x y => x == u && (word2class.set w b).getD y 0 == b) := by
    apply count_positions_split
    intro x y
    rw [getD_set_class word2class w b y hw]
    by_cases h : y = w
    · rw [if_pos h, h, hwa]
      have : ¬ a = b := fun e => hab e.symm
      simp [this]
    · rw [if_neg h]
      generalize word2class.getD y 0 = g
      simp [h]
  have hC : ∀ c, c ≠ a → c ≠ b →
      count_positions corpus (fun x y => x == u && (word2class.set w b).getD y 0 == c) =
      count_positions corpus (fun x y => x == u && word2class.getD y 0 == c) := by
    intro c hca hcb
    congr 1
    funext x y
    rw [getD_set_class word2class w b y hw]
    by_cases h : y = w
    · rw [if_pos h, h, hwa]
      have h1 : (a == c) = false := beq_false_of_ne (fun e => hca e.symm)
      have h2 : (b == c) = false := beq_false_of_ne (fun e => hcb e.symm)
      rw [h1, h2]
    · rw [if_neg h]
  rw [old a ha, old b hb, new a ha, new b hb]
  refine ⟨by omega, by omega, by omega, ?_, ?_⟩
  · intro c hc hca hcb
    rw [old c hc, new c hc]
    exact hC c hca hcb
  · intro h0 c hc
    rw [old c hc, new c hc]
    by_cases hca : c = a
    · subst hca; omega
    · by_cases hcb : c = b
      · subst hcb; omega
      · exact hC c hca hcb

theorem build_word_class_counts_move_witness :
    (4 * 2 ≤ 9 ∧ (∀ s ∈ [[1, 3, 2], [1, 3, 3, 0, 2]], ∀ w ∈ s, [0, 1, 0, 1].getD w 0 < 2) ∧
      3 < [0, 1, 0, 1].length ∧ [0, 1, 0, 1].getD 3 0 = 1 ∧ 1 < 2 ∧ 0 < 2 ∧ 0 ≠ 1 ∧ 1 < 4) ∧
    (build_word_class_counts 2 (List.replicate 9 0) ([0, 1, 0, 1].set 3 0)
        [[1, 3, 2], [1, 3, 3, 0, 2]] false).getD (1 * 2 + 0) 0
      = (build_word_class_counts 2 (List.replicate 9 0) [0, 1, 0, 1]
          [[1, 3, 2], [1, 3, 3, 0, 2]] false).getD (1 * 2 + 0) 0
        + count_positions [[1, 3, 2], [1, 3, 3, 0, 2]] (fun x y => x == 1 && y == 3) :=
  ⟨by decide, (build_word_class_counts_move 2 4 9 [0, 1, 0, 1] [[1, 3, 2], [1, 3, 3, 0, 2]]
    (by decide) (by decide) 3 1 0 (by decide) (by decide) (by decide) (by decide) (by decide)
    1 (by decide)).2.2.1⟩

/-! ### Positional index: claim C6 -/

theorem foldl_offset_init (K : Nat) (l : List Nat) (a : Nat) :
    l.foldl (fun o c => o * K + c) a = a * K ^ l.length + l.foldl (fun o c => o * K + c) 0 := by
  induction l generalizing a with
  | nil => simp
  | cons x xs ih =>
    rw [List.foldl_cons, ih (a * K + x), List.foldl_cons, ih (0 * K + x)]
    simp only [List.length_cons, Nat.zero_mul, Nat.zero_add, Nat.pow_succ]
    ring

theorem array_offset_length (K : Nat) (c : List Nat) :
    array_offset c c.length K = c.foldl (fun o x => o * K + x) 0 := by
  simp [array_offset]

theorem array_offset_cons (K : Nat) (x : Nat) (xs : List Nat) :
    array_offset (x :: xs) (xs.length + 1) K = x * K ^ xs.length + array_offset xs xs.length K := by
  have h := array_offset_length K (x :: xs)
  rw [List.length_cons] at h
  rw [h, array_offset_length, List.foldl_cons, foldl_offset_init]
  simp

theorem array_offset_lt (K : Nat) (c : List Nat) (hc : ∀ x ∈ c, x < K) :
    array_offset c c.length K < K ^ c.length := by
  induction c with
  | nil => simp [array_offset]
  | cons x xs ih =>
    rw [List.length_cons, array_offset_cons, Nat.pow_succ]
    have hx : x < K := hc x (List.mem_cons_self x xs)
    have hxs := ih (fun y hy => hc y (List.mem_cons_of_mem x hy))
    have : (x + 1) * K ^ xs.length ≤ K * K ^ xs.length := Nat.mul_le_mul_right _ hx
    rw [Nat.add_mul, Nat.one_mul] at this
    rw [Nat.mul_comm (K ^ xs.length) K]
    omega

theorem array_offset_injective (K : Nat) (c d : List Nat) (hlen : c.length = d.length)
    (hc : ∀ x ∈ c, x < K) (hd : ∀ x ∈ d, x < K)
    (h : array_offset c c.length K = array_offset d d.length K) : c = d := by
  induction c generalizing d with
  | nil =>
    cases d with
    | nil => rfl
    | cons y ys => simp at hlen
  | cons x xs ih =>
    cases d with
    | nil => simp at hlen
    | cons y ys =>
      have hl : xs.length = ys.length := by simpa using hlen
      rw [List.length_cons, List.length_cons, array_offset_cons, array_offset_cons, hl] at h
      have hxs := array_offset_lt K xs (fun z hz => hc z (List.mem_cons_of_mem x hz))
      have hys := array_offset_lt K ys (fun z hz => hd z (List.mem_cons_of_mem y hz))
      rw [hl] at hxs
      have := (mul_add_eq_iff (K ^ ys.length) y _ x _ hys hxs).mp h
      have h3 : array_offset xs xs.length K = array_offset ys ys.length K := by
        rw [hl]; exact this.2
      rw [this.1, ih ys hl (fun z hz => hc z (List.mem_cons_of_mem x hz))
        (fun z hz => hd z (List.mem_cons_of_mem y hz)) h3]

theorem array_offset_surjective (K n o : Nat) (ho : o < K ^ n) :
    ∃ c : List Nat, c.length = n ∧ (∀ x ∈ c, x < K) ∧ array_offset c n K = o := by
  induction n generalizing o with
  | zero =>
    refine ⟨[], rfl, by simp, ?_⟩
    simp at ho
    simp [array_offset, ho]
  | succ m ih =>
    have hpos : 0 < K ^ m := by
      rcases Nat.eq_zero_or_pos (K ^ m) with h0 | h0
      · rw [Nat.pow_succ, h0] at ho; simp at ho
      · exact h0
    obtain ⟨xs, hlen, hxs, hoff⟩ := ih (o % K ^ m) (Nat.mod_lt _ hpos)
    refine ⟨(o / K ^ m) :: xs, by simp [hlen], ?_, ?_⟩
    · intro x hx
      rcases List.mem_cons.mp hx with h | h
      · rw [h]
        apply Nat.div_lt_of_lt_mul
        rw [Nat.pow_succ] at ho
        exact ho
      · exact hxs x h
    · have := array_offset_cons K (o / K ^ m) xs
      rw [hlen] at this
      rw [this, hoff, Nat.mul_comm]
      exact Nat.div_add_mod o (K ^ m)

/-- C6: for tuples of `n` class ids below `K`, the positional index `array_offset` lies
below `K ^ n`, is injective, reaches every offset below `K ^ n`, and for `n = 1` is the
class id itself. -/
theorem array_offset_bijective (K n : Nat) :
    (∀ c : List Nat, c.length = n → (∀ x ∈ c, x < K) → array_offset c n K < K ^ n) ∧
    (∀ c d : List Nat, c.length = n → d.length = n → (∀ x ∈ c, x < K) → (∀ x ∈ d, x < K) →
      array_offset c n K = array_offset d n K → c = d) ∧
    (∀ o, o < K ^ n → ∃ c : List Nat, c.length = n ∧ (∀ x ∈ c, x < K) ∧
      array_offset c n K = o) ∧
    (∀ c0 : Nat, array_offset [c0] 1 K = c0) := by
  refine ⟨?_, ?_, ?_, ?_⟩
  · intro c hn hc
    rw [← hn]
    exact array_offset_lt K c hc
  · intro c d hcn hdn hc hd h
    apply array_offset_injective K c d (hcn.trans hdn.symm) hc hd
    rw [hcn, hdn]
    exact h
  · intro o ho
    exact array_offset_surjective K n o ho
  · intro c0
    simp [array_offset]

theorem array_offset_bijective_witness :
    ([1, 0, 1].length = 3 ∧ (∀ x ∈ [1, 0, 1], x < 2)) ∧ array_offset [1, 0, 1] 3 2 < 2 ^ 3 :=
  ⟨by decide, (array_offset_bijective 2 3).1 [1, 0, 1] (by decide) (by decide)⟩

/-! ### Count arrays: claim C5 -/

theorem length_incr_count (A : List (List Nat)) (n o : Nat) :
    (incr_count A n o).length = A.length := by
  simp [incr_count]

theorem length_getD_incr_count (A : List (List Nat)) (n o m : Nat) :
    ((incr_count A n o).getD m []).length = (A.getD m []).length := by
  unfold incr_count
  simp only [List.getD_eq_getElem?_getD, List.getElem?_set]
  by_cases h : n = m
  · subst h
    by_cases h2 : n < A.length
    · simp [h2, length_incr]
    · simp [h2]
      rw [List.getElem?_eq_none (by omega)]
      rfl
  · simp [h]

theorem getD_incr_count (A : List (List Nat)) (n o m k : Nat) (hm : m < A.length)
    (hk : k < (A.getD m []).length) :
    ((incr_count A n o).getD m []).getD k 0 =
      (A.getD m []).getD k 0 + (if (n, o) = (m, k) then 1 else 0) := by
  by_cases h : n = m
  · subst h
    have e : (incr_count A n o).getD n [] = incr (A.getD n []) o := by
      unfold incr_count
      simp only [List.getD_eq_getElem?_getD, List.getElem?_set]
      simp [hm]
    rw [e, getD_incr _ _ _ hk]
    by_cases h2 : o = k <;> simp [h2]
  · have e : (incr_count A n o).getD m [] = A.getD m [] := by
      unfold incr_count
      simp only [List.getD_eq_getElem?_getD, List.getElem?_set]
      simp [h]
    rw [e]
    simp [h]

theorem getD_foldl_incr_count (evs : List (Nat × Nat)) (A : List (List Nat)) (m k : Nat)
    (hm : m < A.length) (hk : k < (A.getD m []).length) :
    ((evs.foldl (fun A e => incr_count A e.1 e.2) A).getD m []).getD k 0 =
      (A.getD m []).getD k 0 + evs.count (m, k) := by
  induction evs generalizing A with
  | nil => simp
  | cons e es ih =>
    rw [List.foldl_cons, ih (incr_count A e.1 e.2) (by rw [length_incr_count]; exact hm)
      (by rw [length_getD_incr_count]; exact hk), getD_incr_count A e.1 e.2 m k hm hk,
      List.count_cons]
    by_cases h : e = (m, k)
    · have h' : (e.1, e.2) = (m, k) := by rw [← h]
      simp [h, h']; omega
    · have h' : ¬ (e.1, e.2) = (m, k) := fun x => h x
      simp [h, h']

theorem tally_class_counts_step_eq (max_array K : Nat) (word2class sent : List Nat)
    (st : (Nat → Nat) × List (List Nat)) (i : Nat)
    (hst : ∀ j, j < i → st.1 j = word2class.getD (sent.getD j 0) 0) :
    (∀ j, j < i + 1 →
      (tally_class_counts_step max_array K word2class sent st i).1 j =
        word2class.getD (sent.getD j 0) 0) ∧
    (tally_class_counts_step max_array K word2class sent st i).2 =
      (tally_events max_array K (fun j => word2class.getD (sent.getD j 0) 0) i).foldl
        (fun A e => incr_count A e.1 e.2) st.2 := by
  have hbuf : ∀ j, j < i + 1 →
      (fun j => if j = i then word2class.getD (sent.getD i 0) 0 else st.1 j) j =
        word2class.getD (sent.getD j 0) 0 := by
    intro j hj
    by_cases h : j = i
    · simp only [h, if_true]
    · simp only [h, if_false]
      exact hst j (by omega)
  have hs2 : 0 < i →
      slice (fun j => if j = i then word2class.getD (sent.getD i 0) 0 else st.1 j) (i - 1) 2 =
        slice (fun j => word2class.getD (sent.getD j 0) 0) (i - 1) 2 := by
    intro hi
    unfold slice
    apply List.map_congr_left
    intro j hj
    have := List.mem_range.mp hj
    exact hbuf _ (by omega)
  have hs3 : 1 < i →
      slice (fun j => if j = i then word2class.getD (sent.getD i 0) 0 else st.1 j) (i - 2) 3 =
        slice (fun j => word2class.getD (sent.getD j 0) 0) (i - 2) 3 := by
    intro hi
    unfold slice
    apply List.map_congr_left
    intro j hj
    have := List.mem_range.mp hj
    exact hbuf _ (by omega)
  unfold tally_class_counts_step tally_events
  by_cases h1 : 1 < max_array ∧ 0 < i
  · by_cases h2 : 2 < max_array ∧ 1 < i
    · simp only [h1, h2, and_self, if_true, List.foldl_cons, List.foldl_nil]
      refine ⟨hbuf, ?_⟩
      rw [hs2 h1.2, hs3 h2.2]
    · simp only [h1, h2, and_self, if_true, if_false, List.foldl_cons, List.foldl_nil]
      refine ⟨hbuf, ?_⟩
      rw [hs2 h1.2]
  · simp only [h1, if_false, if_true, List.foldl_cons, List.foldl_nil]
    exact ⟨hbuf, trivial⟩

theorem tally_class_counts_inner (max_array K : Nat) (word2class sent : List Nat) (m : Nat)
    (st : (Nat → Nat) × List (List Nat)) :
    (∀ j, j < m →
      ((List.range m).foldl (tally_class_counts_step max_array K word2class sent) st).1 j =
        word2class.getD (sent.getD j 0) 0) ∧
    ((List.range m).foldl (tally_class_counts_step max_array K word2class sent) st).2 =
      ((List.range m).flatMap
        (tally_events max_array K (fun j => word2class.getD (sent.getD j 0) 0))).foldl
        (fun A e => incr_count A e.1 e.2) st.2 := by
  induction m with
  | zero => exact ⟨fun j hj => absurd hj (Nat.not_lt_zero j), rfl⟩
  | succ k ih =>
    rw [List.range_succ, List.foldl_append, List.foldl_cons, List.foldl_nil]
    have hstep := tally_class_counts_step_eq max_array K word2class sent
      ((List.range k).foldl (tally_class_counts_step max_array K word2class sent) st) k ih.1
    refine ⟨hstep.1, ?_⟩
    rw [hstep.2, ih.2, List.flatMap_def, List.flatMap_def, List.map_append, List.flatten_append,
      List.foldl_append]
    simp

theorem tally_class_counts_in_store_eq_foldl (max_array K : Nat) (corpus : List (List Nat))
    (word2class : List Nat) (st : (Nat → Nat) × List (List Nat)) :
    (corpus.foldl (fun st sent =>
      (List.range sent.length).foldl
        (tally_class_counts_step max_array K word2class sent) st) st).2 =
      (corpus.flatMap fun sent => (List.range sent.length).flatMap
        (tally_events max_array K (fun j => word2class.getD (sent.getD j 0) 0))).foldl
        (fun A e => incr_count A e.1 e.2) st.2 := by
  induction corpus generalizing st with
  | nil => rfl
  | cons s ss ih =>
    rw [List.foldl_cons, ih, (tally_class_counts_inner max_array K word2class s s.length st).2,
      List.flatMap_cons, List.foldl_append]

theorem sum_map_indicator (l : List Nat) (p : Nat → Bool) :
    (l.map fun i => if p i = true then 1 else 0).sum = (l.filter p).length := by
  induction l with
  | nil => rfl
  | cons x xs ih =>
    rw [List.map_cons, List.sum_cons, ih, List.filter_cons]
    by_cases h : p x = true
    · simp [h]; omega
    · simp [h]

theorem take_drop_map_eq_slice (l : List Nat) (g : Nat → Nat) (start n : Nat)
    (h : start + n ≤ l.length) :
    ((l.map g).drop start).take n = slice (fun j => g (l.getD j 0)) start n := by
  apply List.ext_getElem
  · simp [slice]; omega
  · intro j h1 h2
    simp only [slice, List.length_map, List.length_range] at h2
    have h3 : start + j < l.length := by omega
    simp [slice, List.getD_eq_getElem?_getD, List.getElem?_eq_getElem h3]

theorem array_offset_eq_iff (K : Nat) (c d : List Nat) (hlen : c.length = d.length)
    (hc : ∀ x ∈ c, x < K) (hd : ∀ x ∈ d, x < K) :
    array_offset c c.length K = array_offset d d.length K ↔ c = d :=
  ⟨array_offset_injective K c d hlen hc hd, fun h => by rw [h]⟩

theorem slice_lt (K : Nat) (word2class sent : List Nat)
    (hcls : ∀ w ∈ sent, word2class.getD w 0 < K) (start n : Nat) (h : start + n ≤ sent.length) :
    ∀ x ∈ slice (fun j => word2class.getD (sent.getD j 0) 0) start n, x < K := by
  intro x hx
  unfold slice at hx
  obtain ⟨j, hj, rfl⟩ := List.mem_map.mp hx
  have := List.mem_range.mp hj
  exact hcls _ (getD_mem_of_lt sent (start + j) (by omega))

theorem length_slice (f : Nat → Nat) (start n : Nat) : (slice f start n).length = n := by
  simp [slice]

theorem count_tally_events (max_array K : Nat) (word2class sent : List Nat) (i : Nat)
    (hi : i < sent.length) (hcls : ∀ w ∈ sent, word2class.getD w 0 < K) (c : List Nat)
    (h1 : 1 ≤ c.length) (h2 : c.length ≤ max_array) (h3 : c.length ≤ 3)
    (hc : ∀ x ∈ c, x < K) :
    (tally_events max_array K (fun j => word2class.getD (sent.getD j 0) 0) i).count
        (c.length - 1, array_offset c c.length K) =
      if (decide (c.length ≤ i + 1) &&
        decide ((((sent.map fun w => word2class.getD w 0).drop (i + 1 - c.length)).take
          c.length) = c)) = true then 1 else 0 := by
  by_cases hn : c.length ≤ i + 1
  · rw [take_drop_map_eq_slice sent (fun w => word2class.getD w 0) (i + 1 - c.length) c.length
      (by omega)]
    have hsl := slice_lt K word2class sent hcls (i + 1 - c.length) c.length (by omega)
    have hiff := array_offset_eq_iff K
      (slice (fun j => word2class.getD (sent.getD j 0) 0) (i + 1 - c.length) c.length) c
      (length_slice _ _ _) hsl hc
    rw [length_slice] at hiff
    generalize hS : slice (fun j => word2class.getD (sent.getD j 0) 0) (i + 1 - c.length)
      c.length = S at hiff
    unfold tally_events
    rcases c with _ | ⟨a, _ | ⟨b, _ | ⟨d, _ | ⟨e, t⟩⟩⟩⟩
    · simp at h1
    · -- unigram
      simp only [List.length_singleton, Nat.add_sub_cancel, Nat.sub_self] at hS hiff hn ⊢
      have e0 : array_offset [a] 1 K = a := by simp [array_offset]
      have hS' : S = [word2class.getD (sent.getD i 0) 0] := by
        rw [← hS]; rfl
      rw [e0, List.count_cons]
      have hrest : List.count (0, a)
          (if 1 < max_array ∧ 0 < i then
            (1, array_offset (slice (fun j => word2class.getD (sent.getD j 0) 0) (i - 1) 2) 2 K) ::
              (if 2 < max_array ∧ 1 < i then
                [(2, array_offset (slice (fun j => word2class.getD (sent.getD j 0) 0) (i - 2) 3)
                  3 K)] else [])
          else []) = 0 := by
        rw [List.count_eq_zero]
        intro hmem
        split at hmem
        · rcases List.mem_cons.mp hmem with h | h
          · simp at h
          · split at h
            · simp at h
            · simp at h
        · simp at hmem
      rw [hrest, hS']
      by_cases hx : word2class.getD (sent.getD i 0) 0 = a
      · simp [hx]
      · simp [hx]
    · -- bigram
      simp only [List.length_cons, List.length_singleton, List.length_nil] at hS hiff hn h2 ⊢
      have hi0 : 0 < i := by omega
      have hm : 1 < max_array := by omega
      have hstart : i + 1 - (0 + 1 + 1) = i - 1 := by omega
      rw [hstart] at hS
      simp only [hm, hi0, and_self, if_true]
      rw [hS, List.count_cons, List.count_cons]
      have hrest : List.count (0 + 1 + 1 - 1, array_offset [a, b] (0 + 1 + 1) K)
          (if 2 < max_array ∧ 1 < i then
            [(2, array_offset (slice (fun j => word2class.getD (sent.getD j 0) 0) (i - 2) 3)
              3 K)] else []) = 0 := by
        rw [List.count_eq_zero]
        intro hmem
        split at hmem
        · simp at hmem
        · simp at hmem
      rw [hrest]
      have hge : 1 ≤ i := by omega
      by_cases hx : S = [a, b]
      · simp [hx, hge]
      · have : ¬ array_offset S 2 K = array_offset [a, b] 2 K := fun h => hx (hiff.mp h)
        simp [hx, this]
    · -- trigram
      simp only [List.length_cons, List.length_singleton, List.length_nil] at hS hiff hn h2 ⊢
      have hi0 : 0 < i := by omega
      have hi1 : 1 < i := by omega
      have hm : 1 < max_array := by omega
      have hm2 : 2 < max_array := by omega
      have hstart : i + 1 - (0 + 1 + 1 + 1) = i - 2 := by omega
      rw [hstart] at hS
      simp only [hm, hm2, hi0, hi1, and_self, if_true]
      rw [hS, List.count_cons, List.count_cons, List.count_cons]
      have hge : 2 ≤ i := by omega
      by_cases hx : S = [a, b, d]
      · simp [hx, hge]
      · have : ¬ array_offset S 3 K = array_offset [a, b, d] 3 K := fun h => hx (hiff.mp h)
        simp [hx, this]
    · simp at h3
  · have hd : decide (c.length ≤ i + 1) = false := by simp [hn]
    rw [hd, Bool.false_and]
    simp only [Bool.false_eq_true, if_false]
    rw [List.count_eq_zero]
    unfold tally_events
    intro hmem
    rcases List.mem_cons.mp hmem with h | h
    · have : c.length - 1 = 0 := congrArg Prod.fst h
      omega
    · split at h
      · rcases List.mem_cons.mp h with h' | h'
        · have : c.length - 1 = 1 := congrArg Prod.fst h'
          omega
        · split at h'
          · simp at h'
            omega
          · simp at h'
      · simp at h

theorem getD_init_count_arrays (max_array K m : Nat) (hm : m < max_array) :
    (init_count_arrays max_array K).getD m [] = List.replicate (K ^ (m + 1)) 0 := by
  unfold init_count_arrays
  rw [List.getD_eq_getElem?_getD, List.getElem?_map, List.getElem?_range hm]
  rfl

theorem getD_replicate_zero (n k : Nat) : (List.replicate n 0).getD k 0 = 0 := by
  simp only [List.getD_eq_getElem?_getD, List.getElem?_replicate]
  split <;> rfl

/-- C5: on the zeroed arrays of `init_count_arrays`, with `max_array ≤ 3` and the class of
every corpus word below `K`, `tally_class_counts_in_store` leaves in
`count_arrays[n-1][array_offset(c, n, K)]`, for every tuple `c` of `n` class ids below `K`
with `1 ≤ n ≤ max_array`, the number of (sentence, position) pairs at which the class
n-gram `c` occurs contiguously. -/
theorem tally_class_counts_in_store_spec (max_array K : Nat) (corpus : List (List Nat))
    (word2class : List Nat) (hmax : max_array ≤ 3)
    (hcls : ∀ s ∈ corpus, ∀ w ∈ s, word2class.getD w 0 < K)
    (c : List Nat) (h1 : 1 ≤ c.length) (h2 : c.length ≤ max_array) (hc : ∀ x ∈ c, x < K) :
    ((tally_class_counts_in_store max_array K corpus word2class
        (init_count_arrays max_array K)).getD (c.length - 1) []).getD
        (array_offset c c.length K) 0 =
      class_ngram_occurrences corpus word2class c := by
  have hm : c.length - 1 < max_array := by omega
  have hinit := getD_init_count_arrays max_array K (c.length - 1) hm
  have hsucc : c.length - 1 + 1 = c.length := by omega
  rw [hsucc] at hinit
  unfold tally_class_counts_in_store
  rw [tally_class_counts_in_store_eq_foldl, getD_foldl_incr_count _ _ _ _
    (by simpa [init_count_arrays] using hm)
    (by rw [hinit, List.length_replicate]; exact array_offset_lt K c hc)]
  simp only []
  rw [hinit, getD_replicate_zero, Nat.zero_add, List.flatMap_def, List.count_flatten,
    List.map_map]
  unfold class_ngram_occurrences
  congr 1
  apply List.map_congr_left
  intro s hs
  simp only [Function.comp]
  rw [List.flatMap_def, List.count_flatten, List.map_map, ← sum_map_indicator]
  congr 1
  apply List.map_congr_left
  intro i hi
  simp only [Function.comp]
  exact count_tally_events max_array K word2class s i (List.mem_range.mp hi) (hcls s hs) c h1 h2
    (by omega) hc

theorem tally_class_counts_in_store_spec_witness :
    (3 ≤ 3 ∧ (∀ s ∈ [[1, 3, 2], [1, 3, 3, 0, 2]], ∀ w ∈ s, [0, 1, 0, 1].getD w 0 < 2) ∧
      1 ≤ [1, 1, 0].length ∧ [1, 1, 0].length ≤ 3 ∧ (∀ x ∈ [1, 1, 0], x < 2)) ∧
    ((tally_class_counts_in_store 3 2 [[1, 3, 2], [1, 3, 3, 0, 2]] [0, 1, 0, 1]
        (init_count_arrays 3 2)).getD ([1, 1, 0].length - 1) []).getD
        (array_offset [1, 1, 0] [1, 1, 0].length 2) 0 =
      class_ngram_occurrences [[1, 3, 2], [1, 3, 3, 0, 2]] [0, 1, 0, 1] [1, 1, 0] :=
  ⟨by decide, tally_class_counts_in_store_spec 3 2 [[1, 3, 2], [1, 3, 3, 0, 2]] [0, 1, 0, 1]
    (by decide) (by decide) [1, 1, 0] (by decide) (by decide) (by decide)⟩

/-! ### Vocabulary map operations -/

theorem strncmp_eq_unknown (n : Nat) (hn : 5 < n) (w : List Char) :
    strncmp_eq w UNKNOWN_WORD n = true ↔ w = UNKNOWN_WORD := by
  have hlen : UNKNOWN_WORD.length = 5 := rfl
  have hU : UNKNOWN_WORD.take n = UNKNOWN_WORD := List.take_of_length_le (by omega)
  unfold strncmp_eq
  rw [beq_iff_eq, hU]
  constructor
  · intro h
    have h1 : (w.take n).length = 5 := by rw [h, hlen]
    rw [List.length_take] at h1
    have h2 : w.length ≤ n := by omega
    rw [List.take_of_length_le h2] at h
    exact h
  · intro h
    rw [h, hU]

theorem get_keys_map_update_count (m : List struct_map_word) (k : List Char) (c : Nat) :
    get_keys (map_update_count m k c) =
      if k ∈ get_keys m then get_keys m else get_keys m ++ [k] := by
  unfold map_update_count get_keys
  by_cases h : k ∈ m.map (·.key)
  · rw [if_pos h, if_pos h, List.map_map]
    apply List.map_congr_left
    intro e _
    simp only [Function.comp]
    split <;> rfl
  · rw [if_neg h, if_neg h]
    simp

theorem mem_get_keys_map_update_count (m : List struct_map_word) (k k' : List Char) (c : Nat) :
    k' ∈ get_keys (map_update_count m k c) ↔ k' ∈ get_keys m ∨ k' = k := by
  rw [get_keys_map_update_count]
  by_cases h : k ∈ get_keys m
  · rw [if_pos h]
    constructor
    · intro h'; exact Or.inl h'
    · rintro (h' | h')
      · exact h'
      · rw [h']; exact h
  · rw [if_neg h]
    simp

theorem nodup_get_keys_map_update_count (m : List struct_map_word) (k : List Char) (c : Nat)
    (hnd : (get_keys m).Nodup) : (get_keys (map_update_count m k c)).Nodup := by
  rw [get_keys_map_update_count]
  by_cases h : k ∈ get_keys m
  · rw [if_pos h]; exact hnd
  · rw [if_neg h]
    rw [List.nodup_append]
    refine ⟨hnd, List.nodup_singleton k, ?_⟩
    intro a ha hb
    rw [List.mem_singleton] at hb
    rw [hb] at ha
    exact h ha

theorem map_find_count_eq_zero (m : List struct_map_word) (k : List Char)
    (h : k ∉ get_keys m) : map_find_count m k = 0 := by
  unfold map_find_count
  have : m.find? (fun e => decide (e.key = k)) = none := by
    rw [List.find?_eq_none]
    intro e he hk
    apply h
    unfold get_keys
    rw [List.mem_map]
    exact ⟨e, he, by simpa using hk⟩
  rw [this]

theorem map_find_count_cons (e : struct_map_word) (m : List struct_map_word) (k : List Char) :
    map_find_count (e :: m) k = if e.key = k then e.count else map_find_count m k := by
  unfold map_find_count
  rw [List.find?_cons]
  by_cases h : e.key = k
  · simp [h]
  · simp [h]

theorem map_find_count_map_present (m : List struct_map_word) (k k' : List Char) (c : Nat) :
    map_find_count
        (m.map fun e => if e.key = k then { e with count := e.count + c } else e) k' =
      if k' = k ∧ k ∈ get_keys m then map_find_count m k + c else map_find_count m k' := by
  induction m with
  | nil => simp [map_find_count, get_keys]
  | cons e es ih =>
    rw [List.map_cons, map_find_count_cons, ih]
    simp only [map_find_count_cons, get_keys, List.map_cons, List.mem_cons]
    by_cases h1 : e.key = k
    · by_cases h2 : k' = k
      · simp [h1, h2]
      · have h3 : ¬ k = k' := fun x => h2 x.symm
        simp [h1, h2, h3]
    · by_cases h2 : k' = k
      · have h3 : ¬ e.key = k' := by rw [h2]; exact h1
        have h4 : ¬ k = e.key := fun x => h1 x.symm
        simp [h1, h2, h4]
      · simp [h1, h2]

theorem map_find_count_append_absent (m : List struct_map_word) (k k' : List Char) (c : Nat)
    (h : k ∉ get_keys m) :
    map_find_count (m ++ [⟨k, c, 0⟩]) k' = if k' = k then c else map_find_count m k' := by
  induction m with
  | nil =>
    simp only [List.nil_append, map_find_count_cons]
    by_cases h2 : k' = k
    · have h3 : k = k' := h2.symm
      simp [h2]
    · have h3 : ¬ k = k' := fun x => h2 x.symm
      simp [h2, h3, map_find_count]
  | cons e es ih =>
    have hne : ¬ e.key = k := by
      intro x; apply h; simp [get_keys, x.symm]
    have hes : k ∉ get_keys es := by
      intro x; apply h
      simp only [get_keys, List.map_cons, List.mem_cons]; exact Or.inr x
    rw [List.cons_append, map_find_count_cons, map_find_count_cons, ih hes]
    by_cases h2 : k' = k
    · have h3 : ¬ e.key = k' := by rw [h2]; exact hne
      simp [h2, hne]
    · simp [h2]

theorem map_find_count_map_update_count (m : List struct_map_word) (k k' : List Char)
    (c : Nat) :
    map_find_count (map_update_count m k c) k' =
      if k' = k then map_find_count m k + c else map_find_count m k' := by
  unfold map_update_count
  by_cases h : k ∈ m.map (·.key)
  · rw [if_pos h, map_find_count_map_present]
    have h' : k ∈ get_keys m := h
    by_cases h2 : k' = k
    · simp [h2, h']
    · simp [h2]
  · rw [if_neg h, map_find_count_append_absent m k k' c h, map_find_count_eq_zero m k h]
    simp

theorem get_keys_delete_entry (m : List struct_map_word) (k : List Char) :
    get_keys (delete_entry m k) = (get_keys m).erase k := by
  unfold delete_entry get_keys
  induction m with
  | nil => rfl
  | cons e es ih =>
    rw [List.eraseP_cons, List.map_cons, List.erase_cons]
    by_cases h : e.key = k
    · simp [h]
    · simp only [h, decide_False, cond_false, List.map_cons, ih]
      have : (e.key == k) = false := beq_false_of_ne h
      simp [this]

theorem mem_get_keys_delete_entry (m : List struct_map_word) (k k' : List Char)
    (hnd : (get_keys m).Nodup) :
    k' ∈ get_keys (delete_entry m k) ↔ k' ∈ get_keys m ∧ k' ≠ k := by
  rw [get_keys_delete_entry, List.Nodup.mem_erase_iff hnd]
  exact And.comm

theorem nodup_get_keys_delete_entry (m : List struct_map_word) (k : List Char)
    (hnd : (get_keys m).Nodup) : (get_keys (delete_entry m k)).Nodup := by
  rw [get_keys_delete_entry]
  exact hnd.erase k

theorem map_find_count_delete_entry (m : List struct_map_word) (k k' : List Char)
    (hnd : (get_keys m).Nodup) :
    map_find_count (delete_entry m k) k' = if k' = k then 0 else map_find_count m k' := by
  induction m with
  | nil => simp [delete_entry, map_find_count]
  | cons e es ih =>
    have hnd' : (get_keys es).Nodup := (List.nodup_cons.mp hnd).2
    have hnot : e.key ∉ get_keys es := (List.nodup_cons.mp hnd).1
    have ih' := ih hnd'
    unfold delete_entry at ih' ⊢
    rw [List.eraseP_cons]
    by_cases h : e.key = k
    · simp only [h, decide_True, cond_true, map_find_count_cons]
      by_cases h2 : k' = k
      · rw [if_pos h2, h2]
        exact map_find_count_eq_zero es k (by rw [← h]; exact hnot)
      · have h3 : ¬ k = k' := fun x => h2 x.symm
        rw [if_neg h2, if_neg h3]
    · simp only [h, decide_False, cond_false, map_find_count_cons, ih']
      by_cases h2 : k' = k
      · have h3 : ¬ e.key = k' := by rw [h2]; exact h
        simp [h2, h]
      · simp [h2]

theorem total_count_map_present (m : List struct_map_word) (k : List Char) (c : Nat)
    (hnd : (get_keys m).Nodup) :
    total_count (m.map fun e => if e.key = k then { e with count := e.count + c } else e) =
      total_count m + (if k ∈ get_keys m then c else 0) := by
  induction m with
  | nil => simp [total_count, get_keys]
  | cons e es ih =>
    have hnd' : (get_keys es).Nodup := (List.nodup_cons.mp hnd).2
    have hnot : e.key ∉ get_keys es := (List.nodup_cons.mp hnd).1
    have ih' := ih hnd'
    unfold total_count at ih' ⊢
    simp only [List.map_cons, List.sum_cons, ih', get_keys, List.mem_cons]
    by_cases h : e.key = k
    · have h2 : k ∉ get_keys es := by rw [← h]; exact hnot
      have h3 : k ∉ List.map (fun x => x.key) es := h2
      simp [h, h3]; omega
    · have h2 : ¬ k = e.key := fun x => h x.symm
      simp [h, h2]; omega

theorem total_count_map_update_count (m : List struct_map_word) (k : List Char) (c : Nat)
    (hnd : (get_keys m).Nodup) :
    total_count (map_update_count m k c) = total_count m + c := by
  unfold map_update_count
  by_cases h : k ∈ m.map (·.key)
  · have h' : k ∈ get_keys m := h
    rw [if_pos h, total_count_map_present m k c hnd, if_pos h']
  · rw [if_neg h]
    simp [total_count]

theorem total_count_delete_entry (m : List struct_map_word) (k : List Char) :
    total_count (delete_entry m k) + map_find_count m k = total_count m := by
  induction m with
  | nil => simp [delete_entry, map_find_count, total_count]
  | cons e es ih =>
    unfold delete_entry at ih ⊢
    rw [List.eraseP_cons, map_find_count_cons]
    by_cases h : e.key = k
    · simp only [h, decide_True, cond_true, if_true, total_count, List.map_cons, List.sum_cons]
      omega
    · simp only [h, decide_False, cond_false, if_false, total_count, List.map_cons,
        List.sum_cons] at ih ⊢
      omega

theorem length_get_keys (m : List struct_map_word) : (get_keys m).length = m.length := by
  simp [get_keys]

theorem length_delete_update (m : List struct_map_word) (w : List Char) (c : Nat)
    (hunk : UNKNOWN_WORD ∈ get_keys m) (hw : w ∈ get_keys m) :
    (delete_entry (map_update_count m UNKNOWN_WORD c) w).length + 1 = m.length := by
  rw [← length_get_keys, get_keys_delete_entry, get_keys_map_update_count, if_pos hunk,
    List.length_erase_of_mem hw, length_get_keys]
  have : 0 < m.length := by
    rw [← length_get_keys]; exact List.length_pos_of_mem hw
  omega

/-! ### Vocabulary filter: claims C8, C9, C10 -/

theorem filter_infrequent_words_step_eq (L : Limits) (min_count : Nat)
    (hM : 5 < L.MAX_WORD_LEN) (st : filter_state) (w : List Char) :
    filter_infrequent_words_step L min_count st w =
      if doomed min_count st.ngram_map w then
        { number_of_deleted_words := st.number_of_deleted_words + 1
          type_count := st.type_count - 1
          ngram_map := delete_entry
            (map_update_count st.ngram_map UNKNOWN_WORD (map_find_count st.ngram_map w)) w }
      else st := by
  unfold filter_infrequent_words_step doomed
  have h : strncmp_eq w UNKNOWN_WORD L.MAX_WORD_LEN = false ↔ w ≠ UNKNOWN_WORD := by
    by_cases hw : w = UNKNOWN_WORD
    · have := (strncmp_eq_unknown _ hM w).mpr hw
      rw [this]
      simp [hw]
    · have : strncmp_eq w UNKNOWN_WORD L.MAX_WORD_LEN = false := by
        cases hb : strncmp_eq w UNKNOWN_WORD L.MAX_WORD_LEN
        · rfl
        · exact absurd ((strncmp_eq_unknown _ hM w).mp hb) hw
      simp [this, hw]
  simp only [h]

theorem step_nodup (_min_count : Nat) (m : List struct_map_word) (w : List Char)
    (hnd : (get_keys m).Nodup) :
    (get_keys (delete_entry (map_update_count m UNKNOWN_WORD
      (map_find_count m w)) w)).Nodup :=
  nodup_get_keys_delete_entry _ _ (nodup_get_keys_map_update_count _ _ _ hnd)

theorem step_mem (m : List struct_map_word) (w k : List Char) (hnd : (get_keys m).Nodup) :
    k ∈ get_keys (delete_entry (map_update_count m UNKNOWN_WORD (map_find_count m w)) w) ↔
      (k ∈ get_keys m ∨ k = UNKNOWN_WORD) ∧ k ≠ w := by
  rw [mem_get_keys_delete_entry _ _ _ (nodup_get_keys_map_update_count _ _ _ hnd),
    mem_get_keys_map_update_count]

theorem step_count (m : List struct_map_word) (w k : List Char) (hnd : (get_keys m).Nodup) :
    map_find_count (delete_entry (map_update_count m UNKNOWN_WORD (map_find_count m w)) w) k =
      if k = w then 0
      else if k = UNKNOWN_WORD then map_find_count m UNKNOWN_WORD + map_find_count m w
      else map_find_count m k := by
  rw [map_find_count_delete_entry _ _ _ (nodup_get_keys_map_update_count _ _ _ hnd),
    map_find_count_map_update_count]

theorem step_total (m : List struct_map_word) (w : List Char) (hnd : (get_keys m).Nodup)
    (hw : w ≠ UNKNOWN_WORD) :
    total_count (delete_entry (map_update_count m UNKNOWN_WORD (map_find_count m w)) w) =
      total_count m := by
  have h1 := total_count_delete_entry (map_update_count m UNKNOWN_WORD (map_find_count m w)) w
  rw [map_find_count_map_update_count, if_neg hw, total_count_map_update_count _ _ _ hnd] at h1
  omega

theorem step_doomed_iff (min_count : Nat) (m : List struct_map_word) (w k : List Char)
    (hnd : (get_keys m).Nodup) (hk : k ≠ w) :
    doomed min_count
        (delete_entry (map_update_count m UNKNOWN_WORD (map_find_count m w)) w) k ↔
      doomed min_count m k := by
  unfold doomed
  by_cases h : k = UNKNOWN_WORD
  · simp [h]
  · rw [step_count m w k hnd, if_neg hk, if_neg h]

theorem fold_nodup (L : Limits) (min_count : Nat) (hM : 5 < L.MAX_WORD_LEN)
    (ws : List (List Char)) (st : filter_state) (hnd : (get_keys st.ngram_map).Nodup) :
    (get_keys (ws.foldl (filter_infrequent_words_step L min_count) st).ngram_map).Nodup := by
  induction ws generalizing st with
  | nil => exact hnd
  | cons w ws ih =>
    rw [List.foldl_cons]
    apply ih
    rw [filter_infrequent_words_step_eq L min_count hM]
    split
    · exact step_nodup min_count _ _ hnd
    · exact hnd

theorem filter_doomed_congr (min_count : Nat) (m : List struct_map_word) (w : List Char)
    (ws : List (List Char)) (hnd : (get_keys m).Nodup) (hw : w ∉ ws) :
    ws.filter (fun k => decide (doomed min_count
        (delete_entry (map_update_count m UNKNOWN_WORD (map_find_count m w)) w) k)) =
      ws.filter (fun k => decide (doomed min_count m k)) := by
  apply List.filter_congr
  intro k hk
  have hne : k ≠ w := fun h => hw (h ▸ hk)
  rw [decide_eq_decide]
  exact step_doomed_iff min_count m w k hnd hne

theorem fold_counters (L : Limits) (min_count : Nat) (hM : 5 < L.MAX_WORD_LEN)
    (ws : List (List Char)) (st : filter_state) (hws : ws.Nodup)
    (hnd : (get_keys st.ngram_map).Nodup) :
    (ws.foldl (filter_infrequent_words_step L min_count) st).number_of_deleted_words =
        st.number_of_deleted_words +
          (ws.filter fun k => decide (doomed min_count st.ngram_map k)).length ∧
    (ws.foldl (filter_infrequent_words_step L min_count) st).type_count =
        st.type_count - (ws.filter fun k => decide (doomed min_count st.ngram_map k)).length ∧
    total_count (ws.foldl (filter_infrequent_words_step L min_count) st).ngram_map =
        total_count st.ngram_map := by
  induction ws generalizing st with
  | nil => simp
  | cons w ws ih =>
    have hw : w ∉ ws := (List.nodup_cons.mp hws).1
    have hws' : ws.Nodup := (List.nodup_cons.mp hws).2
    rw [List.foldl_cons, filter_infrequent_words_step_eq L min_count hM, List.filter_cons]
    by_cases hd : doomed min_count st.ngram_map w
    · rw [if_pos hd]
      have := ih
        { number_of_deleted_words := st.number_of_deleted_words + 1
          type_count := st.type_count - 1
          ngram_map := delete_entry
            (map_update_count st.ngram_map UNKNOWN_WORD (map_find_count st.ngram_map w)) w }
        hws' (step_nodup min_count st.ngram_map w hnd)
      simp only [] at this
      rw [filter_doomed_congr min_count st.ngram_map w ws hnd hw,
        step_total st.ngram_map w hnd hd.2] at this
      simp only [hd, decide_True, if_true, List.length_cons]
      refine ⟨by omega, by omega, this.2.2⟩
    · rw [if_neg hd]
      simp only [hd, decide_False, Bool.false_eq_true, if_false]
      exact ih st hws' hnd

theorem fold_mem (L : Limits) (min_count : Nat) (hM : 5 < L.MAX_WORD_LEN)
    (ws : List (List Char)) (st : filter_state) (hws : ws.Nodup)
    (hnd : (get_keys st.ngram_map).Nodup) (k : List Char) :
    k ∈ get_keys (ws.foldl (filter_infrequent_words_step L min_count) st).ngram_map ↔
      (k ∈ get_keys st.ngram_map ∧ ¬ (k ∈ ws ∧ doomed min_count st.ngram_map k)) ∨
      (k = UNKNOWN_WORD ∧ ∃ w ∈ ws, doomed min_count st.ngram_map w) := by
  induction ws generalizing st with
  | nil => simp
  | cons w ws ih =>
    have hw : w ∉ ws := (List.nodup_cons.mp hws).1
    have hws' : ws.Nodup := (List.nodup_cons.mp hws).2
    rw [List.foldl_cons, filter_infrequent_words_step_eq L min_count hM]
    by_cases hd : doomed min_count st.ngram_map w
    · rw [if_pos hd]
      have hwu : w ≠ UNKNOWN_WORD := hd.2
      have hih := ih
        { number_of_deleted_words := st.number_of_deleted_words + 1
          type_count := st.type_count - 1
          ngram_map := delete_entry
            (map_update_count st.ngram_map UNKNOWN_WORD (map_find_count st.ngram_map w)) w }
        hws' (step_nodup min_count st.ngram_map w hnd)
      simp only [] at hih
      rw [hih, step_mem st.ngram_map w k hnd]
      have hex : (∃ w' ∈ ws, doomed min_count (delete_entry
          (map_update_count st.ngram_map UNKNOWN_WORD (map_find_count st.ngram_map w)) w) w') ↔
          ∃ w' ∈ ws, doomed min_count st.ngram_map w' := by
        constructor
        · rintro ⟨w', hw', hdw⟩
          exact ⟨w', hw', (step_doomed_iff min_count st.ngram_map w w' hnd
            (fun h => hw (h ▸ hw'))).mp hdw⟩
        · rintro ⟨w', hw', hdw⟩
          exact ⟨w', hw', (step_doomed_iff min_count st.ngram_map w w' hnd
            (fun h => hw (h ▸ hw'))).mpr hdw⟩
      rw [hex]
      by_cases hkw : k = w
      · subst hkw
        have : ¬ k = UNKNOWN_WORD := hwu
        simp [hd, this]
      · have hdk := step_doomed_iff min_count st.ngram_map w k hnd hkw
        rw [hdk]
        by_cases hku : k = UNKNOWN_WORD
        · subst hku
          have hnd' : ¬ doomed min_count st.ngram_map UNKNOWN_WORD := fun h => h.2 rfl
          simp only [List.mem_cons, hkw, false_or, hnd', and_false, not_false_eq_true,
            and_true, or_true, ne_eq, true_and, exists_eq_or_imp, hd, true_or]
        · simp only [List.mem_cons, hkw, hku, false_or, or_false, ne_eq, not_false_eq_true,
            and_true, false_and]
    · rw [if_neg hd]
      rw [ih st hws' hnd]
      have h1 : (k ∈ w :: ws ∧ doomed min_count st.ngram_map k) ↔
          (k ∈ ws ∧ doomed min_count st.ngram_map k) := by
        constructor
        · rintro ⟨h, hdk⟩
          rcases List.mem_cons.mp h with h | h
          · exact absurd (h ▸ hdk) hd
          · exact ⟨h, hdk⟩
        · rintro ⟨h, hdk⟩
          exact ⟨List.mem_cons_of_mem w h, hdk⟩
      have h2 : (∃ w' ∈ w :: ws, doomed min_count st.ngram_map w') ↔
          ∃ w' ∈ ws, doomed min_count st.ngram_map w' := by
        simp only [List.mem_cons, exists_eq_or_imp, hd, false_or]
      rw [h1, h2]

theorem fold_count (L : Limits) (min_count : Nat) (hM : 5 < L.MAX_WORD_LEN)
    (ws : List (List Char)) (st : filter_state) (hws : ws.Nodup)
    (hnd : (get_keys st.ngram_map).Nodup) (k : List Char) (hk : k ≠ UNKNOWN_WORD)
    (hkeep : ¬ (k ∈ ws ∧ doomed min_count st.ngram_map k)) :
    map_find_count (ws.foldl (filter_infrequent_words_step L min_count) st).ngram_map k =
      map_find_count st.ngram_map k := by
  induction ws generalizing st with
  | nil => rfl
  | cons w ws ih =>
    have hw : w ∉ ws := (List.nodup_cons.mp hws).1
    have hws' : ws.Nodup := (List.nodup_cons.mp hws).2
    rw [List.foldl_cons, filter_infrequent_words_step_eq L min_count hM]
    by_cases hd : doomed min_count st.ngram_map w
    · rw [if_pos hd]
      have hkw : k ≠ w := by
        intro h
        exact hkeep ⟨h ▸ List.mem_cons_self w ws, h ▸ hd⟩
      have hih := ih
        { number_of_deleted_words := st.number_of_deleted_words + 1
          type_count := st.type_count - 1
          ngram_map := delete_entry
            (map_update_count st.ngram_map UNKNOWN_WORD (map_find_count st.ngram_map w)) w }
        hws' (step_nodup min_count st.ngram_map w hnd)
        (by
          rintro ⟨h1, h2⟩
          exact hkeep ⟨List.mem_cons_of_mem w h1,
            (step_doomed_iff min_count st.ngram_map w k hnd hkw).mp h2⟩)
      simp only [] at hih
      rw [hih, step_count st.ngram_map w k hnd, if_neg hkw, if_neg hk]
    · rw [if_neg hd]
      exact ih st hws' hnd (fun ⟨h1, h2⟩ => hkeep ⟨List.mem_cons_of_mem w h1, h2⟩)

theorem fold_count_unknown (L : Limits) (min_count : Nat) (hM : 5 < L.MAX_WORD_LEN)
    (ws : List (List Char)) (st : filter_state) (hws : ws.Nodup)
    (hnd : (get_keys st.ngram_map).Nodup) :
    map_find_count (ws.foldl (filter_infrequent_words_step L min_count) st).ngram_map
        UNKNOWN_WORD =
      map_find_count st.ngram_map UNKNOWN_WORD +
        ((ws.filter fun k => decide (doomed min_count st.ngram_map k)).map
          (map_find_count st.ngram_map)).sum := by
  induction ws generalizing st with
  | nil => simp
  | cons w ws ih =>
    have hw : w ∉ ws := (List.nodup_cons.mp hws).1
    have hws' : ws.Nodup := (List.nodup_cons.mp hws).2
    rw [List.foldl_cons, filter_infrequent_words_step_eq L min_count hM, List.filter_cons]
    by_cases hd : doomed min_count st.ngram_map w
    · rw [if_pos hd]
      have hwu : ¬ UNKNOWN_WORD = w := fun h => hd.2 h.symm
      have hih := ih
        { number_of_deleted_words := st.number_of_deleted_words + 1
          type_count := st.type_count - 1
          ngram_map := delete_entry
            (map_update_count st.ngram_map UNKNOWN_WORD (map_find_count st.ngram_map w)) w }
        hws' (step_nodup min_count st.ngram_map w hnd)
      simp only [] at hih
      rw [hih, filter_doomed_congr min_count st.ngram_map w ws hnd hw,
        step_count st.ngram_map w UNKNOWN_WORD hnd, if_neg hwu, if_pos rfl]
      have hmap : (ws.filter fun k => decide (doomed min_count st.ngram_map k)).map
          (map_find_count (delete_entry (map_update_count st.ngram_map UNKNOWN_WORD
            (map_find_count st.ngram_map w)) w)) =
          (ws.filter fun k => decide (doomed min_count st.ngram_map k)).map
            (map_find_count st.ngram_map) := by
        apply List.map_congr_left
        intro k hk
        have hk' := List.mem_filter.mp hk
        have hkd : doomed min_count st.ngram_map k := by simpa using hk'.2
        have hkw : k ≠ w := fun h => hw (h ▸ hk'.1)
        rw [step_count st.ngram_map w k hnd, if_neg hkw, if_neg hkd.2]
      rw [hmap]
      simp only [hd, decide_True, if_true, List.map_cons, List.sum_cons]
      omega
    · rw [if_neg hd]
      simp only [hd, decide_False, Bool.false_eq_true, if_false]
      exact ih st hws' hnd

theorem fold_length (L : Limits) (min_count : Nat) (hM : 5 < L.MAX_WORD_LEN)
    (ws : List (List Char)) (st : filter_state) (hws : ws.Nodup)
    (hnd : (get_keys st.ngram_map).Nodup) (hunk : UNKNOWN_WORD ∈ get_keys st.ngram_map)
    (hsub : ∀ w ∈ ws, w ∈ get_keys st.ngram_map) :
    (ws.foldl (filter_infrequent_words_step L min_count) st).ngram_map.length +
        (ws.filter fun k => decide (doomed min_count st.ngram_map k)).length =
      st.ngram_map.length := by
  induction ws generalizing st with
  | nil => simp
  | cons w ws ih =>
    have hw : w ∉ ws := (List.nodup_cons.mp hws).1
    have hws' : ws.Nodup := (List.nodup_cons.mp hws).2
    rw [List.foldl_cons, filter_infrequent_words_step_eq L min_count hM, List.filter_cons]
    by_cases hd : doomed min_count st.ngram_map w
    · rw [if_pos hd]
      have hwu : ¬ UNKNOWN_WORD = w := fun h => hd.2 h.symm
      have hih := ih
        { number_of_deleted_words := st.number_of_deleted_words + 1
          type_count := st.type_count - 1
          ngram_map := delete_entry
            (map_update_count st.ngram_map UNKNOWN_WORD (map_find_count st.ngram_map w)) w }
        hws' (step_nodup min_count st.ngram_map w hnd)
        ((step_mem st.ngram_map w UNKNOWN_WORD hnd).mpr ⟨Or.inl hunk, hwu⟩)
        (fun w' hw' => (step_mem st.ngram_map w w' hnd).mpr
          ⟨Or.inl (hsub w' (List.mem_cons_of_mem w hw')), fun h => hw (h ▸ hw')⟩)
      simp only [] at hih
      rw [filter_doomed_congr min_count st.ngram_map w ws hnd hw] at hih
      have hlen := length_delete_update st.ngram_map w (map_find_count st.ngram_map w) hunk
        (hsub w (List.mem_cons_self w ws))
      simp only [hd, decide_True, if_true, List.length_cons]
      omega
    · rw [if_neg hd]
      simp only [hd, decide_False, Bool.false_eq_true, if_false]
      exact ih st hws' hnd hunk (fun w' hw' => hsub w' (List.mem_cons_of_mem w hw'))

theorem filter_infrequent_words_ok (L : Limits) (min_count type_count : Nat)
    (m : List struct_map_word) (htc : type_count = map_count m) :
    filter_infrequent_words L min_count type_count m =
      Except.ok ((get_keys m).foldl (filter_infrequent_words_step L min_count)
        { number_of_deleted_words := 0, type_count := type_count, ngram_map := m }) := by
  unfold filter_infrequent_words
  have : ¬ type_count ≠ (get_keys m).length := by
    rw [length_get_keys, htc]; simp [map_count]
  simp only [this, if_false]

theorem kept_iff_not_doomed (L : Limits) (min_count type_count : Nat)
    (m : List struct_map_word) (hM : 5 < L.MAX_WORD_LEN) (hnd : (get_keys m).Nodup)
    (w : List Char) (hw : w ∈ get_keys m) :
    w ∈ get_keys ((get_keys m).foldl (filter_infrequent_words_step L min_count)
        { number_of_deleted_words := 0, type_count := type_count, ngram_map := m }).ngram_map ↔
      ¬ doomed min_count m w := by
  rw [fold_mem L min_count hM (get_keys m) _ hnd hnd w]
  simp only []
  constructor
  · rintro (⟨_, h⟩ | ⟨h, _⟩)
    · exact fun hd => h ⟨hw, hd⟩
    · exact fun hd => hd.2 h
  · intro h
    exact Or.inl ⟨hw, fun hd => h hd.2⟩

/-- C8: when `type_count` is the number of entries of the map, `filter_infrequent_words`
returns, and a word of the map is still in it afterwards if and only if it is `<unk>` or
its count before the call was at least `min_count`; so every word other than `<unk>` whose
count is below `min_count` is deleted. -/
theorem filter_infrequent_words_keeps (L : Limits) (min_count type_count : Nat)
    (m : List struct_map_word) (hM : 5 < L.MAX_WORD_LEN) (hnd : (get_keys m).Nodup)
    (htc : type_count = map_count m) :
    ∃ r, filter_infrequent_words L min_count type_count m = Except.ok r ∧
      (∀ w ∈ get_keys m, (w ∈ get_keys r.ngram_map ↔
        (w = UNKNOWN_WORD ∨ min_count ≤ map_find_count m w))) ∧
      (∀ w ∈ get_keys m, map_find_count m w < min_count → w ≠ UNKNOWN_WORD →
        w ∉ get_keys r.ngram_map) := by
  refine ⟨_, filter_infrequent_words_ok L min_count type_count m htc, ?_, ?_⟩
  · intro w hw
    rw [kept_iff_not_doomed L min_count type_count m hM hnd w hw]
    unfold doomed
    constructor
    · intro h
      by_cases hu : w = UNKNOWN_WORD
      · exact Or.inl hu
      · right
        by_contra hc
        exact h ⟨by omega, hu⟩
    · rintro (h | h) hd
      · exact hd.2 h
      · omega
  · intro w hw hlt hne
    rw [kept_iff_not_doomed L min_count type_count m hM hnd w hw]
    exact fun h => h ⟨hlt, hne⟩

theorem filter_infrequent_words_keeps_witness :
    (5 < example_limits.MAX_WORD_LEN ∧
      (get_keys (process_str_sents_in_buffer example_limits reserved_words_map
        example_buffer).2).Nodup ∧
      7 = map_count (process_str_sents_in_buffer example_limits reserved_words_map
        example_buffer).2) ∧
    ∃ r, filter_infrequent_words example_limits 2 7
        (process_str_sents_in_buffer example_limits reserved_words_map example_buffer).2 =
          Except.ok r ∧
      (∀ w ∈ get_keys (process_str_sents_in_buffer example_limits reserved_words_map
          example_buffer).2,
        (w ∈ get_keys r.ngram_map ↔ (w = UNKNOWN_WORD ∨ 2 ≤ map_find_count
          (process_str_sents_in_buffer example_limits reserved_words_map example_buffer).2
            w))) ∧
      (∀ w ∈ get_keys (process_str_sents_in_buffer example_limits reserved_words_map
          example_buffer).2,
        map_find_count (process_str_sents_in_buffer example_limits reserved_words_map
          example_buffer).2 w < 2 → w ≠ UNKNOWN_WORD → w ∉ get_keys r.ngram_map) :=
  ⟨by decide, filter_infrequent_words_keeps example_limits 2 7
    (process_str_sents_in_buffer example_limits reserved_words_map example_buffer).2
    (by decide) (by decide) (by decide)⟩

/-- C9: `filter_infrequent_words` conserves counts. After the call the count of `<unk>` is
its previous count plus the sum of the counts of the deleted words, every other surviving
word keeps its count, and the sum of all counts of the map is unchanged. On the corpus
`x y z / x y z / x y q` with `min_count = 2` the word `q` is removed, the vocabulary is
`<unk>, <s>, </s>, x, y, z` and `<unk>` ends with count 1. -/
theorem filter_infrequent_words_conserves (L : Limits) (min_count type_count : Nat)
    (m : List struct_map_word) (hM : 5 < L.MAX_WORD_LEN) (hnd : (get_keys m).Nodup)
    (htc : type_count = map_count m) :
    (∃ r, filter_infrequent_words L min_count type_count m = Except.ok r ∧
      map_find_count r.ngram_map UNKNOWN_WORD =
        map_find_count m UNKNOWN_WORD +
          (((get_keys m).filter fun w => decide (w ∉ get_keys r.ngram_map)).map
            (map_find_count m)).sum ∧
      (∀ w ∈ get_keys r.ngram_map, w ≠ UNKNOWN_WORD →
        map_find_count r.ngram_map w = map_find_count m w) ∧
      total_count r.ngram_map = total_count m) ∧
    (∃ r, filter_infrequent_words example_limits 2 7
        (process_str_sents_in_buffer example_limits reserved_words_map example_buffer).2 =
          Except.ok r ∧
      "q".toList ∈ get_keys
        (process_str_sents_in_buffer example_limits reserved_words_map example_buffer).2 ∧
      "q".toList ∉ get_keys r.ngram_map ∧
      get_keys r.ngram_map =
        [UNKNOWN_WORD, "<s>".toList, "</s>".toList, "x".toList, "y".toList, "z".toList] ∧
      map_find_count r.ngram_map UNKNOWN_WORD = 1) := by
  constructor
  · refine ⟨_, filter_infrequent_words_ok L min_count type_count m htc, ?_, ?_, ?_⟩
    · rw [fold_count_unknown L min_count hM (get_keys m) _ hnd hnd]
      simp only []
      congr 3
      apply List.filter_congr
      intro w hw
      rw [decide_eq_decide, kept_iff_not_doomed L min_count type_count m hM hnd w hw]
      exact not_not.symm
    · intro w hw hne
      have hmem := (fold_mem L min_count hM (get_keys m)
        { number_of_deleted_words := 0, type_count := type_count, ngram_map := m }
        hnd hnd w).mp hw
      rcases hmem with ⟨_, h⟩ | ⟨h, _⟩
      · exact fold_count L min_count hM (get_keys m) _ hnd hnd w hne h
      · exact absurd h hne
    · exact (fold_counters L min_count hM (get_keys m)
        { number_of_deleted_words := 0, type_count := type_count, ngram_map := m }
        hnd hnd).2.2
  · exact ⟨_, rfl, by decide, by decide, by decide, by decide⟩

theorem filter_infrequent_words_conserves_witness :
    (5 < example_limits.MAX_WORD_LEN ∧
      (get_keys (process_str_sents_in_buffer example_limits reserved_words_map
        example_buffer).2).Nodup ∧
      7 = map_count (process_str_sents_in_buffer example_limits reserved_words_map
        example_buffer).2) ∧
    ∃ r, filter_infrequent_words example_limits 2 7
        (process_str_sents_in_buffer example_limits reserved_words_map example_buffer).2 =
          Except.ok r ∧
      total_count r.ngram_map =
        total_count (process_str_sents_in_buffer example_limits reserved_words_map
          example_buffer).2 :=
  ⟨by decide,
    match (filter_infrequent_words_conserves example_limits 2 7
      (process_str_sents_in_buffer example_limits reserved_words_map example_buffer).2
      (by decide) (by decide) (by decide)).1 with
    | ⟨r, h1, _, _, h4⟩ => ⟨r, h1, h4⟩⟩

theorem fold_not_doomed (L : Limits) (min_count : Nat) (hM : 5 < L.MAX_WORD_LEN)
    (ws : List (List Char)) (st : filter_state)
    (h : ∀ w ∈ ws, ¬ doomed min_count st.ngram_map w) :
    ws.foldl (filter_infrequent_words_step L min_count) st = st := by
  induction ws with
  | nil => rfl
  | cons w ws ih =>
    rw [List.foldl_cons, filter_infrequent_words_step_eq L min_count hM,
      if_neg (h w (List.mem_cons_self w ws))]
    exact ih (fun w' hw' => h w' (List.mem_cons_of_mem w hw'))

/-- C10: `filter_infrequent_words` is idempotent at a fixed threshold. On a map that holds
`<unk>`, a second run with the same `min_count` on the result of the first run returns 0,
deletes no word, changes no count and leaves `type_count` unchanged. -/
theorem filter_infrequent_words_idempotent (L : Limits) (min_count type_count : Nat)
    (m : List struct_map_word) (hM : 5 < L.MAX_WORD_LEN) (hnd : (get_keys m).Nodup)
    (htc : type_count = map_count m) (hunk : UNKNOWN_WORD ∈ get_keys m) :
    ∃ r, filter_infrequent_words L min_count type_count m = Except.ok r ∧
      filter_infrequent_words L min_count r.type_count r.ngram_map =
        Except.ok
          { number_of_deleted_words := 0
            type_count := r.type_count
            ngram_map := r.ngram_map } := by
  refine ⟨_, filter_infrequent_words_ok L min_count type_count m htc, ?_⟩
  have hcnt := fold_counters L min_count hM (get_keys m)
    { number_of_deleted_words := 0, type_count := type_count, ngram_map := m } hnd hnd
  have hlen := fold_length L min_count hM (get_keys m)
    { number_of_deleted_words := 0, type_count := type_count, ngram_map := m } hnd hnd hunk
    (fun w hw => hw)
  simp only [] at hcnt hlen
  generalize hr : (get_keys m).foldl (filter_infrequent_words_step L min_count)
    { number_of_deleted_words := 0, type_count := type_count, ngram_map := m } = r
    at hcnt hlen
  have htc' : r.type_count = map_count r.ngram_map := by
    unfold map_count at htc ⊢
    omega
  rw [filter_infrequent_words_ok L min_count r.type_count r.ngram_map htc']
  congr 1
  apply fold_not_doomed L min_count hM
  intro w hw hd
  simp only [] at hw hd
  have hmem := hw
  rw [← hr] at hmem
  have hmem' := (fold_mem L min_count hM (get_keys m)
    { number_of_deleted_words := 0, type_count := type_count, ngram_map := m }
    hnd hnd w).mp hmem
  rcases hmem' with ⟨h1, h2⟩ | ⟨h, _⟩
  · have hc := fold_count L min_count hM (get_keys m)
      { number_of_deleted_words := 0, type_count := type_count, ngram_map := m }
      hnd hnd w hd.2 h2
    rw [hr] at hc
    simp only [] at hc h2
    apply h2
    refine ⟨h1, ?_, hd.2⟩
    rw [← hc]
    exact hd.1
  · exact hd.2 h

theorem filter_infrequent_words_idempotent_witness :
    (5 < example_limits.MAX_WORD_LEN ∧
      (get_keys (process_str_sents_in_buffer example_limits reserved_words_map
        example_buffer).2).Nodup ∧
      7 = map_count (process_str_sents_in_buffer example_limits reserved_words_map
        example_buffer).2 ∧
      UNKNOWN_WORD ∈ get_keys (process_str_sents_in_buffer example_limits reserved_words_map
        example_buffer).2) ∧
    ∃ r, filter_infrequent_words example_limits 2 7
        (process_str_sents_in_buffer example_limits reserved_words_map example_buffer).2 =
          Except.ok r ∧
      filter_infrequent_words example_limits 2 r.type_count r.ngram_map =
        Except.ok
          { number_of_deleted_words := 0
            type_count := r.type_count
            ngram_map := r.ngram_map } :=
  ⟨by decide, filter_infrequent_words_idempotent example_limits 2 7
    (process_str_sents_in_buffer example_limits reserved_words_map example_buffer).2
    (by decide) (by decide) (by decide) (by decide)⟩

/-! ### Evaluations at concrete inputs: claims C1 and C7 -/

/-- C1, evaluated on the one-line input `x` (with `min_count = 1`): the integer corpus is
`[[0, 2, 1]]` over 4 word ids, the bigram `<s> x`, that is `0 2`, occurs once, and after
`set_bigram_counts` in the forward direction the entry of word 2, whose group is the last
of the sorted bigram map, is still the empty entry that `calloc` left. -/
theorem set_bigram_counts_last_group_lost (MAX_WORD_PREDECESSORS : Nat) :
    (∃ r, main_build example_limits 1 ["x\n".toList] = Except.ok r ∧ r.type_count = 4 ∧
      r.sent_store_int = [[0, 2, 1]]) ∧
    count_positions [[0, 2, 1]] (fun u w => u == 0 && w == 2) = 1 ∧
    (set_bigram_counts MAX_WORD_PREDECESSORS (List.replicate 4 ⟨0, [], []⟩) [[0, 2, 1]]
      false)[2]? = some ⟨0, [], []⟩ := by
  refine ⟨⟨_, rfl, rfl, rfl⟩, by decide, ?_⟩
  simp [set_bigram_counts, map_increment_bigram, sort_bigrams, set_bigram_counts_step,
    List.range']

/-- C7, evaluated on the buffer made of the line `a` and an empty line (with
`min_count = 1`, two classes and the assignment `[0, 1, 0, 1]`): the first pass counts 3
tokens and the word counts sum to 3, while the integer corpus holds the sentence
`<s> </s>` for the empty line and the order-1 count array sums to 5. -/
theorem tally_class_counts_empty_line :
    ∃ r, main_build example_limits 1 ["a\n".toList, "\n".toList] = Except.ok r ∧
      r.token_count = 3 ∧ r.word_counts.sum = 3 ∧
      r.sent_store_int = [[0, 2, 1], [0, 1]] ∧
      ((tally_class_counts_in_store 3 2 r.sent_store_int [0, 1, 0, 1]
        (init_count_arrays 3 2)).getD 0 []).sum = 5 :=
  ⟨_, rfl, rfl, rfl, rfl, by decide⟩

/-! ### Initial class assignment: claim C17 -/

theorem init_clusters_loop (K : Nat) (hK : 1 ≤ K) (n : Nat) (w2c : List Nat) :
    let r := (List.range n).foldl (fun (st : Nat × List Nat) word_i =>
      let cls := if st.1 = K then 0 else st.1
      (cls + 1, st.2.set word_i cls)) (0, w2c)
    r.1 ≤ K ∧ r.1 % K = n % K ∧ r.2.length = w2c.length ∧
      (∀ i, i < n → i < w2c.length → r.2.getD i 0 = i % K) ∧
      (∀ i, n ≤ i → r.2.getD i 0 = w2c.getD i 0) := by
  induction n with
  | zero => simp
  | succ m ih =>
    simp only [] at ih ⊢
    rw [List.range_succ, List.foldl_append, List.foldl_cons, List.foldl_nil]
    generalize (List.range m).foldl (fun (st : Nat × List Nat) word_i =>
      ((if st.1 = K then 0 else st.1) + 1, st.2.set word_i (if st.1 = K then 0 else st.1)))
      (0, w2c) = st at ih ⊢
    obtain ⟨h1, h2, h3, h4, h5⟩ := ih
    have hcls : (if st.1 = K then 0 else st.1) = m % K := by
      by_cases h : st.1 = K
      · rw [if_pos h, ← h2, h, Nat.mod_self]
      · rw [if_neg h, ← h2, Nat.mod_eq_of_lt (by omega)]
    simp only [hcls]
    have hlt : m % K < K := Nat.mod_lt _ (by omega)
    refine ⟨by omega, ?_, by simp [h3], ?_, ?_⟩
    · rw [Nat.add_mod, Nat.mod_mod, ← Nat.add_mod]
    · intro i hi hil
      simp only [List.getD_eq_getElem?_getD, List.getElem?_set] at h4 h5 ⊢
      by_cases him : m = i
      · subst him
        simp [h3, hil]
      · simp only [him, if_false]
        exact h4 i (by omega) hil
    · intro i hi
      simp only [List.getD_eq_getElem?_getD, List.getElem?_set] at h4 h5 ⊢
      have him : ¬ m = i := by omega
      simp only [him, if_false]
      exact h5 i (by omega)

/-- C17: for the exchange algorithms and `1 ≤ K ≤ V`, `init_clusters` gives word `i` the
class `i mod K` for every `i < V`; every class id is below `K`, every class below `K` is
the class of some word, and with `K = 1` every word has class 0. -/
theorem init_clusters_spec (class_algo : class_algo_t) (K V : Nat) (word2class : List Nat)
    (halgo : class_algo ≠ class_algo_t.BROWN) (hK : 1 ≤ K) (hKV : K ≤ V)
    (hlen : word2class.length = V) :
    (init_clusters class_algo K V word2class).length = V ∧
    (∀ i, i < V → (init_clusters class_algo K V word2class).getD i 0 = i % K) ∧
    (∀ i, i < V → (init_clusters class_algo K V word2class).getD i 0 < K) ∧
    (∀ c, c < K → ∃ i, i < V ∧ (init_clusters class_algo K V word2class).getD i 0 = c) ∧
    (K = 1 → ∀ i, i < V → (init_clusters class_algo K V word2class).getD i 0 = 0) := by
  have hloop := init_clusters_loop K hK V word2class
  simp only [] at hloop
  have hdef : init_clusters class_algo K V word2class =
      ((List.range V).foldl (fun (st : Nat × List Nat) word_i =>
        ((if st.1 = K then 0 else st.1) + 1,
          st.2.set word_i (if st.1 = K then 0 else st.1))) (0, word2class)).2 := by
    cases class_algo with
    | BROWN => exact absurd rfl halgo
    | EXCHANGE => rfl
    | EXCHANGE_BROWN => rfl
  rw [hdef]
  obtain ⟨_, _, h3, h4, _⟩ := hloop
  have hval : ∀ i, i < V → (((List.range V).foldl (fun (st : Nat × List Nat) word_i =>
        ((if st.1 = K then 0 else st.1) + 1,
          st.2.set word_i (if st.1 = K then 0 else st.1))) (0, word2class)).2).getD i 0 =
      i % K := fun i hi => h4 i hi (by omega)
  refine ⟨by rw [h3, hlen], hval, ?_, ?_, ?_⟩
  · intro i hi
    rw [hval i hi]
    exact Nat.mod_lt _ (by omega)
  · intro c hc
    exact ⟨c, by omega, by rw [hval c (by omega), Nat.mod_eq_of_lt hc]⟩
  · intro h1 i hi
    rw [hval i hi, h1, Nat.mod_one]

theorem init_clusters_spec_witness :
    (class_algo_t.EXCHANGE ≠ class_algo_t.BROWN ∧ 1 ≤ 3 ∧ 3 ≤ 8 ∧
      (List.replicate 8 0).length = 8) ∧
    (init_clusters class_algo_t.EXCHANGE 3 8 (List.replicate 8 0)).length = 8 ∧
    (∀ i, i < 8 →
      (init_clusters class_algo_t.EXCHANGE 3 8 (List.replicate 8 0)).getD i 0 = i % 3) :=
  ⟨by decide,
    (init_clusters_spec class_algo_t.EXCHANGE 3 8 (List.replicate 8 0) (by decide) (by decide)
      (by decide) (by decide)).1,
    (init_clusters_spec class_algo_t.EXCHANGE 3 8 (List.replicate 8 0) (by decide) (by decide)
      (by decide) (by decide)).2.1⟩

/-! ### Sentence conversion: claims C14, C15 -/

theorem sent_buffer2sent_store_int_loop_spec (L : Limits) (m : List struct_map_word)
    (tokens : List (List Char)) (w_i : Nat) (sent : List Nat) :
    ∃ k, k ≤ tokens.length ∧
      sent_buffer2sent_store_int_loop L m tokens w_i sent =
        (w_i + k, sent ++ (tokens.take k).map (map_find_int m)) ∧
      (L.STDIN_SENT_MAX_WORDS - 1 ≤ L.SENT_LEN_MAX → w_i ≤ L.STDIN_SENT_MAX_WORDS - 1 →
        k = min tokens.length (L.STDIN_SENT_MAX_WORDS - 1 - w_i)) := by
  induction tokens generalizing w_i sent with
  | nil => exact ⟨0, by simp, by simp [sent_buffer2sent_store_int_loop], by simp⟩
  | cons pch rest ih =>
    unfold sent_buffer2sent_store_int_loop
    by_cases h1 : w_i < L.SENT_LEN_MAX
    · by_cases h2 : w_i = L.STDIN_SENT_MAX_WORDS - 1
      · refine ⟨0, by simp, by simp [h1, h2], ?_⟩
        intro _ _
        omega
      · obtain ⟨k, hk, heq, hmin⟩ := ih (w_i + 1) (sent ++ [map_find_int m pch])
        refine ⟨k + 1, by simp [hk], ?_, ?_⟩
        · simp only [h1, h2, if_true, if_false, heq, List.take_succ_cons, List.map_cons,
            List.append_assoc, List.singleton_append]
          congr 1
          omega
        · intro ha hb
          have := hmin ha (by omega)
          simp only [List.length_cons]
          omega
    · refine ⟨0, by simp, by simp [h1], ?_⟩
      intro ha hb
      omega

theorem tokenize_sent_loop_spec (L : Limits) (tokens : List (List Char)) (w_i : Nat)
    (sent_info : struct_sent_info) :
    ∃ k, k ≤ tokens.length ∧
      (tokenize_sent_loop L tokens w_i sent_info).1 = w_i + k ∧
      (tokenize_sent_loop L tokens w_i sent_info).2.sent =
        sent_info.sent ++ (tokens.take k).map (fun pch =>
          if to_short pch.length > (L.MAX_WORD_LEN : Int) then pch.take L.MAX_WORD_LEN
          else pch) ∧
      (tokenize_sent_loop L tokens w_i sent_info).2.word_lengths.length =
        sent_info.word_lengths.length + k ∧
      (L.STDIN_SENT_MAX_WORDS - 1 ≤ L.SENT_LEN_MAX → w_i ≤ L.STDIN_SENT_MAX_WORDS - 1 →
        k = min tokens.length (L.STDIN_SENT_MAX_WORDS - 1 - w_i)) := by
  induction tokens generalizing w_i sent_info with
  | nil => exact ⟨0, by simp, by simp [tokenize_sent_loop], by simp [tokenize_sent_loop],
      by simp [tokenize_sent_loop], by simp⟩
  | cons pch rest ih =>
    unfold tokenize_sent_loop
    by_cases h1 : w_i < L.SENT_LEN_MAX
    · by_cases h2 : w_i = L.STDIN_SENT_MAX_WORDS - 1
      · refine ⟨0, by simp, by simp [h1, h2], by simp [h1, h2], by simp [h1, h2], ?_⟩
        intro _ _
        omega
      · by_cases h3 : to_short pch.length > (L.MAX_WORD_LEN : Int)
        · obtain ⟨k, hk, hw, hs, hl, hmin⟩ := ih (w_i + 1)
            { sent_info with
              sent := sent_info.sent ++ [pch.take L.MAX_WORD_LEN]
              word_lengths := sent_info.word_lengths ++ [(L.MAX_WORD_LEN : Int)] }
          refine ⟨k + 1, by simp [hk], ?_, ?_, ?_, ?_⟩
          · simp only [h1, h2, h3, if_true, if_false, hw]; omega
          · simp only [h1, h2, h3, if_true, if_false, hs, List.take_succ_cons, List.map_cons,
              List.append_assoc, List.singleton_append]
          · simp only [h1, h2, h3, if_true, if_false, hl, List.length_append,
              List.length_singleton]; omega
          · intro ha hb
            have := hmin ha (by omega)
            simp only [List.length_cons]
            omega
        · obtain ⟨k, hk, hw, hs, hl, hmin⟩ := ih (w_i + 1)
            { sent_info with
              sent := sent_info.sent ++ [pch]
              word_lengths := sent_info.word_lengths ++ [to_short pch.length] }
          refine ⟨k + 1, by simp [hk], ?_, ?_, ?_, ?_⟩
          · simp only [h1, h2, h3, if_true, if_false, hw]; omega
          · simp only [h1, h2, h3, if_true, if_false, hs, List.take_succ_cons, List.map_cons,
              List.append_assoc, List.singleton_append]
          · simp only [h1, h2, h3, if_true, if_false, hl, List.length_append,
              List.length_singleton]; omega
          · intro ha hb
            have := hmin ha (by omega)
            simp only [List.length_cons]
            omega
    · refine ⟨0, by simp, by simp [h1], by simp [h1], by simp [h1], ?_⟩
      intro ha hb
      omega

theorem sent_buffer2sent_store_int_getElem (L : Limits) (m : List struct_map_word)
    (sent_buffer : List (List Char)) (n : Nat) (hn : n < sent_buffer.length) :
    ∃ k, k ≤ (strtok_tokens L.TOK_CHARS (sent_buffer.getD n []) []).length ∧
      (sent_buffer2sent_store_int L m sent_buffer)[n]? =
        some (([map_find_int m "<s>".toList] ++
          ((strtok_tokens L.TOK_CHARS (sent_buffer.getD n []) []).take k).map
            (map_find_int m)) ++ [map_find_int m "</s>".toList]) ∧
      (L.STDIN_SENT_MAX_WORDS - 1 ≤ L.SENT_LEN_MAX → 2 ≤ L.STDIN_SENT_MAX_WORDS →
        k = min (strtok_tokens L.TOK_CHARS (sent_buffer.getD n []) []).length
          (L.STDIN_SENT_MAX_WORDS - 2)) := by
  have hget : sent_buffer.getD n [] = sent_buffer[n] := by
    rw [List.getD_eq_getElem?_getD, List.getElem?_eq_getElem hn]; rfl
  obtain ⟨k, hk, heq, hmin⟩ := sent_buffer2sent_store_int_loop_spec L m
    (strtok_tokens L.TOK_CHARS (sent_buffer.getD n []) []) 1 [map_find_int m "<s>".toList]
  refine ⟨k, hk, ?_, ?_⟩
  · unfold sent_buffer2sent_store_int
    rw [List.getElem?_map, List.getElem?_eq_getElem hn, Option.map_some']
    simp only []
    rw [← hget, heq]
  · intro ha hb
    have := hmin ha (by omega)
    omega

/-- C14: the integer sentence that `sent_buffer2sent_store_int` stores for a line of the
buffer has length `L ≥ 2`, starts with the id looked up for `<s>`, ends with the id looked
up for `</s>`, and for `1 ≤ i ≤ L - 2` its entry `i` is the id looked up for the `i`-th
token of the line, in order. -/
theorem sent_buffer2sent_store_int_spec (L : Limits) (m : List struct_map_word)
    (sent_buffer : List (List Char)) (n : Nat) (hn : n < sent_buffer.length) :
    ∃ s, (sent_buffer2sent_store_int L m sent_buffer)[n]? = some s ∧
      2 ≤ s.length ∧
      s.getD 0 0 = map_find_int m "<s>".toList ∧
      s.getD (s.length - 1) 0 = map_find_int m "</s>".toList ∧
      ∀ i, 1 ≤ i → i ≤ s.length - 2 →
        i - 1 < (strtok_tokens L.TOK_CHARS (sent_buffer.getD n []) []).length ∧
        s.getD i 0 =
          map_find_int m ((strtok_tokens L.TOK_CHARS (sent_buffer.getD n []) []).getD (i - 1) [])
      := by
  obtain ⟨k, hk, heq, _⟩ := sent_buffer2sent_store_int_getElem L m sent_buffer n hn
  generalize strtok_tokens L.TOK_CHARS (sent_buffer.getD n []) [] = tokens at hk heq ⊢
  refine ⟨_, heq, ?_, ?_, ?_, ?_⟩
  · simp
  · simp
  · have hlen : (([map_find_int m "<s>".toList] ++ (tokens.take k).map (map_find_int m)) ++
        [map_find_int m "</s>".toList]).length - 1 =
        ([map_find_int m "<s>".toList] ++ (tokens.take k).map (map_find_int m)).length := by
      simp
    rw [hlen, List.getD_eq_getElem?_getD, List.getElem?_append_right (Nat.le_refl _)]
    simp
  · intro i hi1 hi2
    have hlen : (([map_find_int m "<s>".toList] ++ (tokens.take k).map (map_find_int m)) ++
        [map_find_int m "</s>".toList]).length = min k tokens.length + 2 := by
      simp
    rw [hlen] at hi2
    have hik : i - 1 < k := by omega
    have hit : i - 1 < tokens.length := by omega
    refine ⟨hit, ?_⟩
    obtain ⟨j, rfl⟩ : ∃ j, i = j + 1 := ⟨i - 1, by omega⟩
    simp only [Nat.add_sub_cancel] at hik hit ⊢
    rw [List.getD_eq_getElem?_getD, List.getD_eq_getElem?_getD, List.append_assoc,
      List.singleton_append, List.getElem?_cons_succ,
      List.getElem?_append_left (by simp; omega), List.getElem?_map, List.getElem?_take,
      if_pos hik, List.getElem?_eq_getElem hit]
    rfl

theorem sent_buffer2sent_store_int_spec_witness :
    (0 < ["x y q\n".toList].length) ∧
    ∃ s, (sent_buffer2sent_store_int example_limits reserved_words_map
        ["x y q\n".toList])[0]? = some s ∧
      2 ≤ s.length ∧
      s.getD 0 0 = map_find_int reserved_words_map "<s>".toList ∧
      s.getD (s.length - 1) 0 = map_find_int reserved_words_map "</s>".toList ∧
      ∀ i, 1 ≤ i → i ≤ s.length - 2 →
        i - 1 < (strtok_tokens example_limits.TOK_CHARS
          (["x y q\n".toList].getD 0 []) []).length ∧
        s.getD i 0 =
          map_find_int reserved_words_map ((strtok_tokens example_limits.TOK_CHARS
            (["x y q\n".toList].getD 0 []) []).getD (i - 1) []) :=
  ⟨by decide, sent_buffer2sent_store_int_spec example_limits reserved_words_map
    ["x y q\n".toList] 0 (by decide)⟩

/-- C15: when `8 ≤ STDIN_SENT_MAX_WORDS ≤ SENT_LEN_MAX`, a sentence string with `n` tokens
gives, in `tokenize_sent` and in `sent_buffer2sent_store_int` alike, a sentence of length
`min(n, STDIN_SENT_MAX_WORDS - 2) + 2`, made of the boundary symbols around the first
`min(n, STDIN_SENT_MAX_WORDS - 2)` tokens; the length is at most `STDIN_SENT_MAX_WORDS`, so
every index written is below `STDIN_SENT_MAX_WORDS`, the size of `sent_info.sent`, and
below `SENT_LEN_MAX`, the size of `sent_int_temp`. The two bounds on the macros are those
under which the C code stays inside its arrays: the write of `</s>` at clustercat.c:404 is
at an index up to `STDIN_SENT_MAX_WORDS - 1`, which has to be below `SENT_LEN_MAX`, and the
notice of a truncation at clustercat.c:630 reads `sent[1]` to `sent[6]`, which are written
by then when `STDIN_SENT_MAX_WORDS - 1 > 6`. -/
theorem sentence_length_spec (L : Limits) (m : List struct_map_word) (sent_str : List Char)
    (h8 : 8 ≤ L.STDIN_SENT_MAX_WORDS) (hlen : L.STDIN_SENT_MAX_WORDS ≤ L.SENT_LEN_MAX) :
    (tokenize_sent L sent_str).length =
      min (strtok_tokens L.TOK_CHARS sent_str []).length (L.STDIN_SENT_MAX_WORDS - 2) + 2 ∧
    (tokenize_sent L sent_str).sent =
      ("<s>".toList :: ((strtok_tokens L.TOK_CHARS sent_str []).take
        (min (strtok_tokens L.TOK_CHARS sent_str []).length
          (L.STDIN_SENT_MAX_WORDS - 2))).map (fun pch =>
          if to_short pch.length > (L.MAX_WORD_LEN : Int) then pch.take L.MAX_WORD_LEN
          else pch)) ++ ["</s>".toList] ∧
    (tokenize_sent L sent_str).sent.length = (tokenize_sent L sent_str).length ∧
    (tokenize_sent L sent_str).word_lengths.length = (tokenize_sent L sent_str).length ∧
    sent_buffer2sent_store_int L m [sent_str] =
      [(map_find_int m "<s>".toList :: ((strtok_tokens L.TOK_CHARS sent_str []).take
        (min (strtok_tokens L.TOK_CHARS sent_str []).length
          (L.STDIN_SENT_MAX_WORDS - 2))).map (map_find_int m)) ++
        [map_find_int m "</s>".toList]] ∧
    (∀ s ∈ sent_buffer2sent_store_int L m [sent_str],
      s.length =
        min (strtok_tokens L.TOK_CHARS sent_str []).length (L.STDIN_SENT_MAX_WORDS - 2) + 2) ∧
    min (strtok_tokens L.TOK_CHARS sent_str []).length (L.STDIN_SENT_MAX_WORDS - 2) + 2 ≤
      L.STDIN_SENT_MAX_WORDS ∧
    min (strtok_tokens L.TOK_CHARS sent_str []).length (L.STDIN_SENT_MAX_WORDS - 2) + 2 ≤
      L.SENT_LEN_MAX := by
  have h2 : 2 ≤ L.STDIN_SENT_MAX_WORDS := by omega
  have hmax : L.STDIN_SENT_MAX_WORDS - 1 ≤ L.SENT_LEN_MAX := by omega
  obtain ⟨k, hk, hw, hs, hl, hmin⟩ := tokenize_sent_loop_spec L
    (strtok_tokens L.TOK_CHARS sent_str []) 1
    { sent := ["<s>".toList], word_lengths := [3], length := 0 }
  have hk' := hmin hmax (by omega)
  have e : L.STDIN_SENT_MAX_WORDS - 1 - 1 = L.STDIN_SENT_MAX_WORDS - 2 := by omega
  rw [e] at hk'
  obtain ⟨k2, hk2, heq2, hmin2⟩ := sent_buffer2sent_store_int_getElem L m [sent_str] 0
    (by simp)
  have hk2' := hmin2 hmax h2
  simp only [List.getD_cons_zero] at hk2 heq2 hk2'
  have hstore : sent_buffer2sent_store_int L m [sent_str] =
      [(map_find_int m "<s>".toList :: ((strtok_tokens L.TOK_CHARS sent_str []).take
        (min (strtok_tokens L.TOK_CHARS sent_str []).length
          (L.STDIN_SENT_MAX_WORDS - 2))).map (map_find_int m)) ++
        [map_find_int m "</s>".toList]] := by
    have hlen : (sent_buffer2sent_store_int L m [sent_str]).length = 1 := by
      simp [sent_buffer2sent_store_int]
    match hr : sent_buffer2sent_store_int L m [sent_str], hlen with
    | [x], _ =>
      rw [hr] at heq2
      simp only [List.getElem?_cons_zero, Option.some.injEq] at heq2
      rw [heq2, hk2']
      rfl
  refine ⟨?_, ?_, ?_, ?_, hstore, ?_, by omega, by omega⟩
  · unfold tokenize_sent
    simp only [hw]
    omega
  · unfold tokenize_sent
    simp only [hs, ← hk']
    rfl
  · unfold tokenize_sent
    simp only [hw, hs, List.length_append, List.length_map, List.length_take,
      List.length_singleton]
    omega
  · unfold tokenize_sent
    simp only [hw, hl, List.length_append, List.length_singleton]
  · intro s hs'
    rw [hstore, List.mem_singleton] at hs'
    rw [hs']
    simp

theorem sentence_length_spec_witness :
    (8 ≤ (⟨[' ', '\n'], 128, 8, 1024, 8192⟩ : Limits).STDIN_SENT_MAX_WORDS ∧
      (⟨[' ', '\n'], 128, 8, 1024, 8192⟩ : Limits).STDIN_SENT_MAX_WORDS ≤
        (⟨[' ', '\n'], 128, 8, 1024, 8192⟩ : Limits).SENT_LEN_MAX) ∧
    (strtok_tokens [' ', '\n'] "a b c d e f g h\n".toList []).length = 8 ∧
    (tokenize_sent ⟨[' ', '\n'], 128, 8, 1024, 8192⟩ "a b c d e f g h\n".toList).length =
      min (strtok_tokens [' ', '\n'] "a b c d e f g h\n".toList []).length (8 - 2) + 2 ∧
    (tokenize_sent ⟨[' ', '\n'], 128, 8, 1024, 8192⟩ "a b c d e f g h\n".toList).sent =
      ["<s>".toList, ['a'], ['b'], ['c'], ['d'], ['e'], ['f'], "</s>".toList] :=
  ⟨by decide, by decide,
    (sentence_length_spec ⟨[' ', '\n'], 128, 8, 1024, 8192⟩ reserved_words_map
      "a b c d e f g h\n".toList (by decide) (by decide)).1, by decide⟩

/-! ### Word ids: claims C12, C13 -/

theorem find?_of_mem_nodup (l : List struct_map_word) (hnd : (get_keys l).Nodup)
    (e : struct_map_word) (he : e ∈ l) :
    l.find? (fun x => decide (x.key = e.key)) = some e := by
  induction l with
  | nil => simp at he
  | cons a as ih =>
    have hnd' : (get_keys as).Nodup := (List.nodup_cons.mp hnd).2
    have hnot : a.key ∉ get_keys as := (List.nodup_cons.mp hnd).1
    rw [List.find?_cons]
    rcases List.mem_cons.mp he with h | h
    · subst h; simp
    · have hne : ¬ a.key = e.key := by
        intro hk
        apply hnot
        rw [hk]
        exact List.mem_map.mpr ⟨e, h, rfl⟩
      simp only [hne, decide_False]
      exact ih hnd' h

theorem map_find_count_of_mem (l : List struct_map_word) (hnd : (get_keys l).Nodup)
    (e : struct_map_word) (he : e ∈ l) : map_find_count l e.key = e.count := by
  unfold map_find_count
  rw [find?_of_mem_nodup l hnd e he]

theorem map_find_int_of_mem (l : List struct_map_word) (hnd : (get_keys l).Nodup)
    (e : struct_map_word) (he : e ∈ l) : map_find_int l e.key = e.word_id := by
  unfold map_find_int
  rw [find?_of_mem_nodup l hnd e he]

theorem getD_get_keys (s : List struct_map_word) (n : Nat) (hn : n < s.length) :
    (get_keys s).getD n [] = s[n].key := by
  unfold get_keys
  rw [List.getD_eq_getElem?_getD, List.getElem?_map, List.getElem?_eq_getElem hn]
  rfl

theorem key_eq_iff_of_nodup (s : List struct_map_word) (hnd : (get_keys s).Nodup)
    (i j : Nat) (hi : i < s.length) (hj : j < s.length) :
    s[i].key = s[j].key ↔ i = j := by
  constructor
  · intro h
    have hi' : i < (get_keys s).length := by rw [length_get_keys]; exact hi
    have hj' : j < (get_keys s).length := by rw [length_get_keys]; exact hj
    have e1 : (get_keys s)[i] = s[i].key := by simp [get_keys]
    have e2 : (get_keys s)[j] = s[j].key := by simp [get_keys]
    exact (List.Nodup.getElem_inj_iff hnd).mp (by rw [e1, e2, h])
  · intro h; subst h; rfl

theorem getElem?_map_set_word_id (m : List struct_map_word) (k : List Char) (id j : Nat) :
    (map_set_word_id m k id)[j]? =
      m[j]?.map (fun e => if e.key = k then { e with word_id := id } else e) := by
  unfold map_set_word_id
  rw [List.getElem?_map]

theorem getElem?_get_keys (m : List struct_map_word) (j : Nat) :
    (get_keys m)[j]? = m[j]?.map (·.key) := by
  unfold get_keys
  rw [List.getElem?_map]

theorem populate_word_ids_getElem? (s : List struct_map_word) (hnd : (get_keys s).Nodup)
    (n : Nat) (hn : n ≤ s.length) (j : Nat) :
    (populate_word_ids s (get_keys s) n)[j]? =
      s[j]?.map (fun e => if j < n then { e with word_id := j } else e) := by
  unfold populate_word_ids
  induction n with
  | zero => simp
  | succ k ih =>
    rw [List.range_succ, List.foldl_append, List.foldl_cons, List.foldl_nil]
    rw [getElem?_map_set_word_id, ih (by omega), getD_get_keys s k (by omega)]
    by_cases hj : j < s.length
    · rw [List.getElem?_eq_getElem hj]
      simp only [Option.map_some', Option.some.injEq]
      by_cases hjk : j = k
      · subst hjk
        simp
      · have hne : ¬ s[j].key = s[k].key := fun h =>
          hjk ((key_eq_iff_of_nodup s hnd j k hj (by omega)).mp h)
        by_cases hlt : j < k
        · have hlt' : j < k + 1 := by omega
          simp [hlt, hlt', hne]
        · have hlt' : ¬ j < k + 1 := by omega
          simp [hlt, hlt', hne]
    · rw [List.getElem?_eq_none (by omega)]
      rfl

theorem get_keys_populate_word_ids (s : List struct_map_word) (hnd : (get_keys s).Nodup)
    (n : Nat) (hn : n ≤ s.length) :
    get_keys (populate_word_ids s (get_keys s) n) = get_keys s := by
  apply List.ext_getElem?
  intro j
  rw [getElem?_get_keys, populate_word_ids_getElem? s hnd n hn j, getElem?_get_keys]
  cases s[j]? with
  | none => rfl
  | some e =>
    simp only [Option.map_some', Option.some.injEq]
    split <;> rfl

theorem map_find_int_populate_word_ids (s : List struct_map_word) (hnd : (get_keys s).Nodup)
    (j : Nat) (hj : j < s.length) :
    map_find_int (populate_word_ids s (get_keys s) s.length) s[j].key = j := by
  have hget := populate_word_ids_getElem? s hnd s.length (Nat.le_refl _) j
  rw [List.getElem?_eq_getElem hj] at hget
  simp only [Option.map_some', hj, if_true] at hget
  have hmem : ({ s[j] with word_id := j } : struct_map_word) ∈
      populate_word_ids s (get_keys s) s.length := List.getElem?_mem hget
  have hnd' : (get_keys (populate_word_ids s (get_keys s) s.length)).Nodup := by
    rw [get_keys_populate_word_ids s hnd s.length (Nat.le_refl _)]; exact hnd
  exact map_find_int_of_mem _ hnd' _ hmem
theorem build_word_count_array_getD (s : List struct_map_word) (hnd : (get_keys s).Nodup)
    (i : Nat) (hi : i < s.length) :
    (build_word_count_array s (get_keys s) s.length).getD i 0 = s[i].count := by
  unfold build_word_count_array
  rw [List.getD_eq_getElem?_getD, List.getElem?_map, List.getElem?_range hi, Option.map_some',
    Option.getD_some, getD_get_keys s i hi]
  exact map_find_count_of_mem s hnd s[i] (List.getElem_mem hi)

theorem sort_by_count_perm (m : List struct_map_word) : (sort_by_count m).Perm m :=
  List.perm_insertionSort _ m

theorem nodup_get_keys_sort_by_count (m : List struct_map_word) (hnd : (get_keys m).Nodup) :
    (get_keys (sort_by_count m)).Nodup :=
  ((sort_by_count_perm m).map (fun e : struct_map_word => e.key)).nodup_iff.mpr hnd

theorem length_sort_by_count (m : List struct_map_word) :
    (sort_by_count m).length = m.length :=
  (sort_by_count_perm m).length_eq

theorem sort_by_count_sorted (m : List struct_map_word) (i j : Nat) (hij : i < j)
    (hi : i < (sort_by_count m).length) (hj : j < (sort_by_count m).length) :
    ((sort_by_count m)[j]).count ≤ ((sort_by_count m)[i]).count := by
  have hs : List.Sorted (fun a b : struct_map_word => b.count ≤ a.count) (sort_by_count m) :=
    @List.sorted_insertionSort _ (fun a b : struct_map_word => b.count ≤ a.count) _
      ⟨fun a b => Nat.le_total b.count a.count⟩
      ⟨fun _ _ _ hab hbc => Nat.le_trans hbc hab⟩ m
  exact List.pairwise_iff_getElem.mp hs i j (by omega) hj hij

theorem mem_get_keys_iff (m : List struct_map_word) (w : List Char) :
    w ∈ get_keys m ↔ ∃ (j : Nat) (h : j < m.length), m[j].key = w := by
  unfold get_keys
  rw [List.mem_map]
  constructor
  · rintro ⟨e, he, hk⟩
    obtain ⟨j, hj, hje⟩ := List.getElem_of_mem he
    exact ⟨j, hj, by rw [hje, hk]⟩
  · rintro ⟨j, hj, hk⟩
    exact ⟨m[j], List.getElem_mem hj, hk⟩

/-- C13: for a map with distinct keys, after `sort_by_count`, `get_keys`,
`build_word_count_array` and `populate_word_ids` the word list is the vocabulary of the map,
the ids are a bijection between the vocabulary and `[0, V)` (the id of `w` is the position
of `w` in the word list), `word_counts[id(w)]` is the count of `w`, and the counts are in
descending order of id. -/
theorem word_ids_spec (m : List struct_map_word) (hnd : (get_keys m).Nodup) :
    (get_keys (sort_by_count m)).length = map_count m ∧
    (build_word_count_array (sort_by_count m) (get_keys (sort_by_count m))
      (map_count m)).length = map_count m ∧
    (∀ w, w ∈ get_keys (sort_by_count m) ↔ w ∈ get_keys m) ∧
    (∀ w, w ∈ get_keys m →
      map_find_int (populate_word_ids (sort_by_count m) (get_keys (sort_by_count m))
        (map_count m)) w < map_count m ∧
      (get_keys (sort_by_count m)).getD
        (map_find_int (populate_word_ids (sort_by_count m) (get_keys (sort_by_count m))
          (map_count m)) w) [] = w ∧
      (build_word_count_array (sort_by_count m) (get_keys (sort_by_count m))
        (map_count m)).getD
        (map_find_int (populate_word_ids (sort_by_count m) (get_keys (sort_by_count m))
          (map_count m)) w) 0 = map_find_count m w) ∧
    (∀ w w', w ∈ get_keys m → w' ∈ get_keys m →
      map_find_int (populate_word_ids (sort_by_count m) (get_keys (sort_by_count m))
        (map_count m)) w =
      map_find_int (populate_word_ids (sort_by_count m) (get_keys (sort_by_count m))
        (map_count m)) w' → w = w') ∧
    (∀ i, i < map_count m → ∃ w, w ∈ get_keys m ∧
      map_find_int (populate_word_ids (sort_by_count m) (get_keys (sort_by_count m))
        (map_count m)) w = i) ∧
    (∀ i j, i < j → j < map_count m →
      (build_word_count_array (sort_by_count m) (get_keys (sort_by_count m))
        (map_count m)).getD j 0 ≤
      (build_word_count_array (sort_by_count m) (get_keys (sort_by_count m))
        (map_count m)).getD i 0) := by
  have hV : map_count m = (sort_by_count m).length := by
    rw [length_sort_by_count]; rfl
  have hmem : ∀ w, w ∈ get_keys (sort_by_count m) ↔ w ∈ get_keys m :=
    fun w => ((sort_by_count_perm m).map (fun e : struct_map_word => e.key)).mem_iff
  rw [hV]
  generalize hs : sort_by_count m = s at hV hmem ⊢
  have hnds : (get_keys s).Nodup := by
    rw [← hs]; exact nodup_get_keys_sort_by_count m hnd
  have hperm : s.Perm m := by rw [← hs]; exact sort_by_count_perm m
  have hkey : ∀ w, w ∈ get_keys m →
      map_find_int (populate_word_ids s (get_keys s) s.length) w < s.length ∧
      (get_keys s).getD (map_find_int (populate_word_ids s (get_keys s) s.length) w) [] = w ∧
      (build_word_count_array s (get_keys s) s.length).getD
        (map_find_int (populate_word_ids s (get_keys s) s.length) w) 0 =
          map_find_count m w := by
    intro w hw
    obtain ⟨j, hj, hjw⟩ := (mem_get_keys_iff s w).mp ((hmem w).mpr hw)
    have hid := map_find_int_populate_word_ids s hnds j hj
    rw [hjw] at hid
    rw [hid]
    refine ⟨hj, ?_, ?_⟩
    · rw [getD_get_keys s j hj, hjw]
    · rw [build_word_count_array_getD s hnds j hj, ← hjw]
      exact (map_find_count_of_mem m hnd s[j] (hperm.mem_iff.mp (List.getElem_mem hj))).symm
  refine ⟨length_get_keys s, by simp [build_word_count_array], hmem, hkey, ?_, ?_, ?_⟩
  · intro w w' hw hw' heq
    rw [← (hkey w hw).2.1, ← (hkey w' hw').2.1, heq]
  · intro i hi
    refine ⟨s[i].key, (hmem _).mp ((mem_get_keys_iff s _).mpr ⟨i, hi, rfl⟩), ?_⟩
    exact map_find_int_populate_word_ids s hnds i hi
  · intro i j hij hj
    rw [build_word_count_array_getD s hnds j hj, build_word_count_array_getD s hnds i (by omega)]
    have := sort_by_count_sorted m i j hij (by rw [hs]; omega) (by rw [hs]; exact hj)
    simp only [hs] at this
    exact this

theorem word_ids_spec_witness :
    (get_keys (process_str_sents_in_buffer example_limits reserved_words_map
        example_buffer).2).Nodup ∧
    ∀ i j, i < j →
      j < map_count (process_str_sents_in_buffer example_limits reserved_words_map
        example_buffer).2 →
      (build_word_count_array
        (sort_by_count (process_str_sents_in_buffer example_limits reserved_words_map
          example_buffer).2)
        (get_keys (sort_by_count (process_str_sents_in_buffer example_limits
          reserved_words_map example_buffer).2))
        (map_count (process_str_sents_in_buffer example_limits reserved_words_map
          example_buffer).2)).getD j 0 ≤
      (build_word_count_array
        (sort_by_count (process_str_sents_in_buffer example_limits reserved_words_map
          example_buffer).2)
        (get_keys (sort_by_count (process_str_sents_in_buffer example_limits
          reserved_words_map example_buffer).2))
        (map_count (process_str_sents_in_buffer example_limits reserved_words_map
          example_buffer).2)).getD i 0 :=
  ⟨by decide, (word_ids_spec (process_str_sents_in_buffer example_limits reserved_words_map
    example_buffer).2 (by decide)).2.2.2.2.2.2⟩

theorem reserved_first_map_update_count (m : List struct_map_word) (k : List Char) (n : Nat)
    (h : reserved_first m) : reserved_first (map_update_count m k n) := by
  obtain ⟨a, b, c, rest, rfl, ha, hb, hc⟩ := h
  unfold map_update_count
  split
  · refine ⟨_, _, _, _, by simp only [List.map_cons]; rfl, ?_, ?_, ?_⟩
    · split <;> exact ha
    · split <;> exact hb
    · split <;> exact hc
  · exact ⟨a, b, c, rest ++ [⟨k, n, 0⟩], by simp, ha, hb, hc⟩

theorem process_str_sent_invariant (P : List struct_map_word → Prop)
    (hP : ∀ m k n, P m → P (map_update_count m k n)) (L : Limits)
    (m : List struct_map_word) (sent_str : List Char) (hm : P m) :
    P (process_str_sent L m sent_str).2 := by
  unfold process_str_sent
  split
  · exact hm
  · simp only []
    generalize (List.range (tokenize_sent L sent_str).length) = is
    induction is generalizing m with
    | nil => exact hm
    | cons i is ih =>
      rw [List.foldl_cons]
      apply ih
      unfold increment_ngram_variable_width
      split
      · exact hP _ _ _ hm
      · exact hm

theorem process_str_sents_in_buffer_invariant (P : List struct_map_word → Prop)
    (hP : ∀ m k n, P m → P (map_update_count m k n)) (L : Limits)
    (m : List struct_map_word) (sent_buffer : List (List Char)) (hm : P m) :
    P (process_str_sents_in_buffer L m sent_buffer).2 := by
  unfold process_str_sents_in_buffer
  suffices h : ∀ (acc : Nat × List struct_map_word), P acc.2 →
      P (sent_buffer.foldl (fun acc line =>
        ((acc.1 + (process_str_sent L acc.2 (line.take (L.STDIN_SENT_MAX_CHARS - 2))).1,
          (process_str_sent L acc.2 (line.take (L.STDIN_SENT_MAX_CHARS - 2))).2) :
            Nat × List struct_map_word)) acc).2 from h (0, m) hm
  induction sent_buffer with
  | nil => intro acc h; exact h
  | cons line lines ih =>
    intro acc h
    rw [List.foldl_cons]
    exact ih _ (process_str_sent_invariant P hP L acc.2 _ h)

theorem reserved_words_map_nodup : (get_keys reserved_words_map).Nodup := by decide

theorem reserved_words_map_first : reserved_first reserved_words_map :=
  ⟨⟨UNKNOWN_WORD, 0, 0⟩, ⟨"<s>".toList, 0, 0⟩, ⟨"</s>".toList, 0, 0⟩, [], rfl, rfl, rfl, rfl⟩

theorem process_nodup (L : Limits) (sent_buffer : List (List Char)) :
    (get_keys (process_str_sents_in_buffer L reserved_words_map sent_buffer).2).Nodup :=
  process_str_sents_in_buffer_invariant (fun m => (get_keys m).Nodup)
    (fun m k n h => nodup_get_keys_map_update_count m k n h) L _ _ reserved_words_map_nodup

theorem process_reserved_first (L : Limits) (sent_buffer : List (List Char)) :
    reserved_first (process_str_sents_in_buffer L reserved_words_map sent_buffer).2 :=
  process_str_sents_in_buffer_invariant reserved_first
    reserved_first_map_update_count L _ _ reserved_words_map_first

theorem reserved_first_unknown_mem (m : List struct_map_word) (h : reserved_first m) :
    UNKNOWN_WORD ∈ get_keys m := by
  obtain ⟨a, b, c, rest, rfl, ha, _, _⟩ := h
  simp [get_keys, ha]
theorem reserved_first_delete_entry (m : List struct_map_word) (w : List Char)
    (h : reserved_first m) (h1 : w ≠ UNKNOWN_WORD) (h2 : w ≠ "<s>".toList)
    (h3 : w ≠ "</s>".toList) : reserved_first (delete_entry m w) := by
  obtain ⟨a, b, c, rest, rfl, ha, hb, hc⟩ := h
  have ea : ¬ a.key = w := by rw [ha]; exact fun x => h1 x.symm
  have eb : ¬ b.key = w := by rw [hb]; exact fun x => h2 x.symm
  have ec : ¬ c.key = w := by rw [hc]; exact fun x => h3 x.symm
  refine ⟨a, b, c, rest.eraseP (fun e => decide (e.key = w)), ?_, ha, hb, hc⟩
  unfold delete_entry
  simp [List.eraseP_cons, ea, eb, ec]

theorem fold_reserved_first (L : Limits) (min_count : Nat) (hM : 5 < L.MAX_WORD_LEN)
    (ws : List (List Char)) (st : filter_state) (hnd : (get_keys st.ngram_map).Nodup)
    (hrf : reserved_first st.ngram_map)
    (hs : ¬ doomed min_count st.ngram_map "<s>".toList)
    (he : ¬ doomed min_count st.ngram_map "</s>".toList) :
    reserved_first (ws.foldl (filter_infrequent_words_step L min_count) st).ngram_map := by
  induction ws generalizing st with
  | nil => exact hrf
  | cons w ws ih =>
    rw [List.foldl_cons, filter_infrequent_words_step_eq L min_count hM]
    by_cases hd : doomed min_count st.ngram_map w
    · rw [if_pos hd]
      have hws : w ≠ "<s>".toList := fun h => hs (h ▸ hd)
      have hwe : w ≠ "</s>".toList := fun h => he (h ▸ hd)
      apply ih
      · exact step_nodup min_count st.ngram_map w hnd
      · exact reserved_first_delete_entry _ w
          (reserved_first_map_update_count _ _ _ hrf) hd.2 hws hwe
      · exact fun h => hs ((step_doomed_iff min_count st.ngram_map w _ hnd
          (fun x => hws x.symm)).mp h)
      · exact fun h => he ((step_doomed_iff min_count st.ngram_map w _ hnd
          (fun x => hwe x.symm)).mp h)
    · rw [if_neg hd]
      exact ih st hnd hrf hs he

theorem sort_by_count_reserved_first (a b c : struct_map_word) (rest : List struct_map_word)
    (hab : b.count ≤ a.count) (hbc : c.count ≤ b.count)
    (hrest : ∀ e ∈ rest, e.count ≤ c.count) :
    sort_by_count (a :: b :: c :: rest) = a :: b :: c :: sort_by_count rest := by
  unfold sort_by_count
  rw [List.insertionSort_cons, List.insertionSort_cons, List.insertionSort_cons]
  · intro e he; exact hrest e he
  · intro e he
    rcases List.mem_cons.mp he with h | h
    · rw [h]; exact hbc
    · exact Nat.le_trans (hrest e h) hbc
  · intro e he
    rcases List.mem_cons.mp he with h | h
    · rw [h]; exact hab
    · rcases List.mem_cons.mp h with h | h
      · rw [h]; exact Nat.le_trans hbc hab
      · exact Nat.le_trans (Nat.le_trans (hrest e h) hbc) hab

theorem reserved_ids_of_first (m : List struct_map_word) (hnd : (get_keys m).Nodup)
    (hrf : reserved_first m)
    (h1 : map_find_count m "<s>".toList ≤ map_find_count m UNKNOWN_WORD)
    (h2 : map_find_count m "</s>".toList ≤ map_find_count m "<s>".toList)
    (h3 : ∀ w ∈ get_keys m, w ≠ UNKNOWN_WORD → w ≠ "<s>".toList → w ≠ "</s>".toList →
      map_find_count m w ≤ map_find_count m "</s>".toList) :
    map_find_int (populate_word_ids (sort_by_count m) (get_keys (sort_by_count m))
      m.length) UNKNOWN_WORD = 0 ∧
    map_find_int (populate_word_ids (sort_by_count m) (get_keys (sort_by_count m))
      m.length) "<s>".toList = 1 ∧
    map_find_int (populate_word_ids (sort_by_count m) (get_keys (sort_by_count m))
      m.length) "</s>".toList = 2 := by
  obtain ⟨a, b, c, rest, rfl, ha, hb, hc⟩ := hrf
  have hca : map_find_count (a :: b :: c :: rest) a.key = a.count :=
    map_find_count_of_mem _ hnd a (by simp)
  have hcb : map_find_count (a :: b :: c :: rest) b.key = b.count :=
    map_find_count_of_mem _ hnd b (by simp)
  have hcc : map_find_count (a :: b :: c :: rest) c.key = c.count :=
    map_find_count_of_mem _ hnd c (by simp)
  rw [ha] at hca; rw [hb] at hcb; rw [hc] at hcc
  rw [hca, hcb] at h1
  rw [hcb, hcc] at h2
  have hnd' := hnd
  simp only [get_keys, List.map_cons, List.nodup_cons, List.mem_cons, not_or] at hnd'
  have hrest : ∀ e ∈ rest, e.count ≤ c.count := by
    intro e he
    have hmem : e.key ∈ List.map (fun x => x.key) rest := List.mem_map.mpr ⟨e, he, rfl⟩
    have hk : e.key ∈ get_keys (a :: b :: c :: rest) :=
      List.mem_map.mpr ⟨e, by simp [he], rfl⟩
    have hne1 : e.key ≠ UNKNOWN_WORD := by
      intro h; rw [← ha] at h; exact hnd'.1.2.2 (h ▸ hmem)
    have hne2 : e.key ≠ "<s>".toList := by
      intro h; rw [← hb] at h; exact hnd'.2.1.2 (h ▸ hmem)
    have hne3 : e.key ≠ "</s>".toList := by
      intro h; rw [← hc] at h; exact hnd'.2.2.1 (h ▸ hmem)
    have := h3 e.key hk hne1 hne2 hne3
    rw [hcc, map_find_count_of_mem _ hnd e (by simp [he])] at this
    exact this
  have hsort := sort_by_count_reserved_first a b c rest h1 h2 hrest
  have hnds := nodup_get_keys_sort_by_count _ hnd
  have hlen : (a :: b :: c :: rest).length = (sort_by_count (a :: b :: c :: rest)).length :=
    (length_sort_by_count _).symm
  rw [hlen]
  generalize sort_by_count (a :: b :: c :: rest) = s at hsort hnds ⊢
  subst hsort
  have h0 := map_find_int_populate_word_ids _ hnds 0 (by simp)
  have h1' := map_find_int_populate_word_ids _ hnds 1 (by simp)
  have h2' := map_find_int_populate_word_ids _ hnds 2 (by simp)
  simp only [List.getElem_cons_zero, List.getElem_cons_succ] at h0 h1' h2'
  rw [ha] at h0; rw [hb] at h1'; rw [hc] at h2'
  exact ⟨h0, h1', h2'⟩
theorem filter_type_count_eq_length (L : Limits) (min_count : Nat) (hM : 5 < L.MAX_WORD_LEN)
    (m : List struct_map_word) (hnd : (get_keys m).Nodup) (hunk : UNKNOWN_WORD ∈ get_keys m) :
    ((get_keys m).foldl (filter_infrequent_words_step L min_count)
      { number_of_deleted_words := 0, type_count := map_count m, ngram_map := m }).type_count =
    ((get_keys m).foldl (filter_infrequent_words_step L min_count)
      { number_of_deleted_words := 0, type_count := map_count m, ngram_map := m }
        ).ngram_map.length := by
  have hcnt := fold_counters L min_count hM (get_keys m)
    { number_of_deleted_words := 0, type_count := map_count m, ngram_map := m } hnd hnd
  have hlen := fold_length L min_count hM (get_keys m)
    { number_of_deleted_words := 0, type_count := map_count m, ngram_map := m } hnd hnd hunk
    (fun w hw => hw)
  simp only [map_count] at hcnt hlen ⊢
  omega

/-- When `<s>` and `</s>` survive the filter and, after the filter, the count of `<unk>` is
at least the count of `<s>`, which is at least the count of `</s>`, which is at least the
count of every other word, `sort_by_count` leaves the three words where they were inserted
and `main` gives them the ids `id(<unk>) = 0`, `id(<s>) = 1`, `id(</s>) = 2`. -/
theorem reserved_ids_in_place (L : Limits) (min_count : Nat) (sent_buffer : List (List Char))
    (f : filter_state) (hM : 5 < L.MAX_WORD_LEN)
    (hf : filter_infrequent_words L min_count
      (map_count (process_str_sents_in_buffer L reserved_words_map sent_buffer).2)
      (process_str_sents_in_buffer L reserved_words_map sent_buffer).2 = Except.ok f)
    (hs : "<s>".toList ∈ get_keys f.ngram_map) (he : "</s>".toList ∈ get_keys f.ngram_map)
    (h1 : map_find_count f.ngram_map "<s>".toList ≤ map_find_count f.ngram_map UNKNOWN_WORD)
    (h2 : map_find_count f.ngram_map "</s>".toList ≤ map_find_count f.ngram_map "<s>".toList)
    (h3 : ∀ w ∈ get_keys f.ngram_map, w ≠ UNKNOWN_WORD → w ≠ "<s>".toList →
      w ≠ "</s>".toList →
      map_find_count f.ngram_map w ≤ map_find_count f.ngram_map "</s>".toList) :
    ∃ st, main_build L min_count sent_buffer = Except.ok st ∧
      map_find_int st.ngram_map UNKNOWN_WORD = 0 ∧
      map_find_int st.ngram_map "<s>".toList = 1 ∧
      map_find_int st.ngram_map "</s>".toList = 2 := by
  have hnd := process_nodup L sent_buffer
  have hrf := process_reserved_first L sent_buffer
  have hmain : main_build L min_count sent_buffer =
      match filter_infrequent_words L min_count
        (map_count (process_str_sents_in_buffer L reserved_words_map sent_buffer).2)
        (process_str_sents_in_buffer L reserved_words_map sent_buffer).2 with
      | Except.error e => Except.error e
      | Except.ok f =>
        Except.ok
          { token_count := (process_str_sents_in_buffer L reserved_words_map sent_buffer).1
            type_count := f.type_count
            word_list := get_keys (sort_by_count f.ngram_map)
            word_counts := build_word_count_array (sort_by_count f.ngram_map)
              (get_keys (sort_by_count f.ngram_map)) f.type_count
            ngram_map := populate_word_ids (sort_by_count f.ngram_map)
              (get_keys (sort_by_count f.ngram_map)) f.type_count
            sent_store_int := sent_buffer2sent_store_int L
              (populate_word_ids (sort_by_count f.ngram_map)
                (get_keys (sort_by_count f.ngram_map)) f.type_count) sent_buffer } := rfl
  rw [hmain, hf]
  refine ⟨_, rfl, ?_⟩
  simp only []
  generalize hpm : (process_str_sents_in_buffer L reserved_words_map sent_buffer).2 = pm
    at hf hnd hrf
  have hok := filter_infrequent_words_ok L min_count (map_count pm) pm rfl
  rw [hok] at hf
  have hfe := Except.ok.inj hf
  have hsm : "<s>".toList ∈ get_keys pm := by
    obtain ⟨a, b, c, rest, rfl, _, hb, _⟩ := hrf
    simp [get_keys, hb]
  have hem : "</s>".toList ∈ get_keys pm := by
    obtain ⟨a, b, c, rest, rfl, _, _, hc⟩ := hrf
    simp [get_keys, hc]
  have hs' : ¬ doomed min_count pm "<s>".toList :=
    (kept_iff_not_doomed L min_count (map_count pm) pm hM hnd _ hsm).mp (by rw [hfe]; exact hs)
  have he' : ¬ doomed min_count pm "</s>".toList :=
    (kept_iff_not_doomed L min_count (map_count pm) pm hM hnd _ hem).mp (by rw [hfe]; exact he)
  have hrf' : reserved_first f.ngram_map := by
    rw [← hfe]
    exact fold_reserved_first L min_count hM (get_keys pm) _ hnd hrf hs' he'
  have hnd' : (get_keys f.ngram_map).Nodup := by
    rw [← hfe]
    exact fold_nodup L min_count hM (get_keys pm) _ hnd
  have htc : f.type_count = f.ngram_map.length := by
    rw [← hfe]
    exact filter_type_count_eq_length L min_count hM pm hnd (reserved_first_unknown_mem pm hrf)
  rw [htc]
  exact reserved_ids_of_first f.ngram_map hnd' hrf' h1 h2 h3

theorem reserved_ids_in_place_witness :
    (5 < example_limits.MAX_WORD_LEN ∧
      filter_infrequent_words example_limits 2
        (map_count (process_str_sents_in_buffer example_limits reserved_words_map
          ["a\n".toList, "b\n".toList]).2)
        (process_str_sents_in_buffer example_limits reserved_words_map
          ["a\n".toList, "b\n".toList]).2 =
        Except.ok ⟨2, 3, [⟨UNKNOWN_WORD, 2, 0⟩, ⟨"<s>".toList, 2, 0⟩, ⟨"</s>".toList, 2, 0⟩]⟩) ∧
    ∃ st, main_build example_limits 2 ["a\n".toList, "b\n".toList] = Except.ok st ∧
      map_find_int st.ngram_map UNKNOWN_WORD = 0 ∧
      map_find_int st.ngram_map "<s>".toList = 1 ∧
      map_find_int st.ngram_map "</s>".toList = 2 :=
  ⟨⟨by decide, rfl⟩,
    reserved_ids_in_place example_limits 2 ["a\n".toList, "b\n".toList]
      ⟨2, 3, [⟨UNKNOWN_WORD, 2, 0⟩, ⟨"<s>".toList, 2, 0⟩, ⟨"</s>".toList, 2, 0⟩]⟩
      (by decide) rfl (by decide) (by decide) (by decide) (by decide) (by decide)⟩

/-- C12, evaluated on the corpus `x y z / x y z / x y q` with `min_count = 2`. `<unk>` is
inserted first (clustercat.c:80, "Should always be first") and after the filter it has the
count 1 of the deleted `q`; `sort_by_count` puts it behind the five words of count 3 and 2,
and `populate_word_ids` numbers the sorted list, so that `id(<s>) = 0`, `id(</s>) = 1` and
`id(<unk>) = 5`: the reserved words do not have the ids 0, 1, 2. The deleted word `q` is no
longer in the map, `map_find_int` answers for it with the id 0, and the third sentence is
stored as `[0, 2, 3, 0, 1]`, in which `q` has the id of `<s>` and not the id of `<unk>`. -/
theorem reserved_ids_after_sort :
    ∃ st, main_build example_limits 2 example_buffer = Except.ok st ∧
      st.word_list =
        ["<s>".toList, "</s>".toList, "x".toList, "y".toList, "z".toList, UNKNOWN_WORD] ∧
      st.word_counts = [3, 3, 3, 3, 2, 1] ∧
      map_find_int st.ngram_map UNKNOWN_WORD = 5 ∧
      map_find_int st.ngram_map "<s>".toList = 0 ∧
      map_find_int st.ngram_map "</s>".toList = 1 ∧
      map_find_int st.ngram_map "q".toList = 0 ∧
      st.sent_store_int = [[0, 2, 3, 4, 1], [0, 2, 3, 4, 1], [0, 2, 3, 0, 1]] ∧
      ¬ (map_find_int st.ngram_map UNKNOWN_WORD = 0 ∧
        map_find_int st.ngram_map "<s>".toList = 1 ∧
        map_find_int st.ngram_map "</s>".toList = 2) :=
  ⟨_, rfl, by decide, by decide, by decide, by decide, by decide, by decide, by decide,
    by decide⟩

/-! ### Evaluations at concrete inputs: claims C11 and C16 -/

/-- C11, evaluated on the one-line input `x` with the default `min_count = 3`: after
`process_str_sents_in_buffer` the vocabulary is `<unk>`, `<s>`, `</s>`, `x`, where `<s>` and
`</s>` have the count 1 of the single line, and `filter_infrequent_words` deletes `<s>`,
`</s>` and `x`, so that the vocabulary left is `<unk>` alone, with count 3. -/
theorem filter_infrequent_words_drops_reserved :
    (process_str_sents_in_buffer example_limits reserved_words_map ["x\n".toList]).2 =
      [⟨UNKNOWN_WORD, 0, 0⟩, ⟨"<s>".toList, 1, 0⟩, ⟨"</s>".toList, 1, 0⟩,
        ⟨"x".toList, 1, 0⟩] ∧
    filter_infrequent_words example_limits 3 4
      (process_str_sents_in_buffer example_limits reserved_words_map ["x\n".toList]).2 =
      Except.ok ⟨3, 1, [⟨UNKNOWN_WORD, 3, 0⟩]⟩ ∧
    (∃ r, main_build example_limits 3 ["x\n".toList] = Except.ok r ∧
      r.word_list = [UNKNOWN_WORD] ∧ "<s>".toList ∉ r.word_list ∧
      "</s>".toList ∉ r.word_list) :=
  ⟨by decide, rfl, _, rfl, rfl, by decide, by decide⟩

/-- C16, evaluated on the buffer made of the line `a` and an empty line against the buffer
made of the line `a` alone (with `min_count = 1`, two classes and the assignment
`[0, 1, 0, 1]`): the token count and the word counts are the same, but the empty line adds
the sentence `<s> </s>` to the integer corpus, and with it one occurrence of the bigram
`0 1` to the word-class matrix, to the count arrays and to the bigram list of `</s>`. -/
theorem sent_buffer2sent_store_int_empty_line :
    (∃ r r0, main_build example_limits 1 ["a\n".toList, "\n".toList] = Except.ok r ∧
      main_build example_limits 1 ["a\n".toList] = Except.ok r0 ∧
      r.token_count = r0.token_count ∧ r.word_counts = r0.word_counts ∧
      r0.sent_store_int = [[0, 2, 1]] ∧ r.sent_store_int = [[0, 2, 1], [0, 1]]) ∧
    (build_word_class_counts 2 (List.replicate 8 0) [0, 1, 0, 1] [[0, 2, 1]] false).getD
      (0 * 2 + 1) 0 = 0 ∧
    (build_word_class_counts 2 (List.replicate 8 0) [0, 1, 0, 1] [[0, 2, 1], [0, 1]]
      false).getD (0 * 2 + 1) 0 = 1 ∧
    tally_class_counts_in_store 3 2 [[0, 2, 1]] [0, 1, 0, 1] (init_count_arrays 3 2) =
      [[2, 1], [1, 1, 0, 0], [0, 1, 0, 0, 0, 0, 0, 0]] ∧
    tally_class_counts_in_store 3 2 [[0, 2, 1], [0, 1]] [0, 1, 0, 1] (init_count_arrays 3 2) =
      [[3, 2], [1, 2, 0, 0], [0, 1, 0, 0, 0, 0, 0, 0]] ∧
    (set_bigram_counts 10 (List.replicate 4 ⟨0, [], []⟩) [[0, 2, 1]] false)[1]? =
      some ⟨1, [2], [1]⟩ ∧
    (set_bigram_counts 10 (List.replicate 4 ⟨0, [], []⟩) [[0, 2, 1], [0, 1]] false)[1]? =
      some ⟨2, [2, 0], [1, 1]⟩ := by
  refine ⟨⟨_, _, rfl, rfl, rfl, rfl, rfl, rfl⟩, by decide, by decide, by decide, by decide,
    ?_, ?_⟩
  · simp [set_bigram_counts, map_increment_bigram, sort_bigrams, set_bigram_counts_step,
      List.range']
  · simp [set_bigram_counts, map_increment_bigram, sort_bigrams, set_bigram_counts_step,
      List.range']
/-! ### Scoring kernel: claims C18, C19, C20 -/

theorem slice_one (f : Nat → Nat) (i : Nat) : slice f i 1 = [f i] := rfl

theorem slice_two (f : Nat → Nat) (i : Nat) : slice f i 2 = [f i, f (i + 1)] := rfl

theorem slice_three (f : Nat → Nat) (i : Nat) : slice f i 3 = [f i, f (i + 1), f (i + 2)] :=
  rfl

theorem query_position_bigram (max_array K token_count : Nat) (word_counts : List Nat)
    (count_arrays : List (List Nat)) (sent : List Nat) (class_sent : Nat → Nat) (i : Nat) :
    (query_position max_array K token_count word_counts count_arrays sent class_sent
        i).order_probs.getD 1 fval.nan =
      fval.of_counts
        (count_at count_arrays 1 (array_offset (slice class_sent (i - 1) 2) 2 K))
        (count_at count_arrays 0 (array_offset (slice class_sent i 1) 1 K)) := by
  unfold query_position
  simp only []
  split <;> split <;> split <;> simp [List.getElem?_set]

theorem query_position_trigram (max_array K token_count : Nat) (word_counts : List Nat)
    (count_arrays : List (List Nat)) (sent : List Nat) (class_sent : Nat → Nat) (i : Nat)
    (h : 2 < max_array ∧ 1 < i) :
    (query_position max_array K token_count word_counts count_arrays sent class_sent
        i).order_probs.getD 0 fval.nan =
      fval.unnan (fval.of_counts
        (count_at count_arrays 2 (array_offset (slice class_sent (i - 2) 3) 3 K))
        (count_at count_arrays 1 (array_offset (slice class_sent (i - 1) 2) 2 K))) := by
  unfold query_position
  simp only [h, and_self, if_true]
  split <;> split <;> simp [List.getElem?_set]

theorem of_counts_eq (a b n d : Nat) (hb : b ≠ 0) (hd : d ≠ 0) (h : a * d = n * b) :
    fval.of_counts a b = fval.rat ((n : ℚ) / (d : ℚ)) := by
  unfold fval.of_counts
  rw [if_neg hb]
  congr 1
  have hb' : (b : ℚ) ≠ 0 := Nat.cast_ne_zero.mpr hb
  have hd' : (d : ℚ) ≠ 0 := Nat.cast_ne_zero.mpr hd
  rw [div_eq_div_iff hb' hd']
  exact_mod_cast h

theorem unnan_rat (q : ℚ) : fval.unnan (fval.rat q) = fval.rat q := by
  unfold fval.unnan
  rw [if_neg (by intro h; cases h)]

theorem unnan_nan : fval.unnan fval.nan = fval.rat 0 := by
  unfold fval.unnan
  rw [if_pos rfl]

/-- C18, evaluated on the corpus `x y z / x y z / x y q` (`min_count = 1`, two classes,
`init_clusters` assignment, count arrays tallied from the corpus) at position 2 of the
first sentence, where the classes are `c_0 = 0, c_1 = 0, c_2 = 1`. The bigram probability
that the code computes is `count_2(c_1, c_2) / count_1(c_2) = 5 / 7`, not
`count_2(c_1, c_2) / count_1(c_1) = 5 / 8`; the trigram probability that it computes is
`count_3(c_0, c_1, c_2) / count_2(c_1, c_2) = 3 / 5`, not
`count_3(c_0, c_1, c_2) / count_2(c_0, c_1) = 3 / 3`. -/
theorem query_order_probs_denominators :
    (∃ st, main_build example_limits 1 example_buffer = Except.ok st ∧
      st.token_count = 15 ∧ st.type_count = 7 ∧ st.word_counts = [3, 3, 3, 3, 2, 1, 0] ∧
      st.sent_store_int = [[0, 2, 3, 4, 1], [0, 2, 3, 4, 1], [0, 2, 3, 5, 1]]) ∧
    init_clusters class_algo_t.EXCHANGE 2 7 (List.replicate 7 0) = [0, 1, 0, 1, 0, 1, 0] ∧
    tally_class_counts_in_store 3 2 [[0, 2, 3, 4, 1], [0, 2, 3, 4, 1], [0, 2, 3, 5, 1]]
      [0, 1, 0, 1, 0, 1, 0] (init_count_arrays 3 2) =
        [[8, 7], [3, 5, 2, 2], [0, 3, 2, 1, 0, 2, 0, 1]] ∧
    (List.range 5).map (query_class_sent [0, 1, 0, 1, 0, 1, 0] [0, 2, 3, 4, 1] 0 0) =
      [0, 0, 1, 0, 1] ∧
    (query_position 3 2 15 [3, 3, 3, 3, 2, 1, 0]
      [[8, 7], [3, 5, 2, 2], [0, 3, 2, 1, 0, 2, 0, 1]]
      [0, 2, 3, 4, 1] (query_class_sent [0, 1, 0, 1, 0, 1, 0] [0, 2, 3, 4, 1] 0 0)
      2).order_probs.getD 1 fval.nan = fval.rat (5 / 7) ∧
    fval.of_counts
      (count_at [[8, 7], [3, 5, 2, 2], [0, 3, 2, 1, 0, 2, 0, 1]] 1 (array_offset [0, 1] 2 2))
      (count_at [[8, 7], [3, 5, 2, 2], [0, 3, 2, 1, 0, 2, 0, 1]] 0 0) = fval.rat (5 / 8) ∧
    (query_position 3 2 15 [3, 3, 3, 3, 2, 1, 0]
      [[8, 7], [3, 5, 2, 2], [0, 3, 2, 1, 0, 2, 0, 1]]
      [0, 2, 3, 4, 1] (query_class_sent [0, 1, 0, 1, 0, 1, 0] [0, 2, 3, 4, 1] 0 0)
      2).order_probs.getD 0 fval.nan = fval.rat (3 / 5) ∧
    fval.of_counts
      (count_at [[8, 7], [3, 5, 2, 2], [0, 3, 2, 1, 0, 2, 0, 1]] 2
        (array_offset [0, 0, 1] 3 2))
      (count_at [[8, 7], [3, 5, 2, 2], [0, 3, 2, 1, 0, 2, 0, 1]] 1 (array_offset [0, 0] 2 2)) =
        fval.rat 1 := by
  refine ⟨⟨_, rfl, rfl, rfl, rfl, rfl⟩, by decide, by decide, by decide, ?_, ?_, ?_, ?_⟩
  · rw [query_position_bigram]
    have := of_counts_eq
      (count_at [[8, 7], [3, 5, 2, 2], [0, 3, 2, 1, 0, 2, 0, 1]] 1 (array_offset
        (slice (query_class_sent [0, 1, 0, 1, 0, 1, 0] [0, 2, 3, 4, 1] 0 0) (2 - 1) 2) 2 2))
      (count_at [[8, 7], [3, 5, 2, 2], [0, 3, 2, 1, 0, 2, 0, 1]] 0 (array_offset
        (slice (query_class_sent [0, 1, 0, 1, 0, 1, 0] [0, 2, 3, 4, 1] 0 0) 2 1) 1 2))
      5 7 (by decide) (by decide) (by decide)
    rw [this]
    norm_num
  · have := of_counts_eq
      (count_at [[8, 7], [3, 5, 2, 2], [0, 3, 2, 1, 0, 2, 0, 1]] 1 (array_offset [0, 1] 2 2))
      (count_at [[8, 7], [3, 5, 2, 2], [0, 3, 2, 1, 0, 2, 0, 1]] 0 0)
      5 8 (by decide) (by decide) (by decide)
    rw [this]
    norm_num
  · rw [query_position_trigram _ _ _ _ _ _ _ _ (by decide)]
    have := of_counts_eq
      (count_at [[8, 7], [3, 5, 2, 2], [0, 3, 2, 1, 0, 2, 0, 1]] 2 (array_offset
        (slice (query_class_sent [0, 1, 0, 1, 0, 1, 0] [0, 2, 3, 4, 1] 0 0) (2 - 2) 3) 3 2))
      (count_at [[8, 7], [3, 5, 2, 2], [0, 3, 2, 1, 0, 2, 0, 1]] 1 (array_offset
        (slice (query_class_sent [0, 1, 0, 1, 0, 1, 0] [0, 2, 3, 4, 1] 0 0) (2 - 1) 2) 2 2))
      3 5 (by decide) (by decide) (by decide)
    rw [this, unnan_rat]
    norm_num
  · have := of_counts_eq
      (count_at [[8, 7], [3, 5, 2, 2], [0, 3, 2, 1, 0, 2, 0, 1]] 2
        (array_offset [0, 0, 1] 3 2))
      (count_at [[8, 7], [3, 5, 2, 2], [0, 3, 2, 1, 0, 2, 0, 1]] 1 (array_offset [0, 0] 2 2))
      1 1 (by decide) (by decide) (by decide)
    rw [this]
    norm_num

theorem query_position_future_trigram (max_array K token_count : Nat) (word_counts : List Nat)
    (count_arrays : List (List Nat)) (sent : List Nat) (class_sent : Nat → Nat) (i : Nat)
    (h : 2 < max_array ∧ i < sent.length - 2) :
    (query_position max_array K token_count word_counts count_arrays sent class_sent
        i).order_probs.getD 4 fval.nan =
      fval.unnan (fval.of_counts
        (count_at count_arrays 2 (array_offset (slice class_sent i 3) 3 K))
        (count_at count_arrays 1 (array_offset (slice class_sent (i + 1) 2) 2 K))) := by
  unfold query_position
  simp only [h, and_self, if_true]
  split <;> split <;> simp [List.getElem?_set]

theorem query_position_sum_weights (max_array K token_count : Nat) (word_counts : List Nat)
    (count_arrays : List (List Nat)) (sent : List Nat) (class_sent : Nat → Nat) (i : Nat) :
    (query_position max_array K token_count word_counts count_arrays sent class_sent
        i).sum_weights =
      1 / 100 + (if 2 < max_array ∧ 1 < i then 4 / 10 else 0) + 16 / 100 +
        (if i < sent.length - 1 then 1 / 10 else 0) +
        (if 2 < max_array ∧ i < sent.length - 2 then 33 / 100 else 0) := by
  unfold query_position
  simp only []
  split <;> split <;> split <;> simp

theorem of_counts_zero_zero : fval.of_counts 0 0 = fval.nan := rfl

/-- C19 as amended: the normalizer `sum_weights` is the sum of the weights of the orders
whose position test passes, whatever the counts are; when the trigram ratio, or the future
trigram ratio, is `0 / 0`, that order's probability is replaced by 0 and contributes 0 to
the weighted sum, and its weight stays in `sum_weights`. -/
theorem query_zero_denominator_spec (max_array K token_count : Nat) (word_counts : List Nat)
    (count_arrays : List (List Nat)) (sent : List Nat) (class_sent : Nat → Nat) (i : Nat) :
    (query_position max_array K token_count word_counts count_arrays sent class_sent
        i).sum_weights =
      1 / 100 + (if 2 < max_array ∧ 1 < i then 4 / 10 else 0) + 16 / 100 +
        (if i < sent.length - 1 then 1 / 10 else 0) +
        (if 2 < max_array ∧ i < sent.length - 2 then 33 / 100 else 0) ∧
    (2 < max_array ∧ 1 < i →
      count_at count_arrays 2 (array_offset (slice class_sent (i - 2) 3) 3 K) = 0 →
      count_at count_arrays 1 (array_offset (slice class_sent (i - 1) 2) 2 K) = 0 →
      (query_position max_array K token_count word_counts count_arrays sent class_sent
        i).order_probs.getD 0 fval.nan = fval.rat 0 ∧
      fval.scale (4 / 10)
        ((query_position max_array K token_count word_counts count_arrays sent class_sent
          i).order_probs.getD 0 fval.nan) = fval.rat 0) ∧
    (2 < max_array ∧ i < sent.length - 2 →
      count_at count_arrays 2 (array_offset (slice class_sent i 3) 3 K) = 0 →
      count_at count_arrays 1 (array_offset (slice class_sent (i + 1) 2) 2 K) = 0 →
      (query_position max_array K token_count word_counts count_arrays sent class_sent
        i).order_probs.getD 4 fval.nan = fval.rat 0 ∧
      fval.scale (33 / 100)
        ((query_position max_array K token_count word_counts count_arrays sent class_sent
          i).order_probs.getD 4 fval.nan) = fval.rat 0) := by
  refine ⟨query_position_sum_weights _ _ _ _ _ _ _ _, ?_, ?_⟩
  · intro h hn hd
    rw [query_position_trigram _ _ _ _ _ _ _ _ h, hn, hd, of_counts_zero_zero, unnan_nan]
    exact ⟨rfl, by simp [fval.scale]⟩
  · intro h hn hd
    rw [query_position_future_trigram _ _ _ _ _ _ _ _ h, hn, hd, of_counts_zero_zero,
      unnan_nan]
    exact ⟨rfl, by simp [fval.scale]⟩

theorem query_zero_denominator_spec_witness :
    ((2 < 3 ∧ 1 < 2) ∧
      count_at [[2, 1], [1, 1, 0, 0], [0, 1, 0, 0, 0, 0, 0, 0]] 2 (array_offset
        (slice (query_class_sent [0, 1, 0, 1] [0, 2, 1] 2 1) (2 - 2) 3) 3 2) = 0 ∧
      count_at [[2, 1], [1, 1, 0, 0], [0, 1, 0, 0, 0, 0, 0, 0]] 1 (array_offset
        (slice (query_class_sent [0, 1, 0, 1] [0, 2, 1] 2 1) (2 - 1) 2) 2 2) = 0) ∧
    (query_position 3 2 3 [1, 1, 1, 0] [[2, 1], [1, 1, 0, 0], [0, 1, 0, 0, 0, 0, 0, 0]]
      [0, 2, 1] (query_class_sent [0, 1, 0, 1] [0, 2, 1] 2 1) 2).order_probs.getD 0 fval.nan =
        fval.rat 0 :=
  ⟨by decide,
    ((query_zero_denominator_spec 3 2 3 [1, 1, 1, 0]
      [[2, 1], [1, 1, 0, 0], [0, 1, 0, 0, 0, 0, 0, 0]] [0, 2, 1]
      (query_class_sent [0, 1, 0, 1] [0, 2, 1] 2 1) 2).2.1 (by decide) (by decide)
      (by decide)).1⟩

/-- C19, counterexample: on the one-line corpus `x` (`min_count = 1`, two classes, count
arrays tallied under the `init_clusters` assignment), scoring the word `x` with the
tentative class 1 makes the trigram ratio at position 2 equal to `0 / 0`. The trigram
probability becomes 0, and `sum_weights` is `0.01 + 0.40 + 0.16 = 0.57`: the trigram weight
is in the normalizer, which is not the `0.17` left when that weight is removed. -/
theorem query_zero_denominator_counterexample :
    (∃ st, main_build example_limits 1 ["x\n".toList] = Except.ok st ∧
      st.token_count = 3 ∧ st.word_counts = [1, 1, 1, 0] ∧
      st.sent_store_int = [[0, 2, 1]]) ∧
    init_clusters class_algo_t.EXCHANGE 2 4 (List.replicate 4 0) = [0, 1, 0, 1] ∧
    tally_class_counts_in_store 3 2 [[0, 2, 1]] [0, 1, 0, 1] (init_count_arrays 3 2) =
      [[2, 1], [1, 1, 0, 0], [0, 1, 0, 0, 0, 0, 0, 0]] ∧
    count_at [[2, 1], [1, 1, 0, 0], [0, 1, 0, 0, 0, 0, 0, 0]] 1 (array_offset
      (slice (query_class_sent [0, 1, 0, 1] [0, 2, 1] 2 1) (2 - 1) 2) 2 2) = 0 ∧
    (query_position 3 2 3 [1, 1, 1, 0] [[2, 1], [1, 1, 0, 0], [0, 1, 0, 0, 0, 0, 0, 0]]
      [0, 2, 1] (query_class_sent [0, 1, 0, 1] [0, 2, 1] 2 1) 2).order_probs.getD 0 fval.nan =
        fval.rat 0 ∧
    (query_position 3 2 3 [1, 1, 1, 0] [[2, 1], [1, 1, 0, 0], [0, 1, 0, 0, 0, 0, 0, 0]]
      [0, 2, 1] (query_class_sent [0, 1, 0, 1] [0, 2, 1] 2 1) 2).sum_weights = 57 / 100 ∧
    (query_position 3 2 3 [1, 1, 1, 0] [[2, 1], [1, 1, 0, 0], [0, 1, 0, 0, 0, 0, 0, 0]]
      [0, 2, 1] (query_class_sent [0, 1, 0, 1] [0, 2, 1] 2 1) 2).sum_weights ≠ 17 / 100 := by
  have hsw : (query_position 3 2 3 [1, 1, 1, 0]
      [[2, 1], [1, 1, 0, 0], [0, 1, 0, 0, 0, 0, 0, 0]] [0, 2, 1]
      (query_class_sent [0, 1, 0, 1] [0, 2, 1] 2 1) 2).sum_weights = 57 / 100 := by
    rw [query_position_sum_weights]
    norm_num
  refine ⟨⟨_, rfl, rfl, rfl, rfl⟩, by decide, by decide, by decide, ?_, hsw, ?_⟩
  · rw [query_position_trigram _ _ _ _ _ _ _ _ (by decide)]
    have h1 : count_at [[2, 1], [1, 1, 0, 0], [0, 1, 0, 0, 0, 0, 0, 0]] 2 (array_offset
        (slice (query_class_sent [0, 1, 0, 1] [0, 2, 1] 2 1) (2 - 2) 3) 3 2) = 0 := by decide
    have h2 : count_at [[2, 1], [1, 1, 0, 0], [0, 1, 0, 0, 0, 0, 0, 0]] 1 (array_offset
        (slice (query_class_sent [0, 1, 0, 1] [0, 2, 1] 2 1) (2 - 1) 2) 2 2) = 0 := by decide
    rw [h1, h2, of_counts_zero_zero, unnan_nan]
  · rw [hsw]
    norm_num

theorem of_counts_rat (a b : Nat) (hb : b ≠ 0) :
    fval.of_counts a b = fval.rat ((a : ℚ) / (b : ℚ)) := by
  unfold fval.of_counts
  rw [if_neg hb]

theorem array_offset_singleton (c K : Nat) : array_offset [c] 1 K = c := by
  simp [array_offset]

theorem div_weight_rat (q w : ℚ) (hw : w ≠ 0) :
    fval.div_weight (fval.rat q) w = fval.rat (q / w) := by
  simp only [fval.div_weight]
  rw [if_neg hw]

theorem scale_rat (w q : ℚ) : fval.scale w (fval.rat q) = fval.rat (w * q) := rfl

theorem add_rat (a b : ℚ) : fval.add (fval.rat a) (fval.rat b) = fval.rat (a + b) := rfl

theorem order_probs_unigram (x : fval) :
    ((List.replicate 5 (fval.rat 0)).set 2 x).getD 2 (fval.rat 0) = x := rfl

theorem query_position_weights_class (max_array K token_count : Nat) (word_counts : List Nat)
    (count_arrays : List (List Nat)) (sent : List Nat) (class_sent : Nat → Nat) (i : Nat) :
    (query_position max_array K token_count word_counts count_arrays sent class_sent
        i).weights_class =
      [if 2 < max_array ∧ 1 < i then 4 / 10 else 0, 16 / 100, 1 / 100, 1 / 10,
        if 2 < max_array ∧ i < sent.length - 2 then 33 / 100 else 0] := by
  unfold query_position
  simp only []
  split <;> split <;> split <;> simp

theorem query_position_future_bigram (max_array K token_count : Nat) (word_counts : List Nat)
    (count_arrays : List (List Nat)) (sent : List Nat) (class_sent : Nat → Nat) (i : Nat)
    (h : i < sent.length - 1) :
    (query_position max_array K token_count word_counts count_arrays sent class_sent
        i).order_probs.getD 3 fval.nan =
      fval.of_counts
        (count_at count_arrays 1 (array_offset (slice class_sent i 2) 2 K))
        (count_at count_arrays 0 (array_offset (slice class_sent (i + 1) 1) 1 K)) := by
  unfold query_position
  simp only [h, if_true]
  split <;> split <;> simp [List.getElem?_set]

theorem query_position_sum_probs (max_array K token_count : Nat) (word_counts : List Nat)
    (count_arrays : List (List Nat)) (sent : List Nat) (class_sent : Nat → Nat) (i : Nat) :
    (query_position max_array K token_count word_counts count_arrays sent class_sent
        i).sum_probs =
      (fun d : fval =>
        if 2 < max_array ∧ i < sent.length - 2 then
          fval.add d (fval.scale (33 / 100) (fval.unnan (fval.of_counts
            (count_at count_arrays 2 (array_offset (slice class_sent i 3) 3 K))
            (count_at count_arrays 1 (array_offset (slice class_sent (i + 1) 2) 2 K)))))
        else d)
      ((fun c : fval =>
        if i < sent.length - 1 then
          fval.add c (fval.scale (1 / 10) (fval.of_counts
            (count_at count_arrays 1 (array_offset (slice class_sent i 2) 2 K))
            (count_at count_arrays 0 (array_offset (slice class_sent (i + 1) 1) 1 K))))
        else c)
      (fval.add
        ((fun a : fval =>
          if 2 < max_array ∧ 1 < i then
            fval.add a (fval.scale (4 / 10) (fval.unnan (fval.of_counts
              (count_at count_arrays 2 (array_offset (slice class_sent (i - 2) 3) 3 K))
              (count_at count_arrays 1 (array_offset (slice class_sent (i - 1) 2) 2 K)))))
          else a)
        (fval.scale (1 / 100)
          (fval.of_counts (count_at count_arrays 0 (class_sent i)) token_count)))
        (fval.scale (16 / 100) (fval.of_counts
          (count_at count_arrays 1 (array_offset (slice class_sent (i - 1) 2) 2 K))
          (count_at count_arrays 0 (array_offset (slice class_sent i 1) 1 K)))))) := by
  unfold query_position
  simp only []
  split <;> split <;> split <;> simp

/-- C20, evaluated at the input of C18 (corpus `x y z / x y z / x y q`, `min_count = 1`, two
classes, `max_array = 3`) at position 2 of the first sentence, where the classes are
`c_0 .. c_4 = 0, 0, 1, 0, 1`, all five orders are active and the active weights sum to 1.
The transition probability that the code computes is
`0.40·3/5 + 0.16·5/7 + 0.01·7/15 + 0.10·2/8 + 0.33·2/5`: its trigram and bigram terms
divide by `count_2(c_1, c_2) = 5` and `count_1(c_2) = 7`. The claimed value
`(Σ_{k∈A} w_k·P_k) / (Σ_{k∈A} w_k)`, in which `P_k` divides by the count of the history
(`order_prob_spec`), is `0.40·3/3 + 0.16·5/8 + 0.01·7/15 + 0.10·2/8 + 0.33·2/5`. The two
values differ; the emission probability is `3/7` and the class probability is the product
of the emission probability and the transition probability that the code computes. -/
theorem query_position_transition_history :
    (List.range 5).filter (order_active 3 [0, 2, 3, 4, 1].length 2) = [0, 1, 2, 3, 4] ∧
    (query_position 3 2 15 [3, 3, 3, 3, 2, 1, 0]
      [[8, 7], [3, 5, 2, 2], [0, 3, 2, 1, 0, 2, 0, 1]]
      [0, 2, 3, 4, 1] (query_class_sent [0, 1, 0, 1, 0, 1, 0] [0, 2, 3, 4, 1] 0 0)
      2).sum_weights =
        (((List.range 5).filter (order_active 3 [0, 2, 3, 4, 1].length 2)).map
          interpolation_weight).sum ∧
    (query_position 3 2 15 [3, 3, 3, 3, 2, 1, 0]
      [[8, 7], [3, 5, 2, 2], [0, 3, 2, 1, 0, 2, 0, 1]]
      [0, 2, 3, 4, 1] (query_class_sent [0, 1, 0, 1, 0, 1, 0] [0, 2, 3, 4, 1] 0 0)
      2).transition_prob =
        fval.rat ((4 / 10 * (3 / 5) + 16 / 100 * (5 / 7) + 1 / 100 * (7 / 15) +
          1 / 10 * (2 / 8) + 33 / 100 * (2 / 5)) / 1) ∧
    (((List.range 5).filter (order_active 3 [0, 2, 3, 4, 1].length 2)).map fun k =>
        interpolation_weight k *
          order_prob_spec 2 15 [[8, 7], [3, 5, 2, 2], [0, 3, 2, 1, 0, 2, 0, 1]]
            (query_class_sent [0, 1, 0, 1, 0, 1, 0] [0, 2, 3, 4, 1] 0 0) 2 k).sum /
      (((List.range 5).filter (order_active 3 [0, 2, 3, 4, 1].length 2)).map
        interpolation_weight).sum =
        (4 / 10 * (3 / 3) + 16 / 100 * (5 / 8) + 1 / 100 * (7 / 15) +
          1 / 10 * (2 / 8) + 33 / 100 * (2 / 5)) / 1 ∧
    (query_position 3 2 15 [3, 3, 3, 3, 2, 1, 0]
      [[8, 7], [3, 5, 2, 2], [0, 3, 2, 1, 0, 2, 0, 1]]
      [0, 2, 3, 4, 1] (query_class_sent [0, 1, 0, 1, 0, 1, 0] [0, 2, 3, 4, 1] 0 0)
      2).transition_prob ≠
        fval.rat
          ((((List.range 5).filter (order_active 3 [0, 2, 3, 4, 1].length 2)).map fun k =>
              interpolation_weight k *
                order_prob_spec 2 15 [[8, 7], [3, 5, 2, 2], [0, 3, 2, 1, 0, 2, 0, 1]]
                  (query_class_sent [0, 1, 0, 1, 0, 1, 0] [0, 2, 3, 4, 1] 0 0) 2 k).sum /
            (((List.range 5).filter (order_active 3 [0, 2, 3, 4, 1].length 2)).map
              interpolation_weight).sum) ∧
    (query_position 3 2 15 [3, 3, 3, 3, 2, 1, 0]
      [[8, 7], [3, 5, 2, 2], [0, 3, 2, 1, 0, 2, 0, 1]]
      [0, 2, 3, 4, 1] (query_class_sent [0, 1, 0, 1, 0, 1, 0] [0, 2, 3, 4, 1] 0 0)
      2).emission_prob = fval.rat (3 / 7) ∧
    (query_position 3 2 15 [3, 3, 3, 3, 2, 1, 0]
      [[8, 7], [3, 5, 2, 2], [0, 3, 2, 1, 0, 2, 0, 1]]
      [0, 2, 3, 4, 1] (query_class_sent [0, 1, 0, 1, 0, 1, 0] [0, 2, 3, 4, 1] 0 0)
      2).class_prob =
        fval.rat (3 / 7 * ((4 / 10 * (3 / 5) + 16 / 100 * (5 / 7) + 1 / 100 * (7 / 15) +
          1 / 10 * (2 / 8) + 33 / 100 * (2 / 5)) / 1)) := by
  have hA : (List.range 5).filter (order_active 3 [0, 2, 3, 4, 1].length 2) =
      [0, 1, 2, 3, 4] := by decide
  have hsw : (query_position 3 2 15 [3, 3, 3, 3, 2, 1, 0]
      [[8, 7], [3, 5, 2, 2], [0, 3, 2, 1, 0, 2, 0, 1]]
      [0, 2, 3, 4, 1] (query_class_sent [0, 1, 0, 1, 0, 1, 0] [0, 2, 3, 4, 1] 0 0)
      2).sum_weights = 1 := by
    rw [query_position_sum_weights]
    norm_num
  have hW : (([0, 1, 2, 3, 4] : List Nat).map interpolation_weight).sum = 1 := by
    simp only [List.map_cons, List.map_nil, List.sum_cons, List.sum_nil, interpolation_weight]
    norm_num
  have hsp : (query_position 3 2 15 [3, 3, 3, 3, 2, 1, 0]
      [[8, 7], [3, 5, 2, 2], [0, 3, 2, 1, 0, 2, 0, 1]]
      [0, 2, 3, 4, 1] (query_class_sent [0, 1, 0, 1, 0, 1, 0] [0, 2, 3, 4, 1] 0 0)
      2).sum_probs =
        fval.rat (4 / 10 * (3 / 5) + 16 / 100 * (5 / 7) + 1 / 100 * (7 / 15) +
          1 / 10 * (2 / 8) + 33 / 100 * (2 / 5)) := by
    rw [query_position_sum_probs]
    have h2 := of_counts_eq
      (count_at [[8, 7], [3, 5, 2, 2], [0, 3, 2, 1, 0, 2, 0, 1]] 0
        (query_class_sent [0, 1, 0, 1, 0, 1, 0] [0, 2, 3, 4, 1] 0 0 2)) 15
      7 15 (by decide) (by decide) (by decide)
    have h0 := of_counts_eq
      (count_at [[8, 7], [3, 5, 2, 2], [0, 3, 2, 1, 0, 2, 0, 1]] 2 (array_offset
        (slice (query_class_sent [0, 1, 0, 1, 0, 1, 0] [0, 2, 3, 4, 1] 0 0) (2 - 2) 3) 3 2))
      (count_at [[8, 7], [3, 5, 2, 2], [0, 3, 2, 1, 0, 2, 0, 1]] 1 (array_offset
        (slice (query_class_sent [0, 1, 0, 1, 0, 1, 0] [0, 2, 3, 4, 1] 0 0) (2 - 1) 2) 2 2))
      3 5 (by decide) (by decide) (by decide)
    have h1 := of_counts_eq
      (count_at [[8, 7], [3, 5, 2, 2], [0, 3, 2, 1, 0, 2, 0, 1]] 1 (array_offset
        (slice (query_class_sent [0, 1, 0, 1, 0, 1, 0] [0, 2, 3, 4, 1] 0 0) (2 - 1) 2) 2 2))
      (count_at [[8, 7], [3, 5, 2, 2], [0, 3, 2, 1, 0, 2, 0, 1]] 0 (array_offset
        (slice (query_class_sent [0, 1, 0, 1, 0, 1, 0] [0, 2, 3, 4, 1] 0 0) 2 1) 1 2))
      5 7 (by decide) (by decide) (by decide)
    have h3 := of_counts_eq
      (count_at [[8, 7], [3, 5, 2, 2], [0, 3, 2, 1, 0, 2, 0, 1]] 1 (array_offset
        (slice (query_class_sent [0, 1, 0, 1, 0, 1, 0] [0, 2, 3, 4, 1] 0 0) 2 2) 2 2))
      (count_at [[8, 7], [3, 5, 2, 2], [0, 3, 2, 1, 0, 2, 0, 1]] 0 (array_offset
        (slice (query_class_sent [0, 1, 0, 1, 0, 1, 0] [0, 2, 3, 4, 1] 0 0) (2 + 1) 1) 1 2))
      2 8 (by decide) (by decide) (by decide)
    have h4 := of_counts_eq
      (count_at [[8, 7], [3, 5, 2, 2], [0, 3, 2, 1, 0, 2, 0, 1]] 2 (array_offset
        (slice (query_class_sent [0, 1, 0, 1, 0, 1, 0] [0, 2, 3, 4, 1] 0 0) 2 3) 3 2))
      (count_at [[8, 7], [3, 5, 2, 2], [0, 3, 2, 1, 0, 2, 0, 1]] 1 (array_offset
        (slice (query_class_sent [0, 1, 0, 1, 0, 1, 0] [0, 2, 3, 4, 1] 0 0) (2 + 1) 2) 2 2))
      2 5 (by decide) (by decide) (by decide)
    have c0 : 2 < 3 ∧ 1 < 2 := by decide
    have c3 : 2 < [0, 2, 3, 4, 1].length - 1 := by decide
    have c4 : 2 < 3 ∧ 2 < [0, 2, 3, 4, 1].length - 2 := by decide
    simp only [if_pos c0, if_pos c3, if_pos c4, h0, h1, h2, h3, h4, unnan_rat, scale_rat,
      add_rat]
    norm_num
  have htr : (query_position 3 2 15 [3, 3, 3, 3, 2, 1, 0]
      [[8, 7], [3, 5, 2, 2], [0, 3, 2, 1, 0, 2, 0, 1]]
      [0, 2, 3, 4, 1] (query_class_sent [0, 1, 0, 1, 0, 1, 0] [0, 2, 3, 4, 1] 0 0)
      2).transition_prob =
        fval.rat ((4 / 10 * (3 / 5) + 16 / 100 * (5 / 7) + 1 / 100 * (7 / 15) +
          1 / 10 * (2 / 8) + 33 / 100 * (2 / 5)) / 1) := by
    show fval.div_weight
      (query_position 3 2 15 [3, 3, 3, 3, 2, 1, 0]
        [[8, 7], [3, 5, 2, 2], [0, 3, 2, 1, 0, 2, 0, 1]]
        [0, 2, 3, 4, 1] (query_class_sent [0, 1, 0, 1, 0, 1, 0] [0, 2, 3, 4, 1] 0 0)
        2).sum_probs
      (query_position 3 2 15 [3, 3, 3, 3, 2, 1, 0]
        [[8, 7], [3, 5, 2, 2], [0, 3, 2, 1, 0, 2, 0, 1]]
        [0, 2, 3, 4, 1] (query_class_sent [0, 1, 0, 1, 0, 1, 0] [0, 2, 3, 4, 1] 0 0)
        2).sum_weights = _
    rw [hsp, hsw, div_weight_rat _ _ (by norm_num)]
  have hcl : (([0, 1, 2, 3, 4] : List Nat).map fun k =>
        interpolation_weight k *
          order_prob_spec 2 15 [[8, 7], [3, 5, 2, 2], [0, 3, 2, 1, 0, 2, 0, 1]]
            (query_class_sent [0, 1, 0, 1, 0, 1, 0] [0, 2, 3, 4, 1] 0 0) 2 k).sum =
        4 / 10 * (3 / 3) + 16 / 100 * (5 / 8) + 1 / 100 * (7 / 15) +
          1 / 10 * (2 / 8) + 33 / 100 * (2 / 5) := by
    have a0 : count_at [[8, 7], [3, 5, 2, 2], [0, 3, 2, 1, 0, 2, 0, 1]] 2 (array_offset
        [query_class_sent [0, 1, 0, 1, 0, 1, 0] [0, 2, 3, 4, 1] 0 0 (2 - 2),
          query_class_sent [0, 1, 0, 1, 0, 1, 0] [0, 2, 3, 4, 1] 0 0 (2 - 1),
          query_class_sent [0, 1, 0, 1, 0, 1, 0] [0, 2, 3, 4, 1] 0 0 2] 3 2) = 3 := by decide
    have b0 : count_at [[8, 7], [3, 5, 2, 2], [0, 3, 2, 1, 0, 2, 0, 1]] 1 (array_offset
        [query_class_sent [0, 1, 0, 1, 0, 1, 0] [0, 2, 3, 4, 1] 0 0 (2 - 2),
          query_class_sent [0, 1, 0, 1, 0, 1, 0] [0, 2, 3, 4, 1] 0 0 (2 - 1)] 2 2) = 3 := by
      decide
    have a1 : count_at [[8, 7], [3, 5, 2, 2], [0, 3, 2, 1, 0, 2, 0, 1]] 1 (array_offset
        [query_class_sent [0, 1, 0, 1, 0, 1, 0] [0, 2, 3, 4, 1] 0 0 (2 - 1),
          query_class_sent [0, 1, 0, 1, 0, 1, 0] [0, 2, 3, 4, 1] 0 0 2] 2 2) = 5 := by decide
    have b1 : count_at [[8, 7], [3, 5, 2, 2], [0, 3, 2, 1, 0, 2, 0, 1]] 0 (array_offset
        [query_class_sent [0, 1, 0, 1, 0, 1, 0] [0, 2, 3, 4, 1] 0 0 (2 - 1)] 1 2) = 8 := by
      decide
    have a2 : count_at [[8, 7], [3, 5, 2, 2], [0, 3, 2, 1, 0, 2, 0, 1]] 0
        (query_class_sent [0, 1, 0, 1, 0, 1, 0] [0, 2, 3, 4, 1] 0 0 2) = 7 := by decide
    have a3 : count_at [[8, 7], [3, 5, 2, 2], [0, 3, 2, 1, 0, 2, 0, 1]] 1 (array_offset
        [query_class_sent [0, 1, 0, 1, 0, 1, 0] [0, 2, 3, 4, 1] 0 0 2,
          query_class_sent [0, 1, 0, 1, 0, 1, 0] [0, 2, 3, 4, 1] 0 0 (2 + 1)] 2 2) = 2 := by
      decide
    have b3 : count_at [[8, 7], [3, 5, 2, 2], [0, 3, 2, 1, 0, 2, 0, 1]] 0 (array_offset
        [query_class_sent [0, 1, 0, 1, 0, 1, 0] [0, 2, 3, 4, 1] 0 0 (2 + 1)] 1 2) = 8 := by
      decide
    have a4 : count_at [[8, 7], [3, 5, 2, 2], [0, 3, 2, 1, 0, 2, 0, 1]] 2 (array_offset
        [query_class_sent [0, 1, 0, 1, 0, 1, 0] [0, 2, 3, 4, 1] 0 0 2,
          query_class_sent [0, 1, 0, 1, 0, 1, 0] [0, 2, 3, 4, 1] 0 0 (2 + 1),
          query_class_sent [0, 1, 0, 1, 0, 1, 0] [0, 2, 3, 4, 1] 0 0 (2 + 2)] 3 2) = 2 := by
      decide
    have b4 : count_at [[8, 7], [3, 5, 2, 2], [0, 3, 2, 1, 0, 2, 0, 1]] 1 (array_offset
        [query_class_sent [0, 1, 0, 1, 0, 1, 0] [0, 2, 3, 4, 1] 0 0 (2 + 1),
          query_class_sent [0, 1, 0, 1, 0, 1, 0] [0, 2, 3, 4, 1] 0 0 (2 + 2)] 2 2) = 5 := by
      decide
    simp only [List.map_cons, List.map_nil, List.sum_cons, List.sum_nil, interpolation_weight,
      order_prob_spec, a0, b0, a1, b1, a2, a3, b3, a4, b4]
    norm_num
  have hem : (query_position 3 2 15 [3, 3, 3, 3, 2, 1, 0]
      [[8, 7], [3, 5, 2, 2], [0, 3, 2, 1, 0, 2, 0, 1]]
      [0, 2, 3, 4, 1] (query_class_sent [0, 1, 0, 1, 0, 1, 0] [0, 2, 3, 4, 1] 0 0)
      2).emission_prob = fval.rat (3 / 7) := by
    show (if ([3, 3, 3, 3, 2, 1, 0] : List Nat).getD (([0, 2, 3, 4, 1] : List Nat).getD 2 0) 0
        ≠ 0 then
      fval.of_counts
        (([3, 3, 3, 3, 2, 1, 0] : List Nat).getD (([0, 2, 3, 4, 1] : List Nat).getD 2 0) 0)
        (count_at [[8, 7], [3, 5, 2, 2], [0, 3, 2, 1, 0, 2, 0, 1]] 0
          (query_class_sent [0, 1, 0, 1, 0, 1, 0] [0, 2, 3, 4, 1] 0 0 2))
      else fval.of_counts 1
        (count_at [[8, 7], [3, 5, 2, 2], [0, 3, 2, 1, 0, 2, 0, 1]] 0
          (query_class_sent [0, 1, 0, 1, 0, 1, 0] [0, 2, 3, 4, 1] 0 0 2))) = _
    rw [if_pos (by decide), of_counts_eq _ _ 3 7 (by decide) (by decide) (by decide)]
    norm_num
  refine ⟨hA, ?_, htr, ?_, ?_, hem, ?_⟩
  · rw [hsw, hA, hW]
  · rw [hA, hW, hcl]
  · rw [htr, hA, hW, hcl]
    intro h
    have h2 := fval.rat.inj h
    norm_num at h2
  · show fval.mul
      (query_position 3 2 15 [3, 3, 3, 3, 2, 1, 0]
        [[8, 7], [3, 5, 2, 2], [0, 3, 2, 1, 0, 2, 0, 1]]
        [0, 2, 3, 4, 1] (query_class_sent [0, 1, 0, 1, 0, 1, 0] [0, 2, 3, 4, 1] 0 0)
        2).emission_prob
      (query_position 3 2 15 [3, 3, 3, 3, 2, 1, 0]
        [[8, 7], [3, 5, 2, 2], [0, 3, 2, 1, 0, 2, 0, 1]]
        [0, 2, 3, 4, 1] (query_class_sent [0, 1, 0, 1, 0, 1, 0] [0, 2, 3, 4, 1] 0 0)
        2).transition_prob = _
    rw [hem, htr]
    rfl

/-! ### Command-line arguments and the checks of main: claims C21 to C25 -/

/-- C25, evaluated at `--max-array 257`: the value 257 is outside `1..3`, the cast
`(unsigned char)` stores 1, the test passes and `parse_cmd_args` goes on with
`max_array = 1`, which is not the value given. The same happens for 258, 259 and -255;
0 and 4 are refused with `exit(10)`. -/
theorem parse_cmd_args_max_array_wraps :
    ¬ (1 ≤ (257 : Int) ∧ (257 : Int) ≤ 3) ∧
    parse_cmd_args_max_array cmd_args 257 = Except.ok { cmd_args with max_array := 1 } ∧
    parse_cmd_args_max_array cmd_args 258 = Except.ok { cmd_args with max_array := 2 } ∧
    parse_cmd_args_max_array cmd_args 259 = Except.ok { cmd_args with max_array := 3 } ∧
    parse_cmd_args_max_array cmd_args (-255) = Except.ok { cmd_args with max_array := 1 } ∧
    parse_cmd_args_max_array cmd_args 0 = Except.error 10 ∧
    parse_cmd_args_max_array cmd_args 4 = Except.error 10 :=
  ⟨by decide, rfl, rfl, rfl, rfl, rfl, rfl⟩

theorem filter_type_count_pos (L : Limits) (min_count : Nat) (sent_buffer : List (List Char))
    (hM : 5 < L.MAX_WORD_LEN) :
    ∃ f, filter_infrequent_words L min_count
        (map_count (process_str_sents_in_buffer L reserved_words_map sent_buffer).2)
        (process_str_sents_in_buffer L reserved_words_map sent_buffer).2 = Except.ok f ∧
      1 ≤ f.type_count := by
  have hnd := process_nodup L sent_buffer
  have hrf := process_reserved_first L sent_buffer
  generalize (process_str_sents_in_buffer L reserved_words_map sent_buffer).2 = pm at hnd hrf
  have hunk := reserved_first_unknown_mem pm hrf
  refine ⟨_, filter_infrequent_words_ok L min_count (map_count pm) pm rfl, ?_⟩
  rw [filter_type_count_eq_length L min_count hM pm hnd hunk, ← length_get_keys]
  apply List.length_pos_of_mem (a := UNKNOWN_WORD)
  rw [fold_mem L min_count hM (get_keys pm) _ hnd hnd]
  exact Or.inl ⟨hunk, fun h => h.2.2 rfl⟩

theorem main_check_eq (L : Limits) (args : struct_cmd_args) (sent_buffer : List (List Char))
    (f : filter_state)
    (hf : filter_infrequent_words L args.min_count
      (map_count (process_str_sents_in_buffer L reserved_words_map sent_buffer).2)
      (process_str_sents_in_buffer L reserved_words_map sent_buffer).2 = Except.ok f) :
    main_check L args sent_buffer =
      if args.num_classes ≥ f.type_count then Except.error 3
      else if args.num_classes = 0 then
        Except.ok ({ args with num_classes := Nat.sqrt (36 * f.type_count / 25) }, f.type_count)
      else Except.ok (args, f.type_count) := by
  have hmain : main_check L args sent_buffer =
      match filter_infrequent_words L args.min_count
        (map_count (process_str_sents_in_buffer L reserved_words_map sent_buffer).2)
        (process_str_sents_in_buffer L reserved_words_map sent_buffer).2 with
      | Except.error e => Except.error e
      | Except.ok f =>
        match main_num_classes args.num_classes f.type_count with
        | Except.error e => Except.error e
        | Except.ok num_classes =>
          Except.ok ({ args with num_classes := num_classes }, f.type_count) := rfl
  rw [hmain, hf]
  simp only [main_num_classes]
  by_cases h1 : args.num_classes ≥ f.type_count
  · rw [if_pos h1, if_pos h1]
  · rw [if_neg h1, if_neg h1]
    by_cases h2 : args.num_classes = 0
    · rw [if_pos h2, if_pos h2]
    · rw [if_neg h2, if_neg h2]

/-- C23: `main` gets past the filter with a vocabulary size `V ≥ 1`, and at the check of the
number of classes it stops with `exit(3)` if and only if `cmd_args.num_classes ≥ V`; it
stops with no other code there, and a number of classes that is not set (0) never stops
it. -/
theorem main_check_exit_3 (L : Limits) (args : struct_cmd_args)
    (sent_buffer : List (List Char)) (hM : 5 < L.MAX_WORD_LEN) :
    ∃ f, filter_infrequent_words L args.min_count
        (map_count (process_str_sents_in_buffer L reserved_words_map sent_buffer).2)
        (process_str_sents_in_buffer L reserved_words_map sent_buffer).2 = Except.ok f ∧
      1 ≤ f.type_count ∧
      (main_check L args sent_buffer = Except.error 3 ↔ args.num_classes ≥ f.type_count) ∧
      (∀ e, main_check L args sent_buffer = Except.error e → e = 3) ∧
      (args.num_classes = 0 → ∃ r, main_check L args sent_buffer = Except.ok r) := by
  obtain ⟨f, hf, hpos⟩ := filter_type_count_pos L args.min_count sent_buffer hM
  refine ⟨f, hf, hpos, ?_, ?_, ?_⟩
  · rw [main_check_eq L args sent_buffer f hf]
    by_cases h1 : args.num_classes ≥ f.type_count
    · rw [if_pos h1]
      exact ⟨fun _ => h1, fun _ => rfl⟩
    · rw [if_neg h1]
      refine ⟨fun h => ?_, fun h => absurd h h1⟩
      by_cases h2 : args.num_classes = 0
      · rw [if_pos h2] at h
        cases h
      · rw [if_neg h2] at h
        cases h
  · intro e he
    rw [main_check_eq L args sent_buffer f hf] at he
    by_cases h1 : args.num_classes ≥ f.type_count
    · rw [if_pos h1] at he
      cases he
      rfl
    · rw [if_neg h1] at he
      by_cases h2 : args.num_classes = 0
      · rw [if_pos h2] at he
        cases he
      · rw [if_neg h2] at he
        cases he
  · intro h0
    rw [main_check_eq L args sent_buffer f hf]
    have h1 : ¬ args.num_classes ≥ f.type_count := by omega
    rw [if_neg h1, if_pos h0]
    exact ⟨_, rfl⟩

theorem main_check_exit_3_witness :
    5 < example_limits.MAX_WORD_LEN ∧
    ∃ f, filter_infrequent_words example_limits
        ({ cmd_args with num_classes := 6, min_count := 2 } : struct_cmd_args).min_count
        (map_count (process_str_sents_in_buffer example_limits reserved_words_map
          example_buffer).2)
        (process_str_sents_in_buffer example_limits reserved_words_map example_buffer).2 =
          Except.ok f ∧
      1 ≤ f.type_count ∧
      (main_check example_limits { cmd_args with num_classes := 6, min_count := 2 }
          example_buffer = Except.error 3 ↔
        ({ cmd_args with num_classes := 6, min_count := 2 } : struct_cmd_args).num_classes ≥
          f.type_count) ∧
      (∀ e, main_check example_limits { cmd_args with num_classes := 6, min_count := 2 }
          example_buffer = Except.error e → e = 3) ∧
      (({ cmd_args with num_classes := 6, min_count := 2 } : struct_cmd_args).num_classes = 0 →
        ∃ r, main_check example_limits { cmd_args with num_classes := 6, min_count := 2 }
          example_buffer = Except.ok r) :=
  ⟨by decide, main_check_exit_3 example_limits { cmd_args with num_classes := 6, min_count := 2 }
    example_buffer (by decide)⟩

/-- C24, evaluated on the one-line input `x` with the defaults (`min_count = 3`, number of
classes not set): the vocabulary after the filter is `<unk>` alone, `V = 1`, the check
passes because `0 < 1`, and the default `⌊1.2·√1⌋ = 1` is the number of classes `main` goes
on with, so `K = V` and `K < V` fails. -/
theorem main_check_default_num_classes :
    main_check example_limits cmd_args ["x\n".toList] =
      Except.ok ({ cmd_args with num_classes := 1 }, 1) ∧
    main_num_classes 0 1 = Except.ok 1 ∧
    ¬ (0 < 1 ∧ 1 < 1) := by
  have h : Nat.sqrt (36 * 1 / 25) = 1 := by
    rw [show 36 * 1 / 25 = 1 from rfl, Nat.sqrt_one]
  refine ⟨?_, ?_, by decide⟩
  · rw [main_check_eq example_limits cmd_args ["x\n".toList] ⟨3, 1, [⟨UNKNOWN_WORD, 3, 0⟩]⟩ rfl]
    simp only [h]
    rfl
  · simp only [main_num_classes, h]
    rfl

theorem main_num_classes_lt (num_classes V K : Nat) (hV : 2 ≤ V)
    (h : main_num_classes num_classes V = Except.ok K) : 0 < K ∧ K < V := by
  unfold main_num_classes at h
  by_cases h1 : num_classes ≥ V
  · rw [if_pos h1] at h
    cases h
  · rw [if_neg h1] at h
    by_cases h2 : num_classes = 0
    · rw [if_pos h2] at h
      cases h
      constructor
      · apply Nat.sqrt_pos.mpr
        omega
      · rw [Nat.sqrt_lt]
        have h4 : 2 * V ≤ V * V := Nat.mul_le_mul_right V hV
        omega
    · rw [if_neg h2] at h
      cases h
      omega

/-- C21 as amended: `query_int_sents_in_store` returns the same scores with
`unidirectional = true` as with `unidirectional = false`; at every position the weight of
the future bigram is `0.10`, in the normalizer whenever `i < L - 1`, and the weight of the
future trigram is `0.33`, in the normalizer whenever `max_array > 2` and `i < L - 2`. -/
theorem query_int_sents_in_store_unidirectional (args : struct_cmd_args) (token_count : Nat)
    (sent_store_int : List (List Nat)) (word_counts word2class : List Nat)
    (count_arrays : List (List Nat)) (temp_word temp_class : Nat) (sent : List Nat)
    (class_sent : Nat → Nat) (i : Nat) :
    query_int_sents_in_store_cmd_args { args with unidirectional := true } token_count
        sent_store_int word_counts word2class count_arrays temp_word temp_class =
      query_int_sents_in_store_cmd_args { args with unidirectional := false } token_count
        sent_store_int word_counts word2class count_arrays temp_word temp_class ∧
    (query_position args.max_array args.num_classes token_count word_counts count_arrays sent
      class_sent i).weights_class.getD 3 0 = 1 / 10 ∧
    (query_position args.max_array args.num_classes token_count word_counts count_arrays sent
      class_sent i).weights_class.getD 4 0 =
        (if 2 < args.max_array ∧ i < sent.length - 2 then 33 / 100 else 0) ∧
    (query_position args.max_array args.num_classes token_count word_counts count_arrays sent
      class_sent i).sum_weights =
        1 / 100 + (if 2 < args.max_array ∧ 1 < i then 4 / 10 else 0) + 16 / 100 +
          (if i < sent.length - 1 then 1 / 10 else 0) +
          (if 2 < args.max_array ∧ i < sent.length - 2 then 33 / 100 else 0) := by
  refine ⟨rfl, ?_, ?_, query_position_sum_weights _ _ _ _ _ _ _ _⟩
  · rw [query_position_weights_class]
    rfl
  · rw [query_position_weights_class]
    rfl

/-- C21, counterexample: on the one-line corpus `x` (`min_count = 1`, two classes, count
arrays tallied under the `init_clusters` assignment) with `--unidirectional` given, the
score of position 1 of the sentence `<s> x </s>` has the future bigram in it: its weight is
`0.10`, not zero, its probability is `1`, the normalizer is `0.01 + 0.16 + 0.10 = 0.27` and
the weighted sum is `0.01 · 2/3 + 0.16 · 1/2 + 0.10 · 1`. -/
theorem query_int_sents_in_store_unidirectional_counterexample :
    (parse_cmd_args_unidirectional { cmd_args with num_classes := 2 }).unidirectional = true ∧
    query_int_sents_in_store_cmd_args
        (parse_cmd_args_unidirectional { cmd_args with num_classes := 2 }) 3 [[0, 2, 1]]
        [1, 1, 1, 0] [0, 1, 0, 1] [[2, 1], [1, 1, 0, 0], [0, 1, 0, 0, 0, 0, 0, 0]] 4 0 =
      Except.ok [[
        query_position 3 2 3 [1, 1, 1, 0] [[2, 1], [1, 1, 0, 0], [0, 1, 0, 0, 0, 0, 0, 0]]
          [0, 2, 1] (query_class_sent [0, 1, 0, 1] [0, 2, 1] 4 0) 1,
        query_position 3 2 3 [1, 1, 1, 0] [[2, 1], [1, 1, 0, 0], [0, 1, 0, 0, 0, 0, 0, 0]]
          [0, 2, 1] (query_class_sent [0, 1, 0, 1] [0, 2, 1] 4 0) 2]] ∧
    (query_position 3 2 3 [1, 1, 1, 0] [[2, 1], [1, 1, 0, 0], [0, 1, 0, 0, 0, 0, 0, 0]]
      [0, 2, 1] (query_class_sent [0, 1, 0, 1] [0, 2, 1] 4 0) 1).weights_class.getD 3 0 =
        1 / 10 ∧
    (query_position 3 2 3 [1, 1, 1, 0] [[2, 1], [1, 1, 0, 0], [0, 1, 0, 0, 0, 0, 0, 0]]
      [0, 2, 1] (query_class_sent [0, 1, 0, 1] [0, 2, 1] 4 0) 1).order_probs.getD 3 fval.nan =
        fval.rat 1 ∧
    (query_position 3 2 3 [1, 1, 1, 0] [[2, 1], [1, 1, 0, 0], [0, 1, 0, 0, 0, 0, 0, 0]]
      [0, 2, 1] (query_class_sent [0, 1, 0, 1] [0, 2, 1] 4 0) 1).sum_weights = 27 / 100 ∧
    (query_position 3 2 3 [1, 1, 1, 0] [[2, 1], [1, 1, 0, 0], [0, 1, 0, 0, 0, 0, 0, 0]]
      [0, 2, 1] (query_class_sent [0, 1, 0, 1] [0, 2, 1] 4 0) 1).sum_probs =
        fval.rat (1 / 100 * (2 / 3) + 16 / 100 * (1 / 2) + 1 / 10 * 1) ∧
    (query_position 3 2 3 [1, 1, 1, 0] [[2, 1], [1, 1, 0, 0], [0, 1, 0, 0, 0, 0, 0, 0]]
      [0, 2, 1] (query_class_sent [0, 1, 0, 1] [0, 2, 1] 4 0) 1).sum_weights ≠
        1 / 100 + 16 / 100 := by
  have hsw : (query_position 3 2 3 [1, 1, 1, 0]
      [[2, 1], [1, 1, 0, 0], [0, 1, 0, 0, 0, 0, 0, 0]] [0, 2, 1]
      (query_class_sent [0, 1, 0, 1] [0, 2, 1] 4 0) 1).sum_weights = 27 / 100 := by
    rw [query_position_sum_weights]
    norm_num
  refine ⟨rfl, rfl, ?_, ?_, hsw, ?_, ?_⟩
  · rw [query_position_weights_class]
    rfl
  · rw [query_position_future_bigram _ _ _ _ _ _ _ _ (by decide)]
    have := of_counts_eq
      (count_at [[2, 1], [1, 1, 0, 0], [0, 1, 0, 0, 0, 0, 0, 0]] 1 (array_offset
        (slice (query_class_sent [0, 1, 0, 1] [0, 2, 1] 4 0) 1 2) 2 2))
      (count_at [[2, 1], [1, 1, 0, 0], [0, 1, 0, 0, 0, 0, 0, 0]] 0 (array_offset
        (slice (query_class_sent [0, 1, 0, 1] [0, 2, 1] 4 0) (1 + 1) 1) 1 2))
      1 1 (by decide) (by decide) (by decide)
    rw [this]
    norm_num
  · rw [query_position_sum_probs]
    have h1 := of_counts_eq
      (count_at [[2, 1], [1, 1, 0, 0], [0, 1, 0, 0, 0, 0, 0, 0]] 0
        (query_class_sent [0, 1, 0, 1] [0, 2, 1] 4 0 1)) 3
      2 3 (by decide) (by decide) (by decide)
    have h2 := of_counts_eq
      (count_at [[2, 1], [1, 1, 0, 0], [0, 1, 0, 0, 0, 0, 0, 0]] 1 (array_offset
        (slice (query_class_sent [0, 1, 0, 1] [0, 2, 1] 4 0) (1 - 1) 2) 2 2))
      (count_at [[2, 1], [1, 1, 0, 0], [0, 1, 0, 0, 0, 0, 0, 0]] 0 (array_offset
        (slice (query_class_sent [0, 1, 0, 1] [0, 2, 1] 4 0) 1 1) 1 2))
      1 2 (by decide) (by decide) (by decide)
    have h3 := of_counts_eq
      (count_at [[2, 1], [1, 1, 0, 0], [0, 1, 0, 0, 0, 0, 0, 0]] 1 (array_offset
        (slice (query_class_sent [0, 1, 0, 1] [0, 2, 1] 4 0) 1 2) 2 2))
      (count_at [[2, 1], [1, 1, 0, 0], [0, 1, 0, 0, 0, 0, 0, 0]] 0 (array_offset
        (slice (query_class_sent [0, 1, 0, 1] [0, 2, 1] 4 0) (1 + 1) 1) 1 2))
      1 1 (by decide) (by decide) (by decide)
    have c0 : ¬ (2 < 3 ∧ 1 < 1) := by decide
    have c3 : 1 < [0, 2, 1].length - 1 := by decide
    have c4 : ¬ (2 < 3 ∧ 1 < [0, 2, 1].length - 2) := by decide
    simp only [if_neg c0, if_pos c3, if_neg c4, h1, h2, h3, scale_rat, add_rat]
    norm_num
  · rw [hsw]
    norm_num

theorem main_build_structures_eq (MAX_WORD_PREDECESSORS : Nat) (args : struct_cmd_args)
    (type_count : Nat) (sent_store_int : List (List Nat)) (word2class : List Nat)
    (calloc_rev_ok : Bool) :
    main_build_structures MAX_WORD_PREDECESSORS args type_count sent_store_int word2class
        true calloc_rev_ok =
      Except.ok
        { word_bigrams := set_bigram_counts MAX_WORD_PREDECESSORS
            (List.replicate type_count ⟨0, [], []⟩) sent_store_int false
          word_bigrams_rev :=
            if args.rev_alternate ≠ 0 then
              some (set_bigram_counts MAX_WORD_PREDECESSORS
                (List.replicate type_count ⟨0, [], []⟩) sent_store_int true)
            else none
          word_class_counts := build_word_class_counts args.num_classes
            (List.replicate (1 + args.num_classes * type_count) 0) word2class sent_store_int
            false
          word_class_rev_counts :=
            if args.rev_alternate ≠ 0 ∧ calloc_rev_ok = true then
              some (build_word_class_counts args.num_classes
                (List.replicate (1 + args.num_classes * type_count) 0) word2class
                sent_store_int true)
            else none
          rev_alternate :=
            if args.rev_alternate ≠ 0 ∧ calloc_rev_ok = false then 0 else args.rev_alternate } := by
  unfold main_build_structures
  by_cases h : args.rev_alternate ≠ 0
  · cases calloc_rev_ok <;> simp [h]
  · simp [h]

/-- C22 as amended: when the matrix `word_class_counts` is allocated, `main` builds the
reverse bigram list exactly when `rev_alternate` is not 0, and the reverse word-class matrix
exactly when `rev_alternate` is not 0 and its allocation succeeds; both stay absent for
`rev_alternate = 0`, and `unidirectional` has no part in it. -/
theorem main_build_structures_spec (MAX_WORD_PREDECESSORS : Nat) (args : struct_cmd_args)
    (type_count : Nat) (sent_store_int : List (List Nat)) (word2class : List Nat)
    (calloc_rev_ok : Bool) :
    ∃ r, main_build_structures MAX_WORD_PREDECESSORS args type_count sent_store_int word2class
        true calloc_rev_ok = Except.ok r ∧
      r.word_bigrams_rev =
        (if args.rev_alternate ≠ 0 then
          some (set_bigram_counts MAX_WORD_PREDECESSORS
            (List.replicate type_count ⟨0, [], []⟩) sent_store_int true)
        else none) ∧
      r.word_class_rev_counts =
        (if args.rev_alternate ≠ 0 ∧ calloc_rev_ok = true then
          some (build_word_class_counts args.num_classes
            (List.replicate (1 + args.num_classes * type_count) 0) word2class
            sent_store_int true)
        else none) ∧
      (r.word_bigrams_rev = none ↔ args.rev_alternate = 0) ∧
      (r.word_class_rev_counts = none ↔ (args.rev_alternate = 0 ∨ calloc_rev_ok = false)) ∧
      main_build_structures MAX_WORD_PREDECESSORS { args with unidirectional := true }
          type_count sent_store_int word2class true calloc_rev_ok = Except.ok r ∧
      main_build_structures MAX_WORD_PREDECESSORS { args with unidirectional := false }
          type_count sent_store_int word2class true calloc_rev_ok = Except.ok r := by
  refine ⟨_, main_build_structures_eq _ _ _ _ _ _, rfl, rfl, ?_, ?_,
    main_build_structures_eq _ _ _ _ _ _, main_build_structures_eq _ _ _ _ _ _⟩
  · by_cases h : args.rev_alternate ≠ 0
    · simp [h]
    · simp [not_not.mp h]
  · by_cases h : args.rev_alternate ≠ 0
    · cases calloc_rev_ok <;> simp [h]
    · simp [not_not.mp h]

/-- C22, counterexample: with `--unidirectional` given and `rev_alternate` at its default 3,
on the corpus `[[0, 2, 1]]` with 4 words and 2 classes, `main` allocates and builds both
reverse structures: `word_bigrams_rev` is not null and `word_class_rev_counts` is the
reverse word-class matrix. -/
theorem main_build_structures_counterexample :
    (parse_cmd_args_unidirectional { cmd_args with num_classes := 2 }).unidirectional = true ∧
    (parse_cmd_args_unidirectional { cmd_args with num_classes := 2 }).rev_alternate = 3 ∧
    ∃ r, main_build_structures 10
        (parse_cmd_args_unidirectional { cmd_args with num_classes := 2 }) 4 [[0, 2, 1]]
        [0, 1, 0, 1] true true = Except.ok r ∧
      r.word_bigrams_rev.isSome = true ∧
      r.word_class_rev_counts = some [0, 0, 1, 0, 1, 0, 0, 0, 0] ∧
      ¬ (r.word_bigrams_rev = none ∧ r.word_class_rev_counts = none) :=
  ⟨rfl, rfl, _, rfl, rfl, by decide, by decide⟩

/-! ### Symmetry of the word-class matrix: claim C26 -/

theorem incr_comm (a : List Nat) (i j : Nat) : incr (incr a i) j = incr (incr a j) i := by
  by_cases h : i = j
  · subst h; rfl
  · unfold incr
    have h1 : (a.set i (a.getD i 0 + 1)).getD j 0 = a.getD j 0 := by
      simp [List.getD_eq_getElem?_getD, List.getElem?_set, h]
    have h2 : (a.set j (a.getD j 0 + 1)).getD i 0 = a.getD i 0 := by
      simp [List.getD_eq_getElem?_getD, List.getElem?_set, Ne.symm h]
    rw [h1, h2]
    exact List.set_comm _ _ _ h

theorem getD_of_reverse_eq (sent : List Nat) (h : sent.reverse = sent) (k : Nat)
    (hk : k < sent.length) : sent.getD (sent.length - 1 - k) 0 = sent.getD k 0 := by
  have h1 : sent.length - 1 - k < sent.length := by omega
  have h2 := List.getElem_reverse (l := sent) (i := k) (by simpa using hk)
  rw [List.getD_eq_getElem _ _ h1, List.getD_eq_getElem _ _ hk, ← h2]
  simp only [h]

theorem wc_index_palindrome (K : Nat) (cls sent : List Nat) (h : sent.reverse = sent) :
    (List.range' 1 (sent.length - 1)).map (wc_index K cls false sent) =
      ((List.range' 1 (sent.length - 1)).map (wc_index K cls true sent)).reverse := by
  apply List.ext_getElem
  · simp
  · intro n h1 h2
    simp only [List.length_map, List.length_range'] at h1
    rw [List.getElem_reverse]
    simp only [List.getElem_map, List.getElem_range', List.length_map, List.length_range',
      wc_index, Bool.false_eq_true, if_false, if_true, Nat.one_mul]
    have e1 : 1 + n - 1 = n := by omega
    have e2 : 1 + (sent.length - 1 - 1 - n) = sent.length - 1 - n := by omega
    have e3 : sent.length - 1 - n - 1 = sent.length - 1 - (n + 1) := by omega
    rw [e1, e2, e3, getD_of_reverse_eq sent h n (by omega),
      getD_of_reverse_eq sent h (n + 1) (by omega), Nat.add_comm 1 n]

/-- C26: for a corpus in which every sentence equals its own reverse, every class
assignment and every initial contents of the array, `build_word_class_counts` leaves the
same matrix in the forward and in the reverse direction; in particular the entries
`(u, c)` agree for every word `u` and class `c`. -/
theorem build_word_class_counts_palindrome (K : Nat) (word_class_counts word2class : List Nat)
    (corpus : List (List Nat)) (hpal : ∀ sent ∈ corpus, sent.reverse = sent) :
    build_word_class_counts K word_class_counts word2class corpus false =
      build_word_class_counts K word_class_counts word2class corpus true ∧
    ∀ u c, (build_word_class_counts K word_class_counts word2class corpus false).getD
        (u * K + c) 0 =
      (build_word_class_counts K word_class_counts word2class corpus true).getD
        (u * K + c) 0 := by
  have heq : build_word_class_counts K word_class_counts word2class corpus false =
      build_word_class_counts K word_class_counts word2class corpus true := by
    rw [build_word_class_counts_eq_foldl, build_word_class_counts_eq_foldl]
    apply List.Perm.foldl_eq'
    · apply List.Perm.flatMap_left
      intro sent hs
      rw [wc_index_palindrome K word2class sent (hpal sent hs)]
      exact List.reverse_perm _
    · intro x _ y _ z
      exact incr_comm z x y
  exact ⟨heq, fun u c => by rw [heq]⟩

theorem build_word_class_counts_palindrome_witness :
    (∀ sent ∈ [[0, 2, 3, 2, 0], [1, 1]], sent.reverse = sent) ∧
    build_word_class_counts 2 (List.replicate 9 0) [0, 1, 0, 1] [[0, 2, 3, 2, 0], [1, 1]]
        false =
      build_word_class_counts 2 (List.replicate 9 0) [0, 1, 0, 1] [[0, 2, 3, 2, 0], [1, 1]]
        true :=
  ⟨by decide,
    (build_word_class_counts_palindrome 2 (List.replicate 9 0) [0, 1, 0, 1]
      [[0, 2, 3, 2, 0], [1, 1]] (by decide)).1⟩

/-! ### Tally with a tentative class: claim C27 -/

theorem incr_count_comm (A : List (List Nat)) (n o m k : Nat) :
    incr_count (incr_count A n o) m k = incr_count (incr_count A m k) n o := by
  unfold incr_count
  by_cases h : n = m
  · subst h
    by_cases hn : n < A.length
    · have e1 : ∀ x : List Nat, (A.set n x).getD n [] = x := by
        intro x
        simp [List.getD_eq_getElem?_getD, List.getElem?_set, hn]
      rw [e1, e1, List.set_set, List.set_set, incr_comm]
    · have e1 : ∀ x : List Nat, A.set n x = A := by
        intro x
        exact List.set_eq_of_length_le (by omega)
      simp only [e1]
  · have e1 : ∀ x : List Nat, (A.set n x).getD m [] = A.getD m [] := by
      intro x
      simp [List.getD_eq_getElem?_getD, List.getElem?_set, h]
    have e2 : ∀ x : List Nat, (A.set m x).getD n [] = A.getD n [] := by
      intro x
      simp [List.getD_eq_getElem?_getD, List.getElem?_set, Ne.symm h]
    rw [e1, e2]
    exact List.set_comm _ _ _ h

theorem slice_congr (f g : Nat → Nat) (start n : Nat)
    (h : ∀ j, start ≤ j → j < start + n → f j = g j) : slice f start n = slice g start n := by
  unfold slice
  apply List.map_congr_left
  intro j hj
  have := List.mem_range.mp hj
  exact h _ (by omega) (by omega)

theorem tally_int_sents_in_store_step_eq (CLASSLEN K : Nat) (word2class sent : List Nat)
    (temp_word temp_class : Nat) (st : (Nat → Nat) × List (List Nat)) (i : Nat)
    (hst : ∀ j, j < i → st.1 j = query_class_sent word2class sent temp_word temp_class j) :
    (∀ j, j < i + 1 →
      (tally_int_sents_in_store_step CLASSLEN K word2class sent temp_word temp_class st i).1 j =
        query_class_sent word2class sent temp_word temp_class j) ∧
    (tally_int_sents_in_store_step CLASSLEN K word2class sent temp_word temp_class st i).2 =
      (tally_int_events CLASSLEN K
        (query_class_sent word2class sent temp_word temp_class) i).foldl
        (fun A e => incr_count A e.1 e.2) st.2 := by
  have hbuf : ∀ j, j < i + 1 →
      (fun j => if j = i then
          (if sent.getD i 0 = temp_word then temp_class else word2class.getD (sent.getD i 0) 0)
        else st.1 j) j =
        query_class_sent word2class sent temp_word temp_class j := by
    intro j hj
    by_cases h : j = i
    · simp only [h, if_true]
      rfl
    · simp only [h, if_false]
      exact hst j (by omega)
  refine ⟨hbuf, ?_⟩
  unfold tally_int_sents_in_store_step increment_ngram_fixed_width tally_int_events
  simp only []
  rw [List.foldl_map]
  apply List.foldl_ext
  intro A n hn
  simp only []
  have hn1 : 1 ≤ n ∧ n ≤ i + 1 := by
    obtain ⟨k, hk1, hk⟩ := List.mem_map.mp (List.mem_reverse.mp hn)
    have h1 := List.mem_range.mp hk1
    have h2 := Nat.mod_le (i - (if i ≥ CLASSLEN - 1 then i - (CLASSLEN - 1) else 0) + 1) 256
    omega
  rw [slice_congr _ (query_class_sent word2class sent temp_word temp_class) (i + 1 - n) n
    (fun j _ h2 => hbuf j (by omega))]

theorem tally_int_sents_in_store_inner (CLASSLEN K : Nat) (word2class sent : List Nat)
    (temp_word temp_class : Nat) (m : Nat) (st : (Nat → Nat) × List (List Nat)) :
    (∀ j, j < m →
      ((List.range m).foldl
        (tally_int_sents_in_store_step CLASSLEN K word2class sent temp_word temp_class) st).1 j =
        query_class_sent word2class sent temp_word temp_class j) ∧
    ((List.range m).foldl
      (tally_int_sents_in_store_step CLASSLEN K word2class sent temp_word temp_class) st).2 =
      ((List.range m).flatMap
        (tally_int_events CLASSLEN K
          (query_class_sent word2class sent temp_word temp_class))).foldl
        (fun A e => incr_count A e.1 e.2) st.2 := by
  induction m with
  | zero => exact ⟨fun j hj => absurd hj (Nat.not_lt_zero j), rfl⟩
  | succ k ih =>
    rw [List.range_succ, List.foldl_append, List.foldl_cons, List.foldl_nil]
    have hstep := tally_int_sents_in_store_step_eq CLASSLEN K word2class sent temp_word
      temp_class ((List.range k).foldl
        (tally_int_sents_in_store_step CLASSLEN K word2class sent temp_word temp_class) st) k
      ih.1
    refine ⟨hstep.1, ?_⟩
    rw [hstep.2, ih.2, List.flatMap_def, List.flatMap_def, List.map_append, List.flatten_append,
      List.foldl_append]
    simp

theorem tally_int_sents_in_store_eq_foldl (CLASSLEN K : Nat) (corpus : List (List Nat))
    (word2class : List Nat) (count_arrays : List (List Nat)) (temp_word temp_class : Nat) :
    tally_int_sents_in_store CLASSLEN K corpus word2class count_arrays temp_word temp_class =
      (corpus.flatMap fun sent => (List.range sent.length).flatMap
        (tally_int_events CLASSLEN K
          (query_class_sent word2class sent temp_word temp_class))).foldl
        (fun A e => incr_count A e.1 e.2) count_arrays := by
  unfold tally_int_sents_in_store
  induction corpus generalizing count_arrays with
  | nil => rfl
  | cons s ss ih =>
    rw [List.foldl_cons, ih, (tally_int_sents_in_store_inner CLASSLEN K word2class s temp_word
      temp_class s.length ((fun _ => 0), count_arrays)).2, List.flatMap_cons, List.foldl_append]

theorem tally_int_events_eq (CLASSLEN K : Nat) (cs : Nat → Nat) (i : Nat) (h1 : 1 ≤ CLASSLEN)
    (h3 : CLASSLEN ≤ 3) :
    tally_int_events CLASSLEN K cs i = (tally_events CLASSLEN K cs i).reverse := by
  have hC : CLASSLEN = 1 ∨ CLASSLEN = 2 ∨ CLASSLEN = 3 := by omega
  have r1 : List.range 1 = [0] := rfl
  have r2 : List.range 2 = [0, 1] := rfl
  have r3 : List.range 3 = [0, 1, 2] := rfl
  unfold tally_int_events tally_events
  rcases hC with rfl | rfl | rfl
  · have e : (i - (if i ≥ 1 - 1 then i - (1 - 1) else 0) + 1) % 256 = 1 := by
      rw [if_pos (by omega)]
      have : i - (i - (1 - 1)) + 1 = 1 := by omega
      rw [this]
    rw [e, r1]
    simp [slice_one, array_offset_singleton]
  · by_cases hi : 0 < i
    · have e : (i - (if i ≥ 2 - 1 then i - (2 - 1) else 0) + 1) % 256 = 2 := by
        rw [if_pos (by omega)]
        have : i - (i - (2 - 1)) + 1 = 2 := by omega
        rw [this]
      have e1 : i + 1 - 2 = i - 1 := by omega
      rw [e, r2]
      simp [slice_one, array_offset_singleton, hi, e1]
    · have h0 : i = 0 := by omega
      subst h0
      simp [slice_one, array_offset_singleton, r1]
  · by_cases hi : 1 < i
    · have e : (i - (if i ≥ 3 - 1 then i - (3 - 1) else 0) + 1) % 256 = 3 := by
        rw [if_pos (by omega)]
        have : i - (i - (3 - 1)) + 1 = 3 := by omega
        rw [this]
      have e1 : i + 1 - 2 = i - 1 := by omega
      have e2 : i + 1 - 3 = i - 2 := by omega
      have hi0 : 0 < i := by omega
      rw [e, r3]
      simp [slice_one, array_offset_singleton, hi, hi0, e1, e2]
    · by_cases hi0 : 0 < i
      · have h1 : i = 1 := by omega
        subst h1
        simp [slice_one, array_offset_singleton, r2]
      · have h0 : i = 0 := by omega
        subst h0
        simp [slice_one, array_offset_singleton, r1]

theorem tally_events_congr (max_array K : Nat) (f g : Nat → Nat) (i : Nat)
    (h : ∀ j, j ≤ i → f j = g j) : tally_events max_array K f i = tally_events max_array K g i := by
  unfold tally_events
  rw [h i (Nat.le_refl i)]
  by_cases h1 : 1 < max_array ∧ 0 < i
  · rw [if_pos h1, if_pos h1, slice_congr f g (i - 1) 2 (fun j _ hj => h j (by omega))]
    by_cases h2 : 2 < max_array ∧ 1 < i
    · rw [if_pos h2, if_pos h2, slice_congr f g (i - 2) 3 (fun j _ hj => h j (by omega))]
    · rw [if_neg h2, if_neg h2]
  · rw [if_neg h1, if_neg h1]

theorem tally_int_sents_in_store_eq_class_counts (CLASSLEN K : Nat) (corpus : List (List Nat))
    (word2class cls : List Nat) (count_arrays : List (List Nat)) (temp_word temp_class : Nat)
    (h1 : 1 ≤ CLASSLEN) (h3 : CLASSLEN ≤ 3)
    (hcls : ∀ sent ∈ corpus, ∀ w ∈ sent,
      (if w = temp_word then temp_class else word2class.getD w 0) = cls.getD w 0) :
    tally_int_sents_in_store CLASSLEN K corpus word2class count_arrays temp_word temp_class =
      tally_class_counts_in_store CLASSLEN K corpus cls count_arrays := by
  rw [tally_int_sents_in_store_eq_foldl]
  unfold tally_class_counts_in_store
  rw [tally_class_counts_in_store_eq_foldl]
  apply List.Perm.foldl_eq'
  · apply List.Perm.flatMap_left
    intro sent hs
    apply List.Perm.flatMap_left
    intro i hi
    have hi := List.mem_range.mp hi
    rw [tally_int_events_eq CLASSLEN K _ i h1 h3,
      tally_events_congr CLASSLEN K (query_class_sent word2class sent temp_word temp_class)
        (fun j => cls.getD (sent.getD j 0) 0) i
        (fun j hj => hcls sent hs _ (getD_mem_of_lt sent j (by omega)))]
    exact List.reverse_perm _
  · intro x _ y _ z
    exact incr_count_comm z x.1 x.2 y.1 y.2

/-- C27: for `1 ≤ CLASSLEN ≤ 3` and `max_array = CLASSLEN`, on every corpus, class
assignment and initial contents of the count arrays, `tally_int_sents_in_store` with the
tentative class `temp_class` for `temp_word` leaves the same count arrays as
`tally_class_counts_in_store` run with the assignment `word2class[temp_word := temp_class]`
(for `temp_word` a word id of the assignment), and the same as with the unchanged assignment
when `temp_word` does not occur in the corpus. -/
theorem tally_int_sents_in_store_spec (CLASSLEN K : Nat) (corpus : List (List Nat))
    (word2class : List Nat) (count_arrays : List (List Nat)) (temp_word temp_class : Nat)
    (h1 : 1 ≤ CLASSLEN) (h3 : CLASSLEN ≤ 3) :
    (temp_word < word2class.length →
      tally_int_sents_in_store CLASSLEN K corpus word2class count_arrays temp_word temp_class =
        tally_class_counts_in_store CLASSLEN K corpus (word2class.set temp_word temp_class)
          count_arrays) ∧
    ((∀ sent ∈ corpus, temp_word ∉ sent) →
      tally_int_sents_in_store CLASSLEN K corpus word2class count_arrays temp_word temp_class =
        tally_class_counts_in_store CLASSLEN K corpus word2class count_arrays) := by
  constructor
  · intro htw
    apply tally_int_sents_in_store_eq_class_counts CLASSLEN K corpus word2class _ count_arrays
      temp_word temp_class h1 h3
    intro sent _ w _
    by_cases hw : w = temp_word
    · rw [if_pos hw, hw]
      simp [List.getD_eq_getElem?_getD, List.getElem?_set, htw]
    · rw [if_neg hw]
      simp [List.getD_eq_getElem?_getD, List.getElem?_set, Ne.symm hw]
  · intro hno
    apply tally_int_sents_in_store_eq_class_counts CLASSLEN K corpus word2class _ count_arrays
      temp_word temp_class h1 h3
    intro sent hs w hw
    have hne : w ≠ temp_word := fun h => hno sent hs (h ▸ hw)
    rw [if_neg hne]

theorem tally_int_sents_in_store_spec_witness :
    (1 ≤ 3 ∧ 3 ≤ 3 ∧ 2 < [0, 1, 0, 1, 0, 1, 0].length) ∧
    tally_int_sents_in_store 3 2 [[0, 2, 3, 4, 1], [0, 2, 3, 5, 1]] [0, 1, 0, 1, 0, 1, 0]
        (init_count_arrays 3 2) 2 1 =
      tally_class_counts_in_store 3 2 [[0, 2, 3, 4, 1], [0, 2, 3, 5, 1]]
        ([0, 1, 0, 1, 0, 1, 0].set 2 1) (init_count_arrays 3 2) :=
  ⟨by decide,
    (tally_int_sents_in_store_spec 3 2 [[0, 2, 3, 4, 1], [0, 2, 3, 5, 1]]
      [0, 1, 0, 1, 0, 1, 0] (init_count_arrays 3 2) 2 1 (by decide) (by decide)).1
      (by decide)⟩

/-! ### Counts of the tally at scored positions: claims C28, C29, C30 -/

theorem count_at_tally (max_array K : Nat) (corpus : List (List Nat)) (cls : List Nat)
    (m k : Nat) (hm : m < max_array) (hk : k < K ^ (m + 1)) :
    count_at (tally_class_counts_in_store max_array K corpus cls
        (init_count_arrays max_array K)) m k =
      (corpus_tally_events max_array K corpus cls).count (m, k) := by
  unfold count_at tally_class_counts_in_store corpus_tally_events
  rw [tally_class_counts_in_store_eq_foldl]
  simp only []
  rw [getD_foldl_incr_count _ _ m k (by simpa [init_count_arrays] using hm)
    (by rw [getD_init_count_arrays max_array K m hm, List.length_replicate]; exact hk),
    getD_init_count_arrays max_array K m hm, getD_replicate_zero, Nat.zero_add]

theorem count_corpus_tally_events (max_array K : Nat) (corpus : List (List Nat))
    (cls : List Nat) (e : Nat × Nat) :
    (corpus_tally_events max_array K corpus cls).count e =
      (corpus.map fun sent => ((List.range sent.length).map fun i =>
        (tally_events max_array K (fun j => cls.getD (sent.getD j 0) 0) i).count e).sum).sum := by
  unfold corpus_tally_events
  rw [List.flatMap_def, List.count_flatten, List.map_map]
  congr 1
  apply List.map_congr_left
  intro sent _
  simp only [Function.comp]
  rw [List.flatMap_def, List.count_flatten, List.map_map]
  rfl

theorem count_corpus_tally_events_le (max_array K : Nat) (corpus : List (List Nat))
    (cls : List Nat) (e e' : Nat × Nat)
    (h : ∀ sent ∈ corpus, ∀ i, i < sent.length →
      (tally_events max_array K (fun j => cls.getD (sent.getD j 0) 0) i).count e ≤
        (tally_events max_array K (fun j => cls.getD (sent.getD j 0) 0) i).count e') :
    (corpus_tally_events max_array K corpus cls).count e ≤
      (corpus_tally_events max_array K corpus cls).count e' := by
  rw [count_corpus_tally_events, count_corpus_tally_events]
  apply List.sum_le_sum
  intro sent hs
  apply List.sum_le_sum
  intro i hi
  exact h sent hs i (List.mem_range.mp hi)

theorem mem_corpus_tally_events (max_array K : Nat) (corpus : List (List Nat))
    (cls : List Nat) (sent : List Nat) (hs : sent ∈ corpus) (i : Nat) (hi : i < sent.length)
    (e : Nat × Nat)
    (he : e ∈ tally_events max_array K (fun j => cls.getD (sent.getD j 0) 0) i) :
    1 ≤ (corpus_tally_events max_array K corpus cls).count e := by
  rw [List.one_le_count_iff]
  unfold corpus_tally_events
  rw [List.mem_flatMap]
  refine ⟨sent, hs, ?_⟩
  rw [List.mem_flatMap]
  exact ⟨i, List.mem_range.mpr hi, he⟩

theorem count_tally_events_unigram (max_array K : Nat) (cs : Nat → Nat) (i k : Nat) :
    (tally_events max_array K cs i).count (0, k) = if cs i = k then 1 else 0 := by
  unfold tally_events
  by_cases h1 : 1 < max_array ∧ 0 < i
  · by_cases h2 : 2 < max_array ∧ 1 < i
    · by_cases h : cs i = k <;> simp [h1, h2, h, List.count_cons]
    · by_cases h : cs i = k <;> simp [h1, h2, h, List.count_cons]
  · by_cases h : cs i = k <;> simp [h1, h, List.count_cons]

theorem count_tally_events_bigram (max_array K : Nat) (cs : Nat → Nat) (i k : Nat) :
    (tally_events max_array K cs i).count (1, k) =
      if (1 < max_array ∧ 0 < i) ∧ array_offset [cs (i - 1), cs i] 2 K = k then 1 else 0 := by
  unfold tally_events
  by_cases h1 : 1 < max_array ∧ 0 < i
  · have e : i - 1 + 1 = i := by omega
    by_cases h2 : 2 < max_array ∧ 1 < i
    · by_cases h : array_offset [cs (i - 1), cs i] 2 K = k <;>
        simp [h1, h2, h, List.count_cons, slice_two, e]
    · by_cases h : array_offset [cs (i - 1), cs i] 2 K = k <;>
        simp [h1, h2, h, List.count_cons, slice_two, e]
  · simp [h1, List.count_cons]

theorem count_tally_events_trigram (max_array K : Nat) (cs : Nat → Nat) (i k : Nat) :
    (tally_events max_array K cs i).count (2, k) =
      if (2 < max_array ∧ 1 < i) ∧ array_offset [cs (i - 2), cs (i - 1), cs i] 3 K = k
        then 1 else 0 := by
  unfold tally_events
  by_cases h2 : 2 < max_array ∧ 1 < i
  · have h1 : 1 < max_array ∧ 0 < i := ⟨by omega, by omega⟩
    have e1 : i - 2 + 1 = i - 1 := by omega
    have e2 : i - 2 + 2 = i := by omega
    by_cases h : array_offset [cs (i - 2), cs (i - 1), cs i] 3 K = k <;>
      simp [h1, h2, h, List.count_cons, slice_three, e1, e2]
  · by_cases h1 : 1 < max_array ∧ 0 < i
    · simp [h1, h2, List.count_cons]
    · simp [h1, h2, List.count_cons]

theorem count_eq_sum_range (l : List Nat) (w : Nat) :
    l.count w = ((List.range l.length).map fun i => if l.getD i 0 = w then 1 else 0).sum := by
  induction l using List.reverseRecOn with
  | nil => rfl
  | append_singleton l x ih =>
    rw [List.count_append, List.length_append, List.length_singleton, List.range_succ,
      List.map_append, List.sum_append, ih]
    congr 1
    · congr 1
      apply List.map_congr_left
      intro i hi
      have hi := List.mem_range.mp hi
      simp only [List.getD_eq_getElem?_getD, List.getElem?_append_left hi]
    · have hx : (l ++ [x]).getD l.length 0 = x := by simp [List.getD_eq_getElem?_getD]
      simp only [List.map_cons, List.map_nil, List.sum_cons, List.sum_nil, hx]
      by_cases h : x = w
      · simp [h]
      · rw [List.count_singleton]
        simp [h]

theorem cs_lt (K : Nat) (cls sent : List Nat) (hcls : ∀ w ∈ sent, cls.getD w 0 < K) (j : Nat)
    (hj : j < sent.length) : cls.getD (sent.getD j 0) 0 < K :=
  hcls _ (getD_mem_of_lt sent j hj)

theorem array_offset_pair_lt (K a b : Nat) (ha : a < K) (hb : b < K) :
    array_offset [a, b] 2 K < K ^ (1 + 1) := by
  have := array_offset_lt K [a, b] (by
    intro x hx
    simp only [List.mem_cons, List.mem_singleton, List.not_mem_nil, or_false] at hx
    rcases hx with rfl | rfl
    · exact ha
    · exact hb)
  exact this

theorem array_offset_triple_lt (K a b c : Nat) (ha : a < K) (hb : b < K) (hc : c < K) :
    array_offset [a, b, c] 3 K < K ^ (2 + 1) := by
  have := array_offset_lt K [a, b, c] (by
    intro x hx
    simp only [List.mem_cons, List.mem_singleton, List.not_mem_nil, or_false] at hx
    rcases hx with rfl | rfl | rfl
    · exact ha
    · exact hb
    · exact hc)
  exact this

theorem array_offset_pair_inj (K a b x y : Nat) (ha : a < K) (hb : b < K) (hx : x < K)
    (hy : y < K) (h : array_offset [x, y] 2 K = array_offset [a, b] 2 K) : x = a ∧ y = b := by
  have := array_offset_injective K [x, y] [a, b] rfl
    (by
      intro z hz
      simp only [List.mem_cons, List.mem_singleton, List.not_mem_nil, or_false] at hz
      rcases hz with rfl | rfl
      · exact hx
      · exact hy)
    (by
      intro z hz
      simp only [List.mem_cons, List.mem_singleton, List.not_mem_nil, or_false] at hz
      rcases hz with rfl | rfl
      · exact ha
      · exact hb) h
  simpa using this

theorem array_offset_triple_inj (K a b c x y z : Nat) (ha : a < K) (hb : b < K) (hc : c < K)
    (hx : x < K) (hy : y < K) (hz : z < K)
    (h : array_offset [x, y, z] 3 K = array_offset [a, b, c] 3 K) : x = a ∧ y = b ∧ z = c := by
  have := array_offset_injective K [x, y, z] [a, b, c] rfl
    (by
      intro u hu
      simp only [List.mem_cons, List.mem_singleton, List.not_mem_nil, or_false] at hu
      rcases hu with rfl | rfl | rfl
      · exact hx
      · exact hy
      · exact hz)
    (by
      intro u hu
      simp only [List.mem_cons, List.mem_singleton, List.not_mem_nil, or_false] at hu
      rcases hu with rfl | rfl | rfl
      · exact ha
      · exact hb
      · exact hc) h
  simpa using this

theorem tally_unigram_pos (max_array K : Nat) (corpus : List (List Nat)) (cls : List Nat)
    (hmax : 1 ≤ max_array) (hcls : ∀ s ∈ corpus, ∀ w ∈ s, cls.getD w 0 < K)
    (sent : List Nat) (hs : sent ∈ corpus) (i : Nat) (hi : i < sent.length) :
    1 ≤ count_at (tally_class_counts_in_store max_array K corpus cls
      (init_count_arrays max_array K)) 0 (cls.getD (sent.getD i 0) 0) := by
  rw [count_at_tally max_array K corpus cls 0 _ (by omega)
    (by simpa using cs_lt K cls sent (hcls sent hs) i hi)]
  apply mem_corpus_tally_events max_array K corpus cls sent hs i hi
  unfold tally_events
  exact List.mem_cons_self _ _

theorem tally_bigram_pos (max_array K : Nat) (corpus : List (List Nat)) (cls : List Nat)
    (hmax : 2 ≤ max_array) (hcls : ∀ s ∈ corpus, ∀ w ∈ s, cls.getD w 0 < K)
    (sent : List Nat) (hs : sent ∈ corpus) (i : Nat) (hi1 : 1 ≤ i) (hi : i < sent.length) :
    1 ≤ count_at (tally_class_counts_in_store max_array K corpus cls
      (init_count_arrays max_array K)) 1
      (array_offset [cls.getD (sent.getD (i - 1) 0) 0, cls.getD (sent.getD i 0) 0] 2 K) := by
  rw [count_at_tally max_array K corpus cls 1 _ (by omega)
    (array_offset_pair_lt K _ _ (cs_lt K cls sent (hcls sent hs) (i - 1) (by omega))
      (cs_lt K cls sent (hcls sent hs) i hi))]
  apply mem_corpus_tally_events max_array K corpus cls sent hs i hi
  rw [← List.one_le_count_iff, count_tally_events_bigram]
  rw [if_pos ⟨⟨by omega, by omega⟩, rfl⟩]

theorem tally_bigram_le_unigram (max_array K : Nat) (corpus : List (List Nat)) (cls : List Nat)
    (hmax : 2 ≤ max_array) (hcls : ∀ s ∈ corpus, ∀ w ∈ s, cls.getD w 0 < K)
    (a b : Nat) (ha : a < K) (hb : b < K) :
    count_at (tally_class_counts_in_store max_array K corpus cls
        (init_count_arrays max_array K)) 1 (array_offset [a, b] 2 K) ≤
      count_at (tally_class_counts_in_store max_array K corpus cls
        (init_count_arrays max_array K)) 0 b := by
  rw [count_at_tally max_array K corpus cls 1 _ (by omega) (array_offset_pair_lt K a b ha hb),
    count_at_tally max_array K corpus cls 0 _ (by omega) (by simpa using hb)]
  apply count_corpus_tally_events_le
  intro sent hs i hi
  rw [count_tally_events_bigram, count_tally_events_unigram]
  by_cases h : (1 < max_array ∧ 0 < i) ∧
      array_offset [cls.getD (sent.getD (i - 1) 0) 0, cls.getD (sent.getD i 0) 0] 2 K =
        array_offset [a, b] 2 K
  · have := array_offset_pair_inj K a b _ _ ha hb
      (cs_lt K cls sent (hcls sent hs) (i - 1) (by omega)) (cs_lt K cls sent (hcls sent hs) i hi)
      h.2
    rw [if_pos h, if_pos this.2]
  · rw [if_neg h]
    exact Nat.zero_le _

theorem tally_trigram_le_bigram (max_array K : Nat) (corpus : List (List Nat)) (cls : List Nat)
    (hmax : 3 ≤ max_array) (hcls : ∀ s ∈ corpus, ∀ w ∈ s, cls.getD w 0 < K)
    (a b c : Nat) (ha : a < K) (hb : b < K) (hc : c < K) :
    count_at (tally_class_counts_in_store max_array K corpus cls
        (init_count_arrays max_array K)) 2 (array_offset [a, b, c] 3 K) ≤
      count_at (tally_class_counts_in_store max_array K corpus cls
        (init_count_arrays max_array K)) 1 (array_offset [b, c] 2 K) := by
  rw [count_at_tally max_array K corpus cls 2 _ (by omega)
      (array_offset_triple_lt K a b c ha hb hc),
    count_at_tally max_array K corpus cls 1 _ (by omega) (array_offset_pair_lt K b c hb hc)]
  apply count_corpus_tally_events_le
  intro sent hs i hi
  rw [count_tally_events_trigram, count_tally_events_bigram]
  by_cases h : (2 < max_array ∧ 1 < i) ∧
      array_offset [cls.getD (sent.getD (i - 2) 0) 0, cls.getD (sent.getD (i - 1) 0) 0,
        cls.getD (sent.getD i 0) 0] 3 K = array_offset [a, b, c] 3 K
  · have := array_offset_triple_inj K a b c _ _ _ ha hb hc
      (cs_lt K cls sent (hcls sent hs) (i - 2) (by omega))
      (cs_lt K cls sent (hcls sent hs) (i - 1) (by omega))
      (cs_lt K cls sent (hcls sent hs) i hi) h.2
    rw [if_pos h, if_pos ⟨⟨by omega, by omega⟩, by rw [this.2.1, this.2.2]⟩]
  · rw [if_neg h]
    exact Nat.zero_le _

theorem tally_unigram_le_positions (max_array K : Nat) (corpus : List (List Nat))
    (cls : List Nat) (hmax : 1 ≤ max_array) (c : Nat) (hc : c < K) :
    count_at (tally_class_counts_in_store max_array K corpus cls
        (init_count_arrays max_array K)) 0 c ≤ corpus_positions corpus := by
  rw [count_at_tally max_array K corpus cls 0 _ (by omega) (by simpa using hc),
    count_corpus_tally_events]
  unfold corpus_positions
  apply List.sum_le_sum
  intro sent _
  have h1 : ((List.range sent.length).map fun _ => 1).sum = sent.length := by simp
  refine Nat.le_trans (List.sum_le_sum ?_) (Nat.le_of_eq h1)
  intro i _
  rw [count_tally_events_unigram]
  split <;> omega

theorem word_occurrences_le_tally (max_array K : Nat) (corpus : List (List Nat))
    (cls : List Nat) (hmax : 1 ≤ max_array) (w : Nat) (hw : cls.getD w 0 < K) :
    word_occurrences corpus w ≤
      count_at (tally_class_counts_in_store max_array K corpus cls
        (init_count_arrays max_array K)) 0 (cls.getD w 0) := by
  rw [count_at_tally max_array K corpus cls 0 _ (by omega) (by simpa using hw),
    count_corpus_tally_events]
  unfold word_occurrences
  apply List.sum_le_sum
  intro sent _
  rw [count_eq_sum_range]
  apply List.sum_le_sum
  intro i _
  rw [count_tally_events_unigram]
  by_cases h : sent.getD i 0 = w
  · rw [if_pos h, if_pos (by rw [h])]
  · rw [if_neg h]
    exact Nat.zero_le _

theorem in_unit_interval_rat (q : ℚ) (h0 : 0 ≤ q) (h1 : q ≤ 1) :
    (fval.rat q).in_unit_interval = true := by
  simp [fval.in_unit_interval, h0, h1]

theorem of_counts_unit (a b : Nat) (hb : b ≠ 0) (hab : a ≤ b) :
    ∃ p, fval.of_counts a b = fval.rat p ∧ 0 ≤ p ∧ p ≤ 1 := by
  refine ⟨(a : ℚ) / (b : ℚ), of_counts_rat a b hb, by positivity, ?_⟩
  have hb' : (0 : ℚ) < (b : ℚ) := by
    have : 0 < b := Nat.pos_of_ne_zero hb
    exact_mod_cast this
  rw [div_le_one hb']
  exact_mod_cast hab

theorem add_scale_unit (sp : fval) (sw w : ℚ) (x : fval)
    (hsp : ∃ q, sp = fval.rat q ∧ 0 ≤ q ∧ q ≤ sw) (hw : 0 ≤ w)
    (hx : ∃ p, x = fval.rat p ∧ 0 ≤ p ∧ p ≤ 1) :
    ∃ q, fval.add sp (fval.scale w x) = fval.rat q ∧ 0 ≤ q ∧ q ≤ sw + w := by
  obtain ⟨q, rfl, hq0, hq1⟩ := hsp
  obtain ⟨p, rfl, hp0, hp1⟩ := hx
  refine ⟨q + w * p, rfl, by positivity, ?_⟩
  have : w * p ≤ w := mul_le_of_le_one_right hw hp1
  linarith

theorem stage_unit (c : Prop) [Decidable c] (sp : fval) (sw w : ℚ) (x : fval)
    (hsp : ∃ q, sp = fval.rat q ∧ 0 ≤ q ∧ q ≤ sw) (hw : 0 ≤ w)
    (hx : c → ∃ p, x = fval.rat p ∧ 0 ≤ p ∧ p ≤ 1) :
    ∃ q, (if c then fval.add sp (fval.scale w x) else sp) = fval.rat q ∧ 0 ≤ q ∧
      q ≤ sw + (if c then w else 0) := by
  by_cases h : c
  · rw [if_pos h, if_pos h]
    exact add_scale_unit sp sw w x hsp hw (hx h)
  · rw [if_neg h, if_neg h, add_zero]
    exact hsp

theorem unnan_of_counts_unit (a b : Nat) (hb : b ≠ 0) (hab : a ≤ b) :
    ∃ p, fval.unnan (fval.of_counts a b) = fval.rat p ∧ 0 ≤ p ∧ p ≤ 1 := by
  obtain ⟨p, hp, h0, h1⟩ := of_counts_unit a b hb hab
  exact ⟨p, by rw [hp, unnan_rat], h0, h1⟩

theorem query_position_order_probs (max_array K token_count : Nat) (word_counts : List Nat)
    (count_arrays : List (List Nat)) (sent : List Nat) (class_sent : Nat → Nat) (i : Nat) :
    (query_position max_array K token_count word_counts count_arrays sent class_sent
        i).order_probs =
      [if 2 < max_array ∧ 1 < i then
          fval.unnan (fval.of_counts
            (count_at count_arrays 2 (array_offset (slice class_sent (i - 2) 3) 3 K))
            (count_at count_arrays 1 (array_offset (slice class_sent (i - 1) 2) 2 K)))
        else fval.rat 0,
        fval.of_counts
          (count_at count_arrays 1 (array_offset (slice class_sent (i - 1) 2) 2 K))
          (count_at count_arrays 0 (array_offset (slice class_sent i 1) 1 K)),
        fval.of_counts (count_at count_arrays 0 (class_sent i)) token_count,
        if i < sent.length - 1 then
          fval.of_counts
            (count_at count_arrays 1 (array_offset (slice class_sent i 2) 2 K))
            (count_at count_arrays 0 (array_offset (slice class_sent (i + 1) 1) 1 K))
        else fval.rat 0,
        if 2 < max_array ∧ i < sent.length - 2 then
          fval.unnan (fval.of_counts
            (count_at count_arrays 2 (array_offset (slice class_sent i 3) 3 K))
            (count_at count_arrays 1 (array_offset (slice class_sent (i + 1) 2) 2 K)))
        else fval.rat 0] := by
  unfold query_position
  simp only []
  split <;> split <;> split <;> rfl

theorem query_position_unit (max_array K token_count : Nat) (word_counts : List Nat)
    (count_arrays : List (List Nat)) (sent : List Nat) (class_sent : Nat → Nat) (i : Nat)
    (hc : count_at count_arrays 0 (class_sent i) ≠ 0)
    (hw : word_counts.getD (sent.getD i 0) 0 ≤ count_at count_arrays 0 (class_sent i))
    (ht : count_at count_arrays 0 (class_sent i) ≤ token_count)
    (h1 : count_at count_arrays 1 (array_offset (slice class_sent (i - 1) 2) 2 K) ≤
      count_at count_arrays 0 (class_sent i))
    (h0 : 2 < max_array ∧ 1 < i →
      count_at count_arrays 1 (array_offset (slice class_sent (i - 1) 2) 2 K) ≠ 0 ∧
      count_at count_arrays 2 (array_offset (slice class_sent (i - 2) 3) 3 K) ≤
        count_at count_arrays 1 (array_offset (slice class_sent (i - 1) 2) 2 K))
    (h3 : i < sent.length - 1 →
      count_at count_arrays 0 (class_sent (i + 1)) ≠ 0 ∧
      count_at count_arrays 1 (array_offset (slice class_sent i 2) 2 K) ≤
        count_at count_arrays 0 (class_sent (i + 1)))
    (h4 : 2 < max_array ∧ i < sent.length - 2 →
      count_at count_arrays 1 (array_offset (slice class_sent (i + 1) 2) 2 K) ≠ 0 ∧
      count_at count_arrays 2 (array_offset (slice class_sent i 3) 3 K) ≤
        count_at count_arrays 1 (array_offset (slice class_sent (i + 1) 2) 2 K)) :
    (∀ k, k < 5 →
      ((query_position max_array K token_count word_counts count_arrays sent class_sent
        i).order_probs.getD k fval.nan).in_unit_interval = true) ∧
    (query_position max_array K token_count word_counts count_arrays sent class_sent
      i).emission_prob.in_unit_interval = true ∧
    (query_position max_array K token_count word_counts count_arrays sent class_sent
      i).transition_prob.in_unit_interval = true ∧
    (query_position max_array K token_count word_counts count_arrays sent class_sent
      i).class_prob.in_unit_interval = true := by
  have htok : token_count ≠ 0 := by omega
  have u2 := of_counts_unit _ _ htok ht
  have u1 : ∃ p, fval.of_counts
      (count_at count_arrays 1 (array_offset (slice class_sent (i - 1) 2) 2 K))
      (count_at count_arrays 0 (array_offset (slice class_sent i 1) 1 K)) = fval.rat p ∧
      0 ≤ p ∧ p ≤ 1 := by
    rw [slice_one, array_offset_singleton]
    exact of_counts_unit _ _ hc h1
  have u0 : 2 < max_array ∧ 1 < i → ∃ p, fval.unnan (fval.of_counts
      (count_at count_arrays 2 (array_offset (slice class_sent (i - 2) 3) 3 K))
      (count_at count_arrays 1 (array_offset (slice class_sent (i - 1) 2) 2 K))) =
      fval.rat p ∧ 0 ≤ p ∧ p ≤ 1 := fun h => unnan_of_counts_unit _ _ (h0 h).1 (h0 h).2
  have u3 : i < sent.length - 1 → ∃ p, fval.of_counts
      (count_at count_arrays 1 (array_offset (slice class_sent i 2) 2 K))
      (count_at count_arrays 0 (array_offset (slice class_sent (i + 1) 1) 1 K)) =
      fval.rat p ∧ 0 ≤ p ∧ p ≤ 1 := by
    intro h
    rw [slice_one, array_offset_singleton]
    exact of_counts_unit _ _ (h3 h).1 (h3 h).2
  have u4 : 2 < max_array ∧ i < sent.length - 2 → ∃ p, fval.unnan (fval.of_counts
      (count_at count_arrays 2 (array_offset (slice class_sent i 3) 3 K))
      (count_at count_arrays 1 (array_offset (slice class_sent (i + 1) 2) 2 K))) =
      fval.rat p ∧ 0 ≤ p ∧ p ≤ 1 := fun h => unnan_of_counts_unit _ _ (h4 h).1 (h4 h).2
  have unit_of : ∀ x : fval, (∃ p, x = fval.rat p ∧ 0 ≤ p ∧ p ≤ 1) →
      x.in_unit_interval = true := by
    rintro x ⟨p, rfl, hp0, hp1⟩
    exact in_unit_interval_rat p hp0 hp1
  have hzero : (fval.rat 0).in_unit_interval = true := in_unit_interval_rat 0 (by norm_num)
    (by norm_num)
  -- the emission probability
  have hem : ∃ e, (query_position max_array K token_count word_counts count_arrays sent
      class_sent i).emission_prob = fval.rat e ∧ 0 ≤ e ∧ e ≤ 1 := by
    have : (query_position max_array K token_count word_counts count_arrays sent
        class_sent i).emission_prob =
        if word_counts.getD (sent.getD i 0) 0 ≠ 0 then
          fval.of_counts (word_counts.getD (sent.getD i 0) 0)
            (count_at count_arrays 0 (class_sent i))
        else fval.of_counts 1 (count_at count_arrays 0 (class_sent i)) := rfl
    rw [this]
    by_cases hz : word_counts.getD (sent.getD i 0) 0 ≠ 0
    · rw [if_pos hz]
      exact of_counts_unit _ _ hc hw
    · rw [if_neg hz]
      exact of_counts_unit _ _ hc (by omega)
  -- the weighted sum against the normalizer
  have hsum : ∃ q, (query_position max_array K token_count word_counts count_arrays sent
      class_sent i).sum_probs = fval.rat q ∧ 0 ≤ q ∧
      q ≤ (query_position max_array K token_count word_counts count_arrays sent
        class_sent i).sum_weights := by
    rw [query_position_sum_probs, query_position_sum_weights]
    simp only []
    have sa : ∃ q, fval.scale (1 / 100)
        (fval.of_counts (count_at count_arrays 0 (class_sent i)) token_count) = fval.rat q ∧
        0 ≤ q ∧ q ≤ 1 / 100 := by
      obtain ⟨p, hp, hp0, hp1⟩ := u2
      refine ⟨1 / 100 * p, by rw [hp, scale_rat], by positivity, ?_⟩
      linarith
    have sb := stage_unit (2 < max_array ∧ 1 < i) _ _ (4 / 10) _ sa (by norm_num) u0
    have sc := add_scale_unit _ _ (16 / 100) _ sb (by norm_num) u1
    have sd := stage_unit (i < sent.length - 1) _ _ (1 / 10) _ sc (by norm_num) u3
    exact stage_unit (2 < max_array ∧ i < sent.length - 2) _ _ (33 / 100) _ sd (by norm_num) u4
  have hpos : (0 : ℚ) < (query_position max_array K token_count word_counts count_arrays sent
      class_sent i).sum_weights := by
    rw [query_position_sum_weights]
    have a0 : (0 : ℚ) ≤ if 2 < max_array ∧ 1 < i then 4 / 10 else 0 := by
      split <;> norm_num
    have a3 : (0 : ℚ) ≤ if i < sent.length - 1 then 1 / 10 else 0 := by
      split <;> norm_num
    have a4 : (0 : ℚ) ≤ if 2 < max_array ∧ i < sent.length - 2 then 33 / 100 else 0 := by
      split <;> norm_num
    linarith
  have htr : ∃ t, (query_position max_array K token_count word_counts count_arrays sent
      class_sent i).transition_prob = fval.rat t ∧ 0 ≤ t ∧ t ≤ 1 := by
    have : (query_position max_array K token_count word_counts count_arrays sent
        class_sent i).transition_prob =
        fval.div_weight
          (query_position max_array K token_count word_counts count_arrays sent
            class_sent i).sum_probs
          (query_position max_array K token_count word_counts count_arrays sent
            class_sent i).sum_weights := rfl
    obtain ⟨q, hq, hq0, hq1⟩ := hsum
    rw [this, hq, div_weight_rat _ _ (ne_of_gt hpos)]
    exact ⟨_, rfl, div_nonneg hq0 (le_of_lt hpos), (div_le_one hpos).mpr hq1⟩
  refine ⟨?_, unit_of _ hem, unit_of _ htr, ?_⟩
  · intro k hk
    rw [query_position_order_probs]
    have hk' : k = 0 ∨ k = 1 ∨ k = 2 ∨ k = 3 ∨ k = 4 := by omega
    rcases hk' with rfl | rfl | rfl | rfl | rfl
    · simp only [List.getD_cons_zero]
      by_cases h : 2 < max_array ∧ 1 < i
      · rw [if_pos h]
        exact unit_of _ (u0 h)
      · rw [if_neg h]
        exact hzero
    · simp only [List.getD_cons_succ, List.getD_cons_zero]
      exact unit_of _ u1
    · simp only [List.getD_cons_succ, List.getD_cons_zero]
      exact unit_of _ u2
    · simp only [List.getD_cons_succ, List.getD_cons_zero]
      by_cases h : i < sent.length - 1
      · rw [if_pos h]
        exact unit_of _ (u3 h)
      · rw [if_neg h]
        exact hzero
    · simp only [List.getD_cons_succ, List.getD_cons_zero]
      by_cases h : 2 < max_array ∧ i < sent.length - 2
      · rw [if_pos h]
        exact unit_of _ (u4 h)
      · rw [if_neg h]
        exact hzero
  · have : (query_position max_array K token_count word_counts count_arrays sent
        class_sent i).class_prob =
        fval.mul
          (query_position max_array K token_count word_counts count_arrays sent
            class_sent i).emission_prob
          (query_position max_array K token_count word_counts count_arrays sent
            class_sent i).transition_prob := rfl
    obtain ⟨e, he, he0, he1⟩ := hem
    obtain ⟨t, ht', ht0, ht1⟩ := htr
    rw [this, he, ht']
    exact in_unit_interval_rat (e * t) (by positivity) (mul_le_one₀ he1 ht0 ht1)

theorem mapM_except_ok {α β : Type} (f : α → Except Nat β) (g : α → β) (l : List α)
    (h : ∀ x ∈ l, f x = Except.ok (g x)) : l.mapM f = Except.ok (l.map g) := by
  induction l with
  | nil => rfl
  | cons x xs ih =>
    rw [List.mapM_cons, h x (List.mem_cons_self x xs),
      ih (fun y hy => h y (List.mem_cons_of_mem x hy))]
    rfl

theorem mapM_except_error {α β : Type} (f : α → Except Nat β) (l : List α) (e : Nat)
    (h : l.mapM f = Except.error e) : ∃ x ∈ l, f x = Except.error e := by
  induction l with
  | nil => cases h
  | cons x xs ih =>
    rw [List.mapM_cons] at h
    cases hx : f x with
    | error e' =>
      rw [hx] at h
      cases h
      exact ⟨x, List.mem_cons_self x xs, hx⟩
    | ok y =>
      rw [hx] at h
      cases hxs : xs.mapM f with
      | error e' =>
        rw [hxs] at h
        cases h
        obtain ⟨z, hz, hfz⟩ := ih hxs
        exact ⟨z, List.mem_cons_of_mem x hz, hfz⟩
      | ok ys =>
        rw [hxs] at h
        cases h

theorem query_class_sent_eq (corpus : List (List Nat)) (word2class cls : List Nat)
    (temp_word temp_class : Nat)
    (hscore : ∀ s ∈ corpus, ∀ w ∈ s,
      (if w = temp_word then temp_class else word2class.getD w 0) = cls.getD w 0)
    (sent : List Nat) (hs : sent ∈ corpus) (j : Nat) (hj : j < sent.length) :
    query_class_sent word2class sent temp_word temp_class j = cls.getD (sent.getD j 0) 0 :=
  hscore sent hs _ (getD_mem_of_lt sent j hj)

theorem query_position_checked_eq (verbose : Int) (max_array K token_count : Nat)
    (word_counts : List Nat) (count_arrays : List (List Nat)) (sent : List Nat)
    (class_sent : Nat → Nat) (i : Nat) :
    query_position_checked verbose max_array K token_count word_counts count_arrays sent
        class_sent i =
      if 3 < verbose ∧
          count_at count_arrays 0 (class_sent i) < word_counts.getD (sent.getD i 0) 0 then
        Except.error 5
      else if 2 < verbose ∧ token_count < count_at count_arrays 0 (class_sent i) then
        Except.error 6
      else if 2 < verbose ∧
          (query_position max_array K token_count word_counts count_arrays sent class_sent
            i).class_prob.in_unit_interval = false then
        Except.error 11
      else Except.ok (query_position max_array K token_count word_counts count_arrays sent
        class_sent i) := rfl

/-- C28: when the count arrays are the tally of the corpus under the class assignment used
for scoring (every class below `K`) and `word_counts[w]` is the number of occurrences of
`w` in the corpus for the words of the corpus, then at every scored position the class
count is at least the word count, and for every verbosity neither the position nor
`query_int_sents_in_store` as a whole ends with `exit(5)`. -/
theorem query_exit_5_unreachable (verbose : Int) (max_array K token_count : Nat)
    (corpus : List (List Nat)) (word_counts word2class cls : List Nat)
    (temp_word temp_class : Nat) (hmax : 1 ≤ max_array)
    (hcls : ∀ s ∈ corpus, ∀ w ∈ s, cls.getD w 0 < K)
    (hscore : ∀ s ∈ corpus, ∀ w ∈ s,
      (if w = temp_word then temp_class else word2class.getD w 0) = cls.getD w 0)
    (hwc : ∀ s ∈ corpus, ∀ w ∈ s, word_counts.getD w 0 = word_occurrences corpus w) :
    (∀ sent ∈ corpus, ∀ i, 1 ≤ i → i < sent.length →
      word_counts.getD (sent.getD i 0) 0 ≤
        count_at (tally_class_counts_in_store max_array K corpus cls
          (init_count_arrays max_array K)) 0
          (query_class_sent word2class sent temp_word temp_class i) ∧
      query_position_checked verbose max_array K token_count word_counts
        (tally_class_counts_in_store max_array K corpus cls (init_count_arrays max_array K))
        sent (query_class_sent word2class sent temp_word temp_class) i ≠ Except.error 5) ∧
    query_int_sents_in_store verbose max_array K token_count corpus word_counts word2class
      (tally_class_counts_in_store max_array K corpus cls (init_count_arrays max_array K))
      temp_word temp_class ≠ Except.error 5 := by
  have hpos : ∀ sent ∈ corpus, ∀ i, 1 ≤ i → i < sent.length →
      word_counts.getD (sent.getD i 0) 0 ≤
        count_at (tally_class_counts_in_store max_array K corpus cls
          (init_count_arrays max_array K)) 0
          (query_class_sent word2class sent temp_word temp_class i) ∧
      query_position_checked verbose max_array K token_count word_counts
        (tally_class_counts_in_store max_array K corpus cls (init_count_arrays max_array K))
        sent (query_class_sent word2class sent temp_word temp_class) i ≠ Except.error 5 := by
    intro sent hs i _ hi
    have hmem := getD_mem_of_lt sent i hi
    have hle : word_counts.getD (sent.getD i 0) 0 ≤
        count_at (tally_class_counts_in_store max_array K corpus cls
          (init_count_arrays max_array K)) 0
          (query_class_sent word2class sent temp_word temp_class i) := by
      rw [query_class_sent_eq corpus word2class cls temp_word temp_class hscore sent hs i hi,
        hwc sent hs _ hmem]
      exact word_occurrences_le_tally max_array K corpus cls hmax _ (hcls sent hs _ hmem)
    refine ⟨hle, ?_⟩
    rw [query_position_checked_eq, if_neg (fun h => absurd hle (Nat.not_le.mpr h.2))]
    intro h
    split at h
    · cases h
    · split at h
      · cases h
      · cases h
  refine ⟨hpos, ?_⟩
  intro h
  unfold query_int_sents_in_store at h
  obtain ⟨sent, hs, hsent⟩ := mapM_except_error _ _ _ h
  obtain ⟨i, hi, hq⟩ := mapM_except_error _ _ _ hsent
  rw [List.mem_range'_1] at hi
  exact (hpos sent hs i hi.1 (by omega)).2 hq

theorem query_exit_5_unreachable_witness :
    (1 ≤ 3 ∧
      (∀ s ∈ [[0, 2, 3, 4, 1], [0, 2, 3, 5, 1]], ∀ w ∈ s,
        ([0, 1, 1, 1, 0, 1, 0] : List Nat).getD w 0 < 2) ∧
      (∀ s ∈ [[0, 2, 3, 4, 1], [0, 2, 3, 5, 1]], ∀ w ∈ s,
        (if w = 2 then 1 else ([0, 1, 0, 1, 0, 1, 0] : List Nat).getD w 0) =
          ([0, 1, 1, 1, 0, 1, 0] : List Nat).getD w 0) ∧
      (∀ s ∈ [[0, 2, 3, 4, 1], [0, 2, 3, 5, 1]], ∀ w ∈ s,
        ([2, 2, 2, 2, 1, 1, 0] : List Nat).getD w 0 =
          word_occurrences [[0, 2, 3, 4, 1], [0, 2, 3, 5, 1]] w)) ∧
    query_int_sents_in_store 4 3 2 10 [[0, 2, 3, 4, 1], [0, 2, 3, 5, 1]] [2, 2, 2, 2, 1, 1, 0]
      [0, 1, 0, 1, 0, 1, 0]
      (tally_class_counts_in_store 3 2 [[0, 2, 3, 4, 1], [0, 2, 3, 5, 1]]
        [0, 1, 1, 1, 0, 1, 0] (init_count_arrays 3 2)) 2 1 ≠ Except.error 5 :=
  ⟨by decide,
    (query_exit_5_unreachable 4 3 2 10 [[0, 2, 3, 4, 1], [0, 2, 3, 5, 1]]
      [2, 2, 2, 2, 1, 1, 0] [0, 1, 0, 1, 0, 1, 0] [0, 1, 1, 1, 0, 1, 0] 2 1 (by decide)
      (by decide) (by decide) (by decide)).2⟩
theorem tally_facts_at (K : Nat) (corpus : List (List Nat)) (word2class cls : List Nat)
    (temp_word temp_class : Nat)
    (hcls : ∀ s ∈ corpus, ∀ w ∈ s, cls.getD w 0 < K)
    (hscore : ∀ s ∈ corpus, ∀ w ∈ s,
      (if w = temp_word then temp_class else word2class.getD w 0) = cls.getD w 0)
    (sent : List Nat) (hs : sent ∈ corpus) (i : Nat) (hi1 : 1 ≤ i) (hi : i < sent.length) :
    1 ≤ count_at (tally_class_counts_in_store 3 K corpus cls (init_count_arrays 3 K)) 0
        (query_class_sent word2class sent temp_word temp_class i) ∧
    count_at (tally_class_counts_in_store 3 K corpus cls (init_count_arrays 3 K)) 0
        (query_class_sent word2class sent temp_word temp_class i) ≤ corpus_positions corpus ∧
    1 ≤ count_at (tally_class_counts_in_store 3 K corpus cls (init_count_arrays 3 K)) 1
        (array_offset
          (slice (query_class_sent word2class sent temp_word temp_class) (i - 1) 2) 2 K) ∧
    count_at (tally_class_counts_in_store 3 K corpus cls (init_count_arrays 3 K)) 1
        (array_offset
          (slice (query_class_sent word2class sent temp_word temp_class) (i - 1) 2) 2 K) ≤
      count_at (tally_class_counts_in_store 3 K corpus cls (init_count_arrays 3 K)) 0
        (query_class_sent word2class sent temp_word temp_class i) ∧
    (1 < i →
      count_at (tally_class_counts_in_store 3 K corpus cls (init_count_arrays 3 K)) 2
        (array_offset
          (slice (query_class_sent word2class sent temp_word temp_class) (i - 2) 3) 3 K) ≤
        count_at (tally_class_counts_in_store 3 K corpus cls (init_count_arrays 3 K)) 1
        (array_offset
          (slice (query_class_sent word2class sent temp_word temp_class) (i - 1) 2) 2 K)) ∧
    (i < sent.length - 1 →
      1 ≤ count_at (tally_class_counts_in_store 3 K corpus cls (init_count_arrays 3 K)) 0
        (query_class_sent word2class sent temp_word temp_class (i + 1)) ∧
      count_at (tally_class_counts_in_store 3 K corpus cls (init_count_arrays 3 K)) 1
        (array_offset (slice (query_class_sent word2class sent temp_word temp_class) i 2) 2 K) ≤
        count_at (tally_class_counts_in_store 3 K corpus cls (init_count_arrays 3 K)) 0
        (query_class_sent word2class sent temp_word temp_class (i + 1))) ∧
    (i < sent.length - 2 →
      1 ≤ count_at (tally_class_counts_in_store 3 K corpus cls (init_count_arrays 3 K)) 1
        (array_offset
          (slice (query_class_sent word2class sent temp_word temp_class) (i + 1) 2) 2 K) ∧
      count_at (tally_class_counts_in_store 3 K corpus cls (init_count_arrays 3 K)) 2
        (array_offset (slice (query_class_sent word2class sent temp_word temp_class) i 3) 3 K) ≤
        count_at (tally_class_counts_in_store 3 K corpus cls (init_count_arrays 3 K)) 1
        (array_offset
          (slice (query_class_sent word2class sent temp_word temp_class) (i + 1) 2) 2 K)) := by
  have hf : ∀ j, j < sent.length →
      query_class_sent word2class sent temp_word temp_class j = cls.getD (sent.getD j 0) 0 :=
    fun j hj => query_class_sent_eq corpus word2class cls temp_word temp_class hscore sent hs j hj
  have hlt : ∀ j, j < sent.length → cls.getD (sent.getD j 0) 0 < K :=
    fun j hj => cs_lt K cls sent (hcls sent hs) j hj
  have e1 : i - 1 + 1 = i := by omega
  have e4 : i + 1 + 1 = i + 2 := rfl
  have hb := tally_bigram_pos 3 K corpus cls (by decide) hcls sent hs i hi1 hi
  refine ⟨?_, ?_, ?_, ?_, ?_, ?_, ?_⟩
  · rw [hf i hi]
    exact tally_unigram_pos 3 K corpus cls (by decide) hcls sent hs i hi
  · rw [hf i hi]
    exact tally_unigram_le_positions 3 K corpus cls (by decide) _ (hlt i hi)
  · rw [slice_two, e1, hf i hi, hf (i - 1) (by omega)]
    exact hb
  · rw [slice_two, e1, hf i hi, hf (i - 1) (by omega)]
    exact tally_bigram_le_unigram 3 K corpus cls (by decide) hcls _ _ (hlt (i - 1) (by omega))
      (hlt i hi)
  · intro h1
    have e2 : i - 2 + 1 = i - 1 := by omega
    have e3 : i - 2 + 2 = i := by omega
    rw [slice_two, slice_three, e1, e2, e3, hf i hi, hf (i - 1) (by omega),
      hf (i - 2) (by omega)]
    exact tally_trigram_le_bigram 3 K corpus cls (by decide) hcls _ _ _
      (hlt (i - 2) (by omega)) (hlt (i - 1) (by omega)) (hlt i hi)
  · intro h3
    rw [slice_two, hf i hi, hf (i + 1) (by omega)]
    exact ⟨tally_unigram_pos 3 K corpus cls (by decide) hcls sent hs (i + 1) (by omega),
      tally_bigram_le_unigram 3 K corpus cls (by decide) hcls _ _ (hlt i hi)
        (hlt (i + 1) (by omega))⟩
  · intro h4
    rw [slice_two, slice_three, e4, hf i hi, hf (i + 1) (by omega), hf (i + 2) (by omega)]
    exact ⟨tally_bigram_pos 3 K corpus cls (by decide) hcls sent hs (i + 2) (by omega)
        (by omega),
      tally_trigram_le_bigram 3 K corpus cls (by decide) hcls _ _ _ (hlt i hi)
        (hlt (i + 1) (by omega)) (hlt (i + 2) (by omega))⟩
/-- C30: when the count arrays of orders 1 to 3 are the tally of the corpus under the class
assignment used for scoring (every class below `K`), then at every scored position the
denominators that `query_int_sents_in_store` divides by are positive: the count of the class
at `i`, of the class pair at `(i-1, i)`, of the class at `i+1` when `i < L - 1` and of the
class pair at `(i+1, i+2)` when `i < L - 2`; the trigram and future trigram ratios are not
NaN, so the value stored is the ratio itself. -/
theorem query_denominators_pos (K : Nat) (corpus : List (List Nat))
    (word2class cls : List Nat) (temp_word temp_class : Nat)
    (hcls : ∀ s ∈ corpus, ∀ w ∈ s, cls.getD w 0 < K)
    (hscore : ∀ s ∈ corpus, ∀ w ∈ s,
      (if w = temp_word then temp_class else word2class.getD w 0) = cls.getD w 0)
    (sent : List Nat) (hs : sent ∈ corpus) (i : Nat) (hi1 : 1 ≤ i) (hi : i < sent.length) :
    0 < count_at (tally_class_counts_in_store 3 K corpus cls (init_count_arrays 3 K)) 0
      (query_class_sent word2class sent temp_word temp_class i) ∧
    0 < count_at (tally_class_counts_in_store 3 K corpus cls (init_count_arrays 3 K)) 1
      (array_offset (slice (query_class_sent word2class sent temp_word temp_class) (i - 1) 2)
        2 K) ∧
    (i < sent.length - 1 →
      0 < count_at (tally_class_counts_in_store 3 K corpus cls (init_count_arrays 3 K)) 0
        (query_class_sent word2class sent temp_word temp_class (i + 1))) ∧
    (i < sent.length - 2 →
      0 < count_at (tally_class_counts_in_store 3 K corpus cls (init_count_arrays 3 K)) 1
        (array_offset (slice (query_class_sent word2class sent temp_word temp_class) (i + 1) 2)
          2 K)) ∧
    ∀ max_array token_count word_counts,
      (2 < max_array ∧ 1 < i →
        (query_position max_array K token_count word_counts
          (tally_class_counts_in_store 3 K corpus cls (init_count_arrays 3 K)) sent
          (query_class_sent word2class sent temp_word temp_class) i).order_probs.getD 0
            fval.nan =
          fval.of_counts
            (count_at (tally_class_counts_in_store 3 K corpus cls (init_count_arrays 3 K)) 2
              (array_offset
                (slice (query_class_sent word2class sent temp_word temp_class) (i - 2) 3) 3 K))
            (count_at (tally_class_counts_in_store 3 K corpus cls (init_count_arrays 3 K)) 1
              (array_offset
                (slice (query_class_sent word2class sent temp_word temp_class) (i - 1) 2) 2 K)) ∧
        (query_position max_array K token_count word_counts
          (tally_class_counts_in_store 3 K corpus cls (init_count_arrays 3 K)) sent
          (query_class_sent word2class sent temp_word temp_class) i).order_probs.getD 0
            fval.nan ≠ fval.nan) ∧
      (2 < max_array ∧ i < sent.length - 2 →
        (query_position max_array K token_count word_counts
          (tally_class_counts_in_store 3 K corpus cls (init_count_arrays 3 K)) sent
          (query_class_sent word2class sent temp_word temp_class) i).order_probs.getD 4
            fval.nan =
          fval.of_counts
            (count_at (tally_class_counts_in_store 3 K corpus cls (init_count_arrays 3 K)) 2
              (array_offset
                (slice (query_class_sent word2class sent temp_word temp_class) i 3) 3 K))
            (count_at (tally_class_counts_in_store 3 K corpus cls (init_count_arrays 3 K)) 1
              (array_offset
                (slice (query_class_sent word2class sent temp_word temp_class) (i + 1) 2) 2 K)) ∧
        (query_position max_array K token_count word_counts
          (tally_class_counts_in_store 3 K corpus cls (init_count_arrays 3 K)) sent
          (query_class_sent word2class sent temp_word temp_class) i).order_probs.getD 4
            fval.nan ≠ fval.nan) := by
  obtain ⟨f1, _, f3, _, _, f6, f7⟩ :=
    tally_facts_at K corpus word2class cls temp_word temp_class hcls hscore sent hs i hi1 hi
  refine ⟨f1, f3, fun h => (f6 h).1, fun h => (f7 h).1, ?_⟩
  intro max_array token_count word_counts
  constructor
  · intro h
    rw [query_position_trigram _ _ _ _ _ _ _ _ h, of_counts_rat _ _ (by omega), unnan_rat]
    exact ⟨rfl, fun hn => by cases hn⟩
  · intro h
    rw [query_position_future_trigram _ _ _ _ _ _ _ _ h,
      of_counts_rat _ _ (by have := (f7 h.2).1; omega), unnan_rat]
    exact ⟨rfl, fun hn => by cases hn⟩

theorem query_denominators_pos_witness :
    ((∀ s ∈ [[0, 2, 3, 4, 1], [0, 2, 3, 5, 1]], ∀ w ∈ s,
        ([0, 1, 1, 1, 0, 1, 0] : List Nat).getD w 0 < 2) ∧
      (∀ s ∈ [[0, 2, 3, 4, 1], [0, 2, 3, 5, 1]], ∀ w ∈ s,
        (if w = 2 then 1 else ([0, 1, 0, 1, 0, 1, 0] : List Nat).getD w 0) =
          ([0, 1, 1, 1, 0, 1, 0] : List Nat).getD w 0) ∧
      [0, 2, 3, 5, 1] ∈ [[0, 2, 3, 4, 1], [0, 2, 3, 5, 1]] ∧ 1 ≤ 2 ∧
      2 < [0, 2, 3, 5, 1].length) ∧
    0 < count_at (tally_class_counts_in_store 3 2 [[0, 2, 3, 4, 1], [0, 2, 3, 5, 1]]
        [0, 1, 1, 1, 0, 1, 0] (init_count_arrays 3 2)) 0
      (query_class_sent [0, 1, 0, 1, 0, 1, 0] [0, 2, 3, 5, 1] 2 1 2) :=
  ⟨by decide,
    (query_denominators_pos 2 [[0, 2, 3, 4, 1], [0, 2, 3, 5, 1]] [0, 1, 0, 1, 0, 1, 0]
      [0, 1, 1, 1, 0, 1, 0] 2 1 (by decide) (by decide) [0, 2, 3, 5, 1] (by decide) 2
      (by decide) (by decide)).1⟩

/-- C29: when the count arrays of orders 1 to 3 are the tally of the corpus under the class
assignment used for scoring (every class below `K`), `token_count` is the number of
positions of the corpus and `word_counts[w]` is the number of occurrences of `w` for the
words of the corpus, then at every scored position each of the five order probabilities,
the emission probability and the class probability is a rational number in `[0, 1]`, the
position passes the checks at every verbosity, and `query_int_sents_in_store` returns the
scores of all positions: it ends with neither `exit(6)` nor `exit(11)`. -/
theorem query_probabilities_unit (verbose : Int) (max_array K : Nat)
    (corpus : List (List Nat)) (word_counts word2class cls : List Nat)
    (temp_word temp_class : Nat)
    (hcls : ∀ s ∈ corpus, ∀ w ∈ s, cls.getD w 0 < K)
    (hscore : ∀ s ∈ corpus, ∀ w ∈ s,
      (if w = temp_word then temp_class else word2class.getD w 0) = cls.getD w 0)
    (hwc : ∀ s ∈ corpus, ∀ w ∈ s, word_counts.getD w 0 = word_occurrences corpus w) :
    (∀ sent ∈ corpus, ∀ i, 1 ≤ i → i < sent.length →
      (∀ k, k < 5 →
        ((query_position max_array K (corpus_positions corpus) word_counts
          (tally_class_counts_in_store 3 K corpus cls (init_count_arrays 3 K)) sent
          (query_class_sent word2class sent temp_word temp_class) i).order_probs.getD k
            fval.nan).in_unit_interval = true) ∧
      (query_position max_array K (corpus_positions corpus) word_counts
        (tally_class_counts_in_store 3 K corpus cls (init_count_arrays 3 K)) sent
        (query_class_sent word2class sent temp_word temp_class)
        i).emission_prob.in_unit_interval = true ∧
      (query_position max_array K (corpus_positions corpus) word_counts
        (tally_class_counts_in_store 3 K corpus cls (init_count_arrays 3 K)) sent
        (query_class_sent word2class sent temp_word temp_class)
        i).class_prob.in_unit_interval = true ∧
      query_position_checked verbose max_array K (corpus_positions corpus) word_counts
          (tally_class_counts_in_store 3 K corpus cls (init_count_arrays 3 K)) sent
          (query_class_sent word2class sent temp_word temp_class) i =
        Except.ok (query_position max_array K (corpus_positions corpus) word_counts
          (tally_class_counts_in_store 3 K corpus cls (init_count_arrays 3 K)) sent
          (query_class_sent word2class sent temp_word temp_class) i)) ∧
    query_int_sents_in_store verbose max_array K (corpus_positions corpus) corpus word_counts
        word2class (tally_class_counts_in_store 3 K corpus cls (init_count_arrays 3 K))
        temp_word temp_class =
      Except.ok (corpus.map fun sent => (List.range' 1 (sent.length - 1)).map fun i =>
        query_position max_array K (corpus_positions corpus) word_counts
          (tally_class_counts_in_store 3 K corpus cls (init_count_arrays 3 K)) sent
          (query_class_sent word2class sent temp_word temp_class) i) := by
  have hpos : ∀ sent ∈ corpus, ∀ i, 1 ≤ i → i < sent.length →
      (∀ k, k < 5 →
        ((query_position max_array K (corpus_positions corpus) word_counts
          (tally_class_counts_in_store 3 K corpus cls (init_count_arrays 3 K)) sent
          (query_class_sent word2class sent temp_word temp_class) i).order_probs.getD k
            fval.nan).in_unit_interval = true) ∧
      (query_position max_array K (corpus_positions corpus) word_counts
        (tally_class_counts_in_store 3 K corpus cls (init_count_arrays 3 K)) sent
        (query_class_sent word2class sent temp_word temp_class)
        i).emission_prob.in_unit_interval = true ∧
      (query_position max_array K (corpus_positions corpus) word_counts
        (tally_class_counts_in_store 3 K corpus cls (init_count_arrays 3 K)) sent
        (query_class_sent word2class sent temp_word temp_class)
        i).class_prob.in_unit_interval = true ∧
      query_position_checked verbose max_array K (corpus_positions corpus) word_counts
          (tally_class_counts_in_store 3 K corpus cls (init_count_arrays 3 K)) sent
          (query_class_sent word2class sent temp_word temp_class) i =
        Except.ok (query_position max_array K (corpus_positions corpus) word_counts
          (tally_class_counts_in_store 3 K corpus cls (init_count_arrays 3 K)) sent
          (query_class_sent word2class sent temp_word temp_class) i) := by
    intro sent hs i hi1 hi
    obtain ⟨f1, f2, f3, f4, f5, f6, f7⟩ :=
      tally_facts_at K corpus word2class cls temp_word temp_class hcls hscore sent hs i hi1 hi
    have hmem := getD_mem_of_lt sent i hi
    have hle : word_counts.getD (sent.getD i 0) 0 ≤
        count_at (tally_class_counts_in_store 3 K corpus cls (init_count_arrays 3 K)) 0
          (query_class_sent word2class sent temp_word temp_class i) := by
      rw [query_class_sent_eq corpus word2class cls temp_word temp_class hscore sent hs i hi,
        hwc sent hs _ hmem]
      exact word_occurrences_le_tally 3 K corpus cls (by decide) _ (hcls sent hs _ hmem)
    have hu := query_position_unit max_array K (corpus_positions corpus) word_counts
      (tally_class_counts_in_store 3 K corpus cls (init_count_arrays 3 K)) sent
      (query_class_sent word2class sent temp_word temp_class) i (by omega) hle f2 f4
      (fun h => ⟨by omega, f5 h.2⟩)
      (fun h => ⟨by have := (f6 h).1; omega, (f6 h).2⟩)
      (fun h => ⟨by have := (f7 h.2).1; omega, (f7 h.2).2⟩)
    refine ⟨hu.1, hu.2.1, hu.2.2.2, ?_⟩
    rw [query_position_checked_eq, if_neg (fun h => absurd hle (Nat.not_le.mpr h.2)),
      if_neg (fun h => absurd f2 (Nat.not_le.mpr h.2)),
      if_neg (fun h => by rw [hu.2.2.2] at h; exact absurd h.2 (by decide))]
  refine ⟨hpos, ?_⟩
  unfold query_int_sents_in_store
  apply mapM_except_ok
  intro sent hs
  apply mapM_except_ok
  intro i hi
  rw [List.mem_range'_1] at hi
  exact (hpos sent hs i hi.1 (by omega)).2.2.2

theorem query_probabilities_unit_witness :
    ((∀ s ∈ [[0, 2, 3, 4, 1], [0, 2, 3, 5, 1]], ∀ w ∈ s,
        ([0, 1, 1, 1, 0, 1, 0] : List Nat).getD w 0 < 2) ∧
      (∀ s ∈ [[0, 2, 3, 4, 1], [0, 2, 3, 5, 1]], ∀ w ∈ s,
        (if w = 2 then 1 else ([0, 1, 0, 1, 0, 1, 0] : List Nat).getD w 0) =
          ([0, 1, 1, 1, 0, 1, 0] : List Nat).getD w 0) ∧
      (∀ s ∈ [[0, 2, 3, 4, 1], [0, 2, 3, 5, 1]], ∀ w ∈ s,
        ([2, 2, 2, 2, 1, 1, 0] : List Nat).getD w 0 =
          word_occurrences [[0, 2, 3, 4, 1], [0, 2, 3, 5, 1]] w)) ∧
    query_int_sents_in_store 3 3 2 (corpus_positions [[0, 2, 3, 4, 1], [0, 2, 3, 5, 1]])
        [[0, 2, 3, 4, 1], [0, 2, 3, 5, 1]] [2, 2, 2, 2, 1, 1, 0] [0, 1, 0, 1, 0, 1, 0]
        (tally_class_counts_in_store 3 2 [[0, 2, 3, 4, 1], [0, 2, 3, 5, 1]]
          [0, 1, 1, 1, 0, 1, 0] (init_count_arrays 3 2)) 2 1 =
      Except.ok ([[0, 2, 3, 4, 1], [0, 2, 3, 5, 1]].map fun sent =>
        (List.range' 1 (sent.length - 1)).map fun i =>
          query_position 3 2 (corpus_positions [[0, 2, 3, 4, 1], [0, 2, 3, 5, 1]])
            [2, 2, 2, 2, 1, 1, 0]
            (tally_class_counts_in_store 3 2 [[0, 2, 3, 4, 1], [0, 2, 3, 5, 1]]
              [0, 1, 1, 1, 0, 1, 0] (init_count_arrays 3 2)) sent
            (query_class_sent [0, 1, 0, 1, 0, 1, 0] sent 2 1) i) :=
  ⟨by decide,
    (query_probabilities_unit 3 3 2 [[0, 2, 3, 4, 1], [0, 2, 3, 5, 1]] [2, 2, 2, 2, 1, 1, 0]
      [0, 1, 0, 1, 0, 1, 0] [0, 1, 1, 1, 0, 1, 0] 2 1 (by decide) (by decide)
      (by decide)).2⟩

/-! ### Bigram predecessor lists: claim C32 -/

theorem keys_map_increment_bigram (m : List struct_map_bigram) (b : Nat × Nat) :
    (map_increment_bigram m b).map bigram_key =
      if b ∈ m.map bigram_key then m.map bigram_key else m.map bigram_key ++ [b] := by
  induction m with
  | nil => simp [map_increment_bigram, bigram_key]
  | cons e es ih =>
    unfold map_increment_bigram
    by_cases h : e.word_1 = b.1 ∧ e.word_2 = b.2
    · have hk : bigram_key e = b := Prod.ext h.1 h.2
      rw [if_pos h]
      simp [bigram_key, ← hk]
    · have hk : ¬ b = bigram_key e := by
        intro hb
        apply h
        rw [hb]
        exact ⟨rfl, rfl⟩
      rw [if_neg h, List.map_cons, ih]
      by_cases hb : b ∈ es.map bigram_key
      · rw [if_pos hb, if_pos (by rw [List.map_cons]; exact List.mem_cons_of_mem _ hb)]
        rfl
      · rw [if_neg hb, if_neg (by
          rw [List.map_cons, List.mem_cons]
          exact fun h' => h'.elim hk hb)]
        rfl

theorem bigram_find_count_map_increment_bigram (m : List struct_map_bigram) (b k : Nat × Nat) :
    bigram_find_count (map_increment_bigram m b) k =
      bigram_find_count m k + (if k = b then 1 else 0) := by
  induction m with
  | nil =>
    by_cases h : k = b
    · simp [map_increment_bigram, bigram_find_count, bigram_key, h]
    · have h' : ¬ b = k := fun x => h x.symm
      simp [map_increment_bigram, bigram_find_count, bigram_key, h, h']
  | cons e es ih =>
    unfold map_increment_bigram
    by_cases h : e.word_1 = b.1 ∧ e.word_2 = b.2
    · have hk : bigram_key e = b := Prod.ext h.1 h.2
      rw [if_pos h]
      by_cases hkb : k = b
      · subst hkb
        simp [bigram_find_count, List.find?_cons, bigram_key, h.1, h.2]
      · have h1 : ¬ bigram_key e = k := fun x => hkb (by rw [← x, hk])
        have h2 : ¬ bigram_key { e with count := e.count + 1 } = k := h1
        simp only [bigram_find_count, List.find?_cons, h1, h2, decide_False, if_neg hkb,
          Nat.add_zero]
    · rw [if_neg h]
      by_cases hke : bigram_key e = k
      · have hkb : ¬ k = b := by
          intro x
          apply h
          rw [← x, ← hke]
          exact ⟨rfl, rfl⟩
        simp [bigram_find_count, List.find?_cons, hke, hkb]
      · have := ih
        simp only [bigram_find_count, List.find?_cons, hke, decide_False] at this ⊢
        exact this

theorem bigram_find_count_of_mem (m : List struct_map_bigram)
    (hnd : (m.map bigram_key).Nodup) (e : struct_map_bigram) (he : e ∈ m) :
    bigram_find_count m (bigram_key e) = e.count := by
  induction m with
  | nil => cases he
  | cons x xs ih =>
    rw [List.map_cons, List.nodup_cons] at hnd
    by_cases hx : bigram_key x = bigram_key e
    · have : e = x := by
        rcases List.mem_cons.mp he with h | h
        · exact h
        · exact absurd (List.mem_map.mpr ⟨e, h, hx.symm⟩) hnd.1
      subst this
      simp [bigram_find_count, List.find?_cons]
    · have he' : e ∈ xs := by
        rcases List.mem_cons.mp he with h | h
        · exact absurd (by rw [h]) hx
        · exact h
      have := ih hnd.2 he'
      simp only [bigram_find_count, List.find?_cons, hx, decide_False] at this ⊢
      exact this

theorem foldl_map_increment_bigram (evs : List (Nat × Nat)) (m : List struct_map_bigram)
    (hnd : (m.map bigram_key).Nodup) :
    ((evs.foldl map_increment_bigram m).map bigram_key).Nodup ∧
    (∀ k ∈ (evs.foldl map_increment_bigram m).map bigram_key, k ∈ m.map bigram_key ∨ k ∈ evs) ∧
    (∀ k, bigram_find_count (evs.foldl map_increment_bigram m) k =
      bigram_find_count m k + evs.count k) := by
  induction evs generalizing m with
  | nil => exact ⟨hnd, fun k hk => Or.inl hk, fun k => rfl⟩
  | cons b bs ih =>
    have hk := keys_map_increment_bigram m b
    have hnd' : ((map_increment_bigram m b).map bigram_key).Nodup := by
      rw [hk]
      by_cases hb : b ∈ m.map bigram_key
      · rw [if_pos hb]
        exact hnd
      · rw [if_neg hb]
        exact List.Nodup.append hnd (List.nodup_singleton b)
          (by
            intro x hx hx'
            rw [List.mem_singleton] at hx'
            exact hb (hx' ▸ hx))
    obtain ⟨h1, h2, h3⟩ := ih (map_increment_bigram m b) hnd'
    rw [List.foldl_cons]
    refine ⟨h1, ?_, ?_⟩
    · intro k hkm
      rcases h2 k hkm with h | h
      · rw [hk] at h
        by_cases hb : b ∈ m.map bigram_key
        · rw [if_pos hb] at h
          exact Or.inl h
        · rw [if_neg hb, List.mem_append, List.mem_singleton] at h
          rcases h with h | h
          · exact Or.inl h
          · exact Or.inr (h ▸ List.mem_cons_self b bs)
      · exact Or.inr (List.mem_cons_of_mem b h)
    · intro k
      rw [h3 k, bigram_find_count_map_increment_bigram, List.count_cons]
      by_cases hkb : k = b
      · subst hkb
        simp
        omega
      · have : ¬ b = k := fun x => hkb x.symm
        simp [hkb, this]

theorem set_bigram_counts_eq (MAX_WORD_PREDECESSORS : Nat)
    (word_bigrams : List struct_word_bigram_entry) (corpus : List (List Nat)) (reverse : Bool) :
    set_bigram_counts MAX_WORD_PREDECESSORS word_bigrams corpus reverse =
      ((sort_bigrams ((bigram_events corpus reverse).foldl map_increment_bigram [])).foldl
        set_bigram_counts_step
        { word_bigrams := word_bigrams
          word_2_last := 0
          length := 0
          word_buffer := List.replicate MAX_WORD_PREDECESSORS 0
          count_buffer := List.replicate MAX_WORD_PREDECESSORS 0 }).word_bigrams := by
  unfold set_bigram_counts bigram_events
  simp only []
  congr 3
  generalize ([] : List struct_map_bigram) = m
  induction corpus generalizing m with
  | nil => rfl
  | cons s ss ih =>
    rw [List.foldl_cons, ih, List.flatMap_cons, List.foldl_append, List.foldl_map]

theorem take_set_succ {α : Type} (l : List α) (n : Nat) (a : α) (h : n < l.length) :
    (l.set n a).take (n + 1) = l.take n ++ [a] := by
  induction l generalizing n with
  | nil => simp at h
  | cons x xs ih =>
    cases n with
    | zero => simp
    | succ m =>
      simp only [List.set_cons_succ, List.take_succ_cons, List.cons_append, List.cons.injEq,
        true_and]
      exact ih m (by simpa using h)

theorem set_bigram_counts_loop (MAX_WORD_PREDECESSORS : Nat) (B : List struct_map_bigram)
    (hs : List.Sorted (fun a b : struct_map_bigram => a.word_2 ≤ b.word_2) B)
    (hg : ∀ e ∈ B, (B.filter fun x => x.word_2 = e.word_2).length ≤ MAX_WORD_PREDECESSORS)
    (S P : List struct_map_bigram) (st : bigram_loop_state) (hB : B = P ++ S)
    (J1 : P = [] ∨ ∃ p ∈ P, p.word_2 = st.word_2_last)
    (J7 : ∀ e ∈ P, e.word_2 ≤ st.word_2_last)
    (I2 : st.length = (P.filter fun e => e.word_2 = st.word_2_last).length)
    (I3 : st.word_buffer.take st.length =
      (P.filter fun e => e.word_2 = st.word_2_last).map fun e => e.word_1)
    (I4 : st.count_buffer.take st.length =
      (P.filter fun e => e.word_2 = st.word_2_last).map fun e => e.count)
    (I5 : st.word_buffer.length = MAX_WORD_PREDECESSORS ∧
      st.count_buffer.length = MAX_WORD_PREDECESSORS)
    (I6 : ∀ w, (st.word_bigrams.getD w ⟨0, [], []⟩).length = 0 ∨
      st.word_bigrams.getD w ⟨0, [], []⟩ =
        ⟨(B.filter fun e => e.word_2 = w).length,
          (B.filter fun e => e.word_2 = w).map fun e => e.word_1,
          (B.filter fun e => e.word_2 = w).map fun e => e.count⟩) :
    ∀ w, (((S.foldl set_bigram_counts_step st).word_bigrams).getD w ⟨0, [], []⟩).length = 0 ∨
      ((S.foldl set_bigram_counts_step st).word_bigrams).getD w ⟨0, [], []⟩ =
        ⟨(B.filter fun e => e.word_2 = w).length,
          (B.filter fun e => e.word_2 = w).map fun e => e.word_1,
          (B.filter fun e => e.word_2 = w).map fun e => e.count⟩ := by
  induction S generalizing P st with
  | nil => exact I6
  | cons x S' ih =>
    rw [List.foldl_cons]
    have hB' : B = (P ++ [x]) ++ S' := by rw [hB]; simp
    have hxB : x ∈ B := by rw [hB]; simp
    have hpw := hs
    rw [List.Sorted, hB, List.pairwise_append] at hpw
    have hPx : ∀ e ∈ P, e.word_2 ≤ x.word_2 :=
      fun e he => hpw.2.2 e he x (List.mem_cons_self x S')
    have hxS : ∀ y ∈ S', x.word_2 ≤ y.word_2 :=
      fun y hy => (List.pairwise_cons.mp hpw.2.1).1 y hy
    have hgx := hg x hxB
    have hsub : ∀ w, ((P ++ [x]).filter fun e => e.word_2 = w).length ≤
        (B.filter fun e => e.word_2 = w).length := by
      intro w
      apply List.Sublist.length_le
      apply List.Sublist.filter
      rw [hB']
      exact List.sublist_append_left _ _
    by_cases hx : x.word_2 = st.word_2_last
    · -- the entry continues the current group
      have hstep : set_bigram_counts_step st x =
          { st with
            word_buffer := st.word_buffer.set st.length x.word_1
            count_buffer := st.count_buffer.set st.length x.count
            length := st.length + 1 } := by
        unfold set_bigram_counts_step
        simp only [hx, if_true]
      have hfil : ((P ++ [x]).filter fun e => e.word_2 = st.word_2_last) =
          (P.filter fun e => e.word_2 = st.word_2_last) ++ [x] := by
        rw [List.filter_append]
        simp [hx]
      have hn : st.length < MAX_WORD_PREDECESSORS := by
        have h1 := hsub st.word_2_last
        rw [hfil, List.length_append, List.length_singleton, ← I2] at h1
        rw [hx] at hgx
        omega
      rw [hstep]
      apply ih (P ++ [x])
      · exact hB'
      · exact Or.inr ⟨x, by simp, hx⟩
      · intro e he
        rcases List.mem_append.mp he with h | h
        · exact J7 e h
        · rw [List.mem_singleton] at h
          rw [h, hx]
      · simp only []
        rw [hfil, List.length_append, List.length_singleton, I2]
      · simp only []
        rw [hfil, take_set_succ _ _ _ (by rw [I5.1]; exact hn), I3, List.map_append]
        rfl
      · simp only []
        rw [hfil, take_set_succ _ _ _ (by rw [I5.2]; exact hn), I4, List.map_append]
        rfl
      · simp only [List.length_set]
        exact I5
      · exact I6
    · -- the entry starts a new group: the previous one is written
      have hstep : set_bigram_counts_step st x =
          { word_bigrams := st.word_bigrams.set st.word_2_last
              ⟨st.length, st.word_buffer.take st.length, st.count_buffer.take st.length⟩
            word_2_last := x.word_2
            word_buffer := st.word_buffer.set 0 x.word_1
            count_buffer := st.count_buffer.set 0 x.count
            length := 1 } := by
        unfold set_bigram_counts_step
        simp only [hx, if_false]
      have hlt : P ≠ [] → st.word_2_last < x.word_2 := by
        intro hP
        rcases J1 with h | ⟨p, hp, hpl⟩
        · exact absurd h hP
        · have := hPx p hp
          rw [hpl] at this
          omega
      have hPne : ∀ e ∈ P, ¬ e.word_2 = x.word_2 := by
        intro e he h
        have h1 := J7 e he
        have h2 := hlt (List.ne_nil_of_mem he)
        omega
      have hfil : ((P ++ [x]).filter fun e => e.word_2 = x.word_2) = [x] := by
        rw [List.filter_append]
        have : (P.filter fun e => e.word_2 = x.word_2) = [] := by
          rw [List.filter_eq_nil_iff]
          intro e he
          simpa using hPne e he
        rw [this]
        simp
      have hpos : 0 < MAX_WORD_PREDECESSORS := by
        have h1 := hsub x.word_2
        rw [hfil, List.length_singleton] at h1
        omega
      rw [hstep]
      apply ih (P ++ [x])
      · exact hB'
      · exact Or.inr ⟨x, by simp, rfl⟩
      · intro e he
        rcases List.mem_append.mp he with h | h
        · exact hPx e h
        · rw [List.mem_singleton] at h
          rw [h]
      · simp only []
        rw [hfil, List.length_singleton]
      · simp only []
        rw [hfil, take_set_succ _ _ _ (by rw [I5.1]; exact hpos)]
        rfl
      · simp only []
        rw [hfil, take_set_succ _ _ _ (by rw [I5.2]; exact hpos)]
        rfl
      · simp only [List.length_set]
        exact I5
      · intro w
        simp only []
        by_cases hw : st.word_2_last = w ∧ st.word_2_last < st.word_bigrams.length
        · obtain ⟨hw1, hw2⟩ := hw
          subst hw1
          have hget : (st.word_bigrams.set st.word_2_last
              ⟨st.length, st.word_buffer.take st.length,
                st.count_buffer.take st.length⟩).getD st.word_2_last ⟨0, [], []⟩ =
              ⟨st.length, st.word_buffer.take st.length, st.count_buffer.take st.length⟩ := by
            simp [List.getD_eq_getElem?_getD, List.getElem?_set, hw2]
          rw [hget]
          by_cases hP : P = []
          · left
            simp only []
            rw [I2, hP]
            rfl
          · right
            have hall : (B.filter fun e => e.word_2 = st.word_2_last) =
                (P.filter fun e => e.word_2 = st.word_2_last) := by
              rw [hB, List.filter_append]
              have : ((x :: S').filter fun e => e.word_2 = st.word_2_last) = [] := by
                rw [List.filter_eq_nil_iff]
                intro y hy
                have h2 := hlt hP
                rcases List.mem_cons.mp hy with h | h
                · rw [h]
                  simp
                  omega
                · have := hxS y h
                  simp
                  omega
              rw [this, List.append_nil]
            rw [hall, I3, I4, I2]
        · have hget : (st.word_bigrams.set st.word_2_last
              ⟨st.length, st.word_buffer.take st.length,
                st.count_buffer.take st.length⟩).getD w ⟨0, [], []⟩ =
              st.word_bigrams.getD w ⟨0, [], []⟩ := by
            simp only [List.getD_eq_getElem?_getD, List.getElem?_set]
            by_cases h1 : st.word_2_last = w
            · have h2 : ¬ w < st.word_bigrams.length := fun h => hw ⟨h1, h1 ▸ h⟩
              rw [if_pos h1, if_neg (by rw [h1]; exact h2), List.getElem?_eq_none (by omega)]
            · rw [if_neg h1]
          rw [hget]
          exact I6 w

theorem group_words_nodup (B : List struct_map_bigram) (hnd : (B.map bigram_key).Nodup)
    (w : Nat) : ((B.filter fun e => e.word_2 = w).map fun e => e.word_1).Nodup := by
  have hk : ((B.filter fun e => e.word_2 = w).map bigram_key).Nodup :=
    List.Nodup.sublist (List.Sublist.map bigram_key (List.filter_sublist B)) hnd
  have heq : (B.filter fun e => e.word_2 = w).map bigram_key =
      ((B.filter fun e => e.word_2 = w).map fun e => e.word_1).map fun u => (u, w) := by
    rw [List.map_map]
    apply List.map_congr_left
    intro e he
    have := (List.mem_filter.mp he).2
    simp only [decide_eq_true_eq] at this
    simp [bigram_key, this]
  rw [heq] at hk
  exact List.Nodup.of_map _ hk

theorem sorted_bigram_map (evs : List (Nat × Nat)) :
    ((sort_bigrams (evs.foldl map_increment_bigram [])).map bigram_key).Nodup ∧
    List.Sorted (fun a b : struct_map_bigram => a.word_2 ≤ b.word_2)
      (sort_bigrams (evs.foldl map_increment_bigram [])) ∧
    ∀ x ∈ sort_bigrams (evs.foldl map_increment_bigram []),
      bigram_key x ∈ evs ∧ x.count = evs.count (bigram_key x) := by
  obtain ⟨h1, h2, h3⟩ := foldl_map_increment_bigram evs [] (by simp)
  have hperm : (sort_bigrams (evs.foldl map_increment_bigram [])).Perm
      (evs.foldl map_increment_bigram []) := List.perm_insertionSort _ _
  refine ⟨(hperm.map bigram_key).nodup_iff.mpr h1, ?_, ?_⟩
  · exact @List.sorted_insertionSort _ (fun a b : struct_map_bigram => a.word_2 ≤ b.word_2) _
      ⟨fun a b => Nat.le_total a.word_2 b.word_2⟩
      ⟨fun _ _ _ hab hbc => Nat.le_trans hab hbc⟩ _
  · intro x hx
    have hxM := hperm.mem_iff.mp hx
    have hk : bigram_key x ∈ evs := by
      rcases h2 _ (List.mem_map.mpr ⟨x, hxM, rfl⟩) with h | h
      · simp at h
      · exact h
    refine ⟨hk, ?_⟩
    rw [← bigram_find_count_of_mem _ h1 x hxM, h3]
    simp [bigram_find_count]

/-- C32: when no word has more than `MAX_WORD_PREDECESSORS` distinct predecessors
(successors, in the reverse direction), every entry of a zeroed `word_bigrams` that
`set_bigram_counts` leaves with `length > 0` is sound: for the entry `e` of the word `w`,
the words of `e.words` are distinct, `e.words` and `e.counts` both have `e.length`
elements, and for every `k < e.length` the bigram `(e.words[k], w)` occurs in the corpus
and `e.counts[k]` is the number of its occurrences. -/
theorem set_bigram_counts_sound (MAX_WORD_PREDECESSORS V : Nat) (corpus : List (List Nat))
    (reverse : Bool)
    (hmax : ∀ b ∈ bigram_events corpus reverse,
      (predecessors corpus reverse b.2).length ≤ MAX_WORD_PREDECESSORS)
    (w : Nat) (e : struct_word_bigram_entry)
    (he : (set_bigram_counts MAX_WORD_PREDECESSORS (List.replicate V ⟨0, [], []⟩) corpus
      reverse).getD w ⟨0, [], []⟩ = e)
    (hpos : 0 < e.length) :
    e.words.Nodup ∧ e.words.length = e.length ∧ e.counts.length = e.length ∧
    ∀ k, k < e.length →
      (e.words.getD k 0, w) ∈ bigram_events corpus reverse ∧
      e.counts.getD k 0 = (bigram_events corpus reverse).count (e.words.getD k 0, w) := by
  obtain ⟨hnd, hs, hB⟩ := sorted_bigram_map (bigram_events corpus reverse)
  generalize hBdef : sort_bigrams ((bigram_events corpus reverse).foldl map_increment_bigram [])
    = B at hnd hs hB
  have hg : ∀ x ∈ B, (B.filter fun y => y.word_2 = x.word_2).length ≤ MAX_WORD_PREDECESSORS := by
    intro x hx
    have h1 := group_words_nodup B hnd x.word_2
    have h2 : ((B.filter fun y => y.word_2 = x.word_2).map fun y => y.word_1) ⊆
        predecessors corpus reverse x.word_2 := by
      intro u hu
      obtain ⟨y, hy, hyu⟩ := List.mem_map.mp hu
      have hy' := List.mem_filter.mp hy
      have hy2 : y.word_2 = x.word_2 := by simpa using hy'.2
      unfold predecessors
      rw [List.mem_dedup, List.mem_map]
      refine ⟨bigram_key y, ?_, hyu⟩
      rw [List.mem_filter]
      exact ⟨(hB y hy'.1).1, by simp [bigram_key, hy2]⟩
    have h3 := (h1.subperm h2).length_le
    rw [List.length_map] at h3
    have h4 := hmax _ (hB x hx).1
    simp only [bigram_key] at h4
    omega
  have hloop := set_bigram_counts_loop MAX_WORD_PREDECESSORS B hs hg B []
    { word_bigrams := List.replicate V ⟨0, [], []⟩
      word_2_last := 0
      length := 0
      word_buffer := List.replicate MAX_WORD_PREDECESSORS 0
      count_buffer := List.replicate MAX_WORD_PREDECESSORS 0 }
    (by simp) (Or.inl rfl) (fun _ h => by cases h) rfl rfl rfl (by simp)
    (by
      intro w'
      left
      simp only [List.getD_eq_getElem?_getD, List.getElem?_replicate]
      split <;> rfl) w
  rw [set_bigram_counts_eq, hBdef] at he
  rw [he] at hloop
  rcases hloop with h | h
  · omega
  · have hw : e.words = (B.filter fun x => x.word_2 = w).map fun x => x.word_1 := by rw [h]
    have hc : e.counts = (B.filter fun x => x.word_2 = w).map fun x => x.count := by rw [h]
    have hl : e.length = (B.filter fun x => x.word_2 = w).length := by rw [h]
    refine ⟨by rw [hw]; exact group_words_nodup B hnd w, by rw [hw, hl, List.length_map],
      by rw [hc, hl, List.length_map], ?_⟩
    intro k hk
    rw [hl] at hk
    have hmem := List.getElem_mem hk
    have hx := List.mem_filter.mp hmem
    have hx2 : ((B.filter fun x => x.word_2 = w)[k]).word_2 = w := by simpa using hx.2
    have hkey : bigram_key ((B.filter fun x => x.word_2 = w)[k]) =
        (((B.filter fun x => x.word_2 = w)[k]).word_1, w) := by
      simp [bigram_key, hx2]
    have hwk : e.words.getD k 0 = ((B.filter fun x => x.word_2 = w)[k]).word_1 := by
      rw [hw, List.getD_eq_getElem?_getD, List.getElem?_map, List.getElem?_eq_getElem hk]
      rfl
    have hck : e.counts.getD k 0 = ((B.filter fun x => x.word_2 = w)[k]).count := by
      rw [hc, List.getD_eq_getElem?_getD, List.getElem?_map, List.getElem?_eq_getElem hk]
      rfl
    rw [hwk, hck, ← hkey]
    exact hB _ hx.1

theorem set_bigram_counts_sound_witness :
    ((∀ b ∈ bigram_events [[0, 2, 3, 1], [0, 3, 3, 1]] false,
        (predecessors [[0, 2, 3, 1], [0, 3, 3, 1]] false b.2).length ≤ 10) ∧
      (set_bigram_counts 10 (List.replicate 4 ⟨0, [], []⟩) [[0, 2, 3, 1], [0, 3, 3, 1]]
        false).getD 1 ⟨0, [], []⟩ = ⟨1, [3], [2]⟩ ∧
      0 < (⟨1, [3], [2]⟩ : struct_word_bigram_entry).length) ∧
    ∀ k, k < (⟨1, [3], [2]⟩ : struct_word_bigram_entry).length →
      ((⟨1, [3], [2]⟩ : struct_word_bigram_entry).words.getD k 0, 1) ∈
        bigram_events [[0, 2, 3, 1], [0, 3, 3, 1]] false ∧
      (⟨1, [3], [2]⟩ : struct_word_bigram_entry).counts.getD k 0 =
        (bigram_events [[0, 2, 3, 1], [0, 3, 3, 1]] false).count
          ((⟨1, [3], [2]⟩ : struct_word_bigram_entry).words.getD k 0, 1) :=
  have h : (set_bigram_counts 10 (List.replicate 4 ⟨0, [], []⟩) [[0, 2, 3, 1], [0, 3, 3, 1]]
      false).getD 1 ⟨0, [], []⟩ = ⟨1, [3], [2]⟩ := by
    simp [set_bigram_counts, map_increment_bigram, sort_bigrams, set_bigram_counts_step,
      List.range']
  ⟨⟨by decide, h, by decide⟩,
    (set_bigram_counts_sound 10 4 [[0, 2, 3, 1], [0, 3, 3, 1]] false (by decide) 1
      ⟨1, [3], [2]⟩ h (by decide)).2.2.2⟩

/-! ### Array accesses, the two passes and the filter counters: claims C31, C33, C34 -/

/-- C31, evaluated at `max_array = 1`: `init_count_arrays` allocates the single array
`count_arrays[0]`, and at every position of every sentence `query_int_sents_in_store` reads
`count_arrays[1]` for the numerator of the bigram ratio (and again for the future bigram
when `i < L - 1`); with `max_array = 2` it reads the orders 1 and 2 only.
`tally_int_sents_in_store` does not read `max_array`: with `CLASSLEN = 3` it writes the
arrays of the orders 3, 2 and 1 at position 2. -/
theorem query_position_reads_unallocated (K : Nat) (sent : List Nat) (class_sent : Nat → Nat)
    (i : Nat) :
    (init_count_arrays 1 K).length = 1 ∧
    (query_position_reads 1 K sent class_sent i).map Prod.fst =
      [0, 1, 0] ++ (if i < sent.length - 1 then [1, 0] else []) ∧
    (1, array_offset (slice class_sent (i - 1) 2) 2 K) ∈
      query_position_reads 1 K sent class_sent i ∧
    (query_position 1 K 3 [1, 1, 1, 0] (init_count_arrays 1 K) sent class_sent
      i).order_probs.getD 1 fval.nan =
      fval.of_counts
        (count_at (init_count_arrays 1 K) 1 (array_offset (slice class_sent (i - 1) 2) 2 K))
        (count_at (init_count_arrays 1 K) 0 (array_offset (slice class_sent i 1) 1 K)) ∧
    (∀ n ∈ (query_position_reads 2 K sent class_sent i).map Prod.fst, n < 2) ∧
    (tally_int_events 3 K class_sent 2).map Prod.fst = [2, 1, 0] := by
  refine ⟨by simp [init_count_arrays], ?_, ?_, query_position_bigram _ _ _ _ _ _ _ _, ?_, ?_⟩
  · unfold query_position_reads
    by_cases h : i < sent.length - 1 <;> simp [h]
  · unfold query_position_reads
    simp
  · unfold query_position_reads
    by_cases h : i < sent.length - 1 <;> simp [h]
  · rw [tally_int_events_eq 3 K class_sent 2 (by decide) (by decide)]
    simp [tally_events]

/-- C33, evaluated on the buffer made of the line `a` and an empty line (with
`min_count = 1`): the vocabulary is `<s>`, `</s>`, `a`, `<unk>` with the ids 0 to 3, the
word counts of `<s>` and `</s>` are 1, the number of lines that the first pass counts, and
the integer corpus `[[0, 2, 1], [0, 1]]` holds each of the two ids twice. -/
theorem word_counts_empty_line :
    ∃ r, main_build example_limits 1 ["a\n".toList, "\n".toList] = Except.ok r ∧
      r.word_list = ["<s>".toList, "</s>".toList, "a".toList, UNKNOWN_WORD] ∧
      r.sent_store_int = [[0, 2, 1], [0, 1]] ∧
      map_find_int r.ngram_map "<s>".toList = 0 ∧
      r.word_counts.getD 0 0 = 1 ∧ word_occurrences r.sent_store_int 0 = 2 ∧
      map_find_int r.ngram_map "</s>".toList = 1 ∧
      r.word_counts.getD 1 0 = 1 ∧ word_occurrences r.sent_store_int 1 = 2 ∧
      map_find_int r.ngram_map "a".toList = 2 ∧
      r.word_counts.getD 2 0 = 1 ∧ word_occurrences r.sent_store_int 2 = 1 :=
  ⟨_, rfl, by decide, rfl, by decide, by decide, by decide, by decide, by decide, by decide,
    by decide, by decide, by decide⟩

/-- C34: on a map with distinct keys that holds `<unk>`, `filter_infrequent_words` stops
with `exit(4)` when `type_count` is not the number of entries of the map; when it is, the
function returns, `type_count` is again the number of entries of the map, and the value
returned is the number of entries removed, which is the decrease of `type_count`. -/
theorem filter_infrequent_words_type_count (L : Limits) (min_count type_count : Nat)
    (m : List struct_map_word) (hM : 5 < L.MAX_WORD_LEN) (hnd : (get_keys m).Nodup)
    (hunk : UNKNOWN_WORD ∈ get_keys m) :
    (type_count ≠ map_count m →
      filter_infrequent_words L min_count type_count m = Except.error 4) ∧
    (type_count = map_count m →
      ∃ r, filter_infrequent_words L min_count type_count m = Except.ok r ∧
        r.type_count = map_count r.ngram_map ∧
        r.number_of_deleted_words + map_count r.ngram_map = map_count m ∧
        r.number_of_deleted_words + r.type_count = type_count) := by
  constructor
  · intro h
    unfold filter_infrequent_words
    simp only []
    rw [if_pos (by rw [length_get_keys]; exact h)]
  · intro htc
    refine ⟨_, filter_infrequent_words_ok L min_count type_count m htc, ?_⟩
    have hcnt := fold_counters L min_count hM (get_keys m)
      { number_of_deleted_words := 0, type_count := type_count, ngram_map := m } hnd hnd
    have hlen := fold_length L min_count hM (get_keys m)
      { number_of_deleted_words := 0, type_count := type_count, ngram_map := m } hnd hnd hunk
      (fun w hw => hw)
    simp only [] at hcnt hlen
    generalize (get_keys m).foldl (filter_infrequent_words_step L min_count)
      { number_of_deleted_words := 0, type_count := type_count, ngram_map := m } = r
      at hcnt hlen
    unfold map_count at htc ⊢
    omega

theorem filter_infrequent_words_type_count_witness :
    (5 < example_limits.MAX_WORD_LEN ∧
      (get_keys (process_str_sents_in_buffer example_limits reserved_words_map
        example_buffer).2).Nodup ∧
      UNKNOWN_WORD ∈ get_keys (process_str_sents_in_buffer example_limits reserved_words_map
        example_buffer).2 ∧
      7 = map_count (process_str_sents_in_buffer example_limits reserved_words_map
        example_buffer).2) ∧
    ∃ r, filter_infrequent_words example_limits 2 7
        (process_str_sents_in_buffer example_limits reserved_words_map example_buffer).2 =
          Except.ok r ∧
      r.type_count = map_count r.ngram_map ∧
      r.number_of_deleted_words + map_count r.ngram_map =
        map_count (process_str_sents_in_buffer example_limits reserved_words_map
          example_buffer).2 ∧
      r.number_of_deleted_words + r.type_count = 7 :=
  ⟨by decide,
    (filter_infrequent_words_type_count example_limits 2 7
      (process_str_sents_in_buffer example_limits reserved_words_map example_buffer).2
      (by decide) (by decide) (by decide)).2 (by decide)⟩

end ClusterCat
